import Mathlib

/-!
# Code execution with test-case grading (GolangLearn)

A shallow embedding of

* `pkg/codeexec/judge0_client.go` (the Judge0 client: `Submit`, `GetResult`,
  `SubmitAndWait`, `IsAvailable`, the `LanguageID` table),
* `internal/usecase/codeexec/service.go` (the service: `Execute`,
  `executeSimple`, `executeWithTests`, `executeLocalGo`),
* `internal/domain/code/model.go` (the request and response types).

Everything outside the repository that the code talks to (the HTTP transport,
the JSON decoder, the clock, the ticker and the context) is an input of the
model, collected in `Env`.  The mutable part of a run (how many clock readings,
HTTP exchanges and `select` statements have happened, and the log of calls
made) is `St`, passed explicitly.  The poll loop of `SubmitAndWait` is the only
unbounded loop; it runs on fuel and returns `none` when the fuel is used up.
-/

namespace GolangLearn

/-! ## Go errors -/

/-- Go error values: `fmt.Errorf`/`errors.New` without `%w` is `errorf`,
`fmt.Errorf(pre + "%w", cause)` is `wrapf`. -/
inductive GoError where
  | errorf (msg : String)
  | wrapf (pre : String) (cause : GoError)
deriving DecidableEq, Repr

/-- The text of an error, `err.Error()`. -/
def GoError.Error : GoError → String
  | .errorf msg => msg
  | .wrapf pre cause => pre ++ cause.Error

/-- The wrapped cause, `errors.Unwrap(err)`. -/
def GoError.Unwrap : GoError → Option GoError
  | .errorf _ => none
  | .wrapf _ cause => some cause

deriving instance DecidableEq for Except

/-! ## `internal/domain/code/model.go` -/

/-- One test case of a request (`TestCase`). -/
structure TestCase where
  Input : String
  ExpectedOutput : String
  Description : String
deriving DecidableEq, Repr

/-- The request (`ExecuteRequest`). -/
structure ExecuteRequest where
  Code : String
  Language : String
  Stdin : String
  TestCases : List TestCase
deriving DecidableEq, Repr

/-- The result of one test case (`TestResult`). -/
structure TestResult where
  TestCase : TestCase
  ActualOutput : String
  Passed : Bool
  ErrorMessage : String
  ExecutionTimeMs : Int
deriving DecidableEq, Repr

/-- The response (`ExecuteResponse`); fields a struct literal leaves out have
Go's zero value. -/
structure ExecuteResponse where
  Output : String
  Error : String
  Passed : Bool
  TestResults : List TestResult
  ExecutionTimeMs : Int
  ExitCode : Int
deriving DecidableEq, Repr

/-! ## `pkg/codeexec/judge0_client.go`: types -/

/-- The client's configuration (`Client`); its `httpClient` is the transport
of `Env`. -/
structure Client where
  apiURL : String
  apiKey : String
deriving DecidableEq, Repr

/-- The table `LanguageID`, in source order. -/
def LanguageID : List (String × Int) :=
  [("python", 71), ("javascript", 63), ("java", 62), ("go", 60), ("cpp", 54)]

/-- The payload of a submission (`SubmissionRequest`). -/
structure SubmissionRequest where
  SourceCode : String
  LanguageID : Int
  Stdin : String
  CPUTimeLimit : Int
  MemoryLimit : Int
deriving DecidableEq, Repr

/-- The anonymous struct of `SubmissionResult.Status`. -/
structure Status where
  ID : Int
  Description : String
deriving DecidableEq, Repr

/-- The judge's answer to a poll (`SubmissionResult`). -/
structure SubmissionResult where
  Status : Status
  Stdout : String
  Stderr : String
  CompileOutput : String
  Time : String
  Memory : Int
  ExitCode : Int
  ExitSignal : Option Int
deriving DecidableEq, Repr

/-! ## The environment -/

/-- An outgoing HTTP request.  The body of a POST is the JSON encoding of a
`SubmissionRequest`; it is kept structured (`json.Marshal` cannot fail on a
struct of strings and ints, so the `marshal request` branch is unreachable). -/
structure HTTPRequest where
  method : String
  url : String
  header : List (String × String)
  body : Option SubmissionRequest
deriving DecidableEq, Repr

/-- What `httpClient.Do` gives back: an error, or a response with its status
code and body. -/
inductive HTTPOutcome where
  | err (e : GoError)
  | resp (StatusCode : Int) (Body : String)
deriving DecidableEq, Repr

/-- Which case of the `select` in the poll loop fires: the context is done
(`ctx.Err()` is then `err`), or the ticker ticks. -/
inductive SelectEvent where
  | done (err : GoError)
  | tick
deriving DecidableEq, Repr

/-- Everything the code consults but does not own.
* `clock k` is the k-th reading of `time.Now()`, in nanoseconds;
* `urlErr url` is the error of `http.NewRequestWithContext` for `url`, if any;
* `http k r` is the outcome of the k-th `httpClient.Do`, sent with request `r`;
* `decodeToken`/`decodeResult` are `json.Decoder.Decode` into a
  `SubmissionResponse` (its `Token`) and into a `SubmissionResult`;
* `select k` is the case taken by the k-th `select`. -/
structure Env where
  clock : Nat → Int
  urlErr : String → Option GoError
  http : Nat → HTTPRequest → HTTPOutcome
  decodeToken : String → Except GoError String
  decodeResult : String → Except GoError SubmissionResult
  select : Nat → SelectEvent

/-- A completed call, with what it returned. -/
inductive Call where
  | Submit (req : SubmissionRequest) (ret : Except GoError String)
  | GetResult (token : String) (ret : Except GoError SubmissionResult)
  | executeLocalGo (code stdin : String) (ret : Except GoError SubmissionResult)
deriving DecidableEq

/-- The mutable part of a run: how far the environment has been consumed, and
the log of the calls completed so far (oldest first). -/
structure St where
  clockReads : Nat
  exchanges : Nat
  selects : Nat
  trace : List Call
deriving DecidableEq

/-- Append a completed call to the log. -/
def St.record (st : St) (c : Call) : St :=
  { st with trace := st.trace ++ [c] }

/-- One reading of the clock, `time.Now()`. -/
def timeNow (env : Env) (st : St) : Int × St :=
  (env.clock st.clockReads, { st with clockReads := st.clockReads + 1 })

/-- Clamp to the range of `int64`, as `Time.Sub` does for a `Duration`. -/
def clampInt64 (d : Int) : Int :=
  if d < -(2 ^ 63) then -(2 ^ 63) else if 2 ^ 63 - 1 < d then 2 ^ 63 - 1 else d

/-- The elapsed time `time.Since(start)`, a `Duration` in nanoseconds. -/
def timeSince (env : Env) (start : Int) (st : St) : Int × St :=
  match timeNow env st with
  | (now, st1) => (clampInt64 (now - start), st1)

/-- Whole milliseconds of a duration, `Duration.Milliseconds()`: integer
division truncating toward zero. -/
def Milliseconds (d : Int) : Int :=
  Int.tdiv d 1000000

/-- One HTTP exchange, `httpClient.Do(httpReq)`. -/
def httpDo (env : Env) (r : HTTPRequest) (st : St) : HTTPOutcome × St :=
  (env.http st.exchanges r, { st with exchanges := st.exchanges + 1 })

/-- One `select` over `ctx.Done()` and `ticker.C`. -/
def selectNext (env : Env) (st : St) : SelectEvent × St :=
  (env.select st.selects, { st with selects := st.selects + 1 })

/-! ## `strings.TrimSpace` -/

/-- Go's `unicode.IsSpace`: the code points with the White_Space property. -/
def isSpace (c : Char) : Bool :=
  let n := c.toNat
  (9 ≤ n && n ≤ 13) || n == 32 || n == 133 || n == 160 || n == 5760 ||
  (8192 ≤ n && n ≤ 8202) || n == 8232 || n == 8233 || n == 8239 || n == 8287 ||
  n == 12288

/-- Go's `strings.TrimSpace`: drop leading and trailing white space. -/
def TrimSpace (s : String) : String :=
  String.mk ((s.data.dropWhile isSpace).reverse.dropWhile isSpace).reverse

/-! ## `pkg/codeexec/judge0_client.go`: operations -/

/-- The headers carrying the API key, set when the key is not empty. -/
def rapidAPIHeaders (c : Client) : List (String × String) :=
  if c.apiKey ≠ "" then
    [("X-RapidAPI-Key", c.apiKey), ("X-RapidAPI-Host", "judge0-ce.p.rapidapi.com")]
  else []

/-- The method `Submit`: create a submission and return its token. -/
def Client.Submit (env : Env) (c : Client) (req : SubmissionRequest) (st : St) :
    Except GoError String × St :=
  let url := c.apiURL ++ "/submissions" ++
    (if c.apiKey ≠ "" then "?base64_encoded=false&wait=false"
     else "?base64_encoded=false&wait=false")
  let out : Except GoError String × St :=
    match env.urlErr url with
    | some err => (.error (.wrapf "create request: " err), st)
    | none =>
      let httpReq : HTTPRequest :=
        { method := "POST", url := url,
          header := ("Content-Type", "application/json") :: rapidAPIHeaders c,
          body := some req }
      match httpDo env httpReq st with
      | (.err err, st1) => (.error (.wrapf "do request: " err), st1)
      | (.resp StatusCode body, st1) =>
        if StatusCode ≠ 201 then
          (.error (.errorf ("judge0 api error: " ++ toString StatusCode ++ " - " ++ body)), st1)
        else
          match env.decodeToken body with
          | .error err => (.error (.wrapf "decode response: " err), st1)
          | .ok token => (.ok token, st1)
  (out.1, out.2.record (.Submit req out.1))

/-- The method `GetResult`: fetch the result of a submission once. -/
def Client.GetResult (env : Env) (c : Client) (token : String) (st : St) :
    Except GoError SubmissionResult × St :=
  let url := c.apiURL ++ "/submissions/" ++ token ++ "?base64_encoded=false"
  let out : Except GoError SubmissionResult × St :=
    match env.urlErr url with
    | some err => (.error (.wrapf "create request: " err), st)
    | none =>
      let httpReq : HTTPRequest :=
        { method := "GET", url := url, header := rapidAPIHeaders c, body := none }
      match httpDo env httpReq st with
      | (.err err, st1) => (.error (.wrapf "do request: " err), st1)
      | (.resp StatusCode body, st1) =>
        if StatusCode ≠ 200 then
          (.error (.errorf ("judge0 api error: " ++ toString StatusCode ++ " - " ++ body)), st1)
        else
          match env.decodeResult body with
          | .error err => (.error (.wrapf "decode response: " err), st1)
          | .ok result => (.ok result, st1)
  (out.1, out.2.record (.GetResult token out.1))

/-- The poll loop of `SubmitAndWait` (`for time.Now().Before(deadline)`), on
fuel: `none` means the fuel ran out before the loop ended. -/
def SubmitAndWait.poll (env : Env) (c : Client) (token : String) (deadline : Int) :
    Nat → St → Option (Except GoError SubmissionResult × St)
  | 0, _ => none
  | fuel + 1, st =>
    match timeNow env st with
    | (now, st1) =>
      if now < deadline then
        match selectNext env st1 with
        | (.done err, st2) => some (.error err, st2)
        | (.tick, st2) =>
          match c.GetResult env token st2 with
          | (.error err, st3) => some (.error err, st3)
          | (.ok result, st3) =>
            if result.Status.ID = 3 then some (.ok result, st3)
            else if result.Status.ID ≤ 2 then SubmitAndWait.poll env c token deadline fuel st3
            else some (.ok result, st3)
      else some (.error (.errorf "timeout waiting for result"), st1)

/-- The method `SubmitAndWait`: submit, then poll until a result with a status
above 2, an error, a done context or the deadline.  `timeout` is a `Duration`
in nanoseconds. -/
def Client.SubmitAndWait (env : Env) (c : Client) (fuel : Nat) (req : SubmissionRequest)
    (timeout : Int) (st : St) : Option (Except GoError SubmissionResult × St) :=
  match c.Submit env req st with
  | (.error err, st1) => some (.error err, st1)
  | (.ok token, st1) =>
    match timeNow env st1 with
    | (now, st2) => SubmitAndWait.poll env c token (now + timeout) fuel st2

/-- The method `IsAvailable`. -/
def Client.IsAvailable (c : Client) : Bool :=
  c.apiURL != ""

/-! ## `internal/usecase/codeexec/service.go` -/

/-- The service (`service`); `judge0Client` is a pointer and may be nil, the
logger is not used by the code below. -/
structure Service where
  judge0Client : Option Client
  timeout : Int
  memoryLimit : Int
deriving DecidableEq, Repr

/-- The method `executeLocalGo`: the development stand-in for a local run. -/
def Service.executeLocalGo (_s : Service) (code stdin : String) (st : St) :
    Except GoError SubmissionResult × St :=
  let result : SubmissionResult :=
    { Status := { ID := 3, Description := "Accepted" },
      Stdout := "Local execution not fully implemented",
      Stderr := "",
      CompileOutput := "", Time := "", Memory := 0,
      ExitCode := 0,
      ExitSignal := none }
  (.ok result, st.record (.executeLocalGo code stdin (.ok result)))

/-- The middle of `executeSimple` (`var result ... ; if s.judge0Client != nil &&
s.judge0Client.IsAvailable() ... else ...`): the raw result of the run, from
the judge when it is available and from the local stand-in for Go otherwise. -/
def executeSimple.raw (env : Env) (s : Service) (fuel : Nat) (req : ExecuteRequest)
    (submissionReq : SubmissionRequest) (st : St) :
    Option (Except GoError SubmissionResult × St) :=
  match s.judge0Client.filter Client.IsAvailable with
  | some c =>
    match c.SubmitAndWait env fuel submissionReq s.timeout st with
    | none => none
    | some (.error err, st1) => some (.error (.wrapf "judge0 execution: " err), st1)
    | some (.ok result, st1) => some (.ok result, st1)
  | none =>
    if req.Language ≠ "go" then
      some (.error (.errorf ("judge0 not available and language " ++ req.Language ++
        " not supported locally. Please configure Judge0")), st)
    else
      match s.executeLocalGo req.Code req.Stdin st with
      | (.error err, st1) => some (.error (.wrapf "local execution: " err), st1)
      | (.ok result, st1) => some (.ok result, st1)

/-- The method `executeSimple`: validate the language, obtain the raw result
(`executeSimple.raw`), and turn it into the response. -/
def Service.executeSimple (env : Env) (s : Service) (fuel : Nat) (req : ExecuteRequest)
    (startTime : Int) (st : St) : Option (Except GoError ExecuteResponse × St) :=
  match LanguageID.lookup req.Language with
  | none => some (.error (.errorf ("unsupported language: " ++ req.Language)), st)
  | some languageID =>
    let submissionReq : SubmissionRequest :=
      { SourceCode := req.Code,
        LanguageID := languageID,
        Stdin := req.Stdin,
        CPUTimeLimit := 5,
        MemoryLimit := s.memoryLimit }
    match executeSimple.raw env s fuel req submissionReq st with
    | none => none
    | some (.error err, st1) => some (.error err, st1)
    | some (.ok result, st1) =>
      match timeSince env startTime st1 with
      | (d, st2) =>
        let elapsed := Milliseconds d
        let passed := result.Status.ID == 3 && result.ExitCode == 0
        let errorMsg :=
          if result.Stderr ≠ "" then result.Stderr
          else if result.CompileOutput ≠ "" then result.CompileOutput
          else if result.Status.ID ≠ 3 then result.Status.Description
          else ""
        some (.ok { Output := result.Stdout,
                    Error := errorMsg,
                    Passed := passed,
                    TestResults := [],
                    ExecutionTimeMs := elapsed,
                    ExitCode := result.ExitCode }, st2)

/-- The loop of `executeWithTests` over the remaining test cases, carrying
`testResults` and `allPassed`. -/
def executeWithTests.loop (env : Env) (s : Service) (fuel : Nat) (req : ExecuteRequest) :
    List TestCase → List TestResult → Bool → St → Option (List TestResult × Bool × St)
  | [], testResults, allPassed, st => some (testResults, allPassed, st)
  | testCase :: rest, testResults, allPassed, st =>
    match timeNow env st with
    | (testStart, st1) =>
      let testReq : ExecuteRequest :=
        { Code := req.Code, Language := req.Language, Stdin := testCase.Input, TestCases := [] }
      match s.executeSimple env fuel testReq testStart st1 with
      | none => none
      | some (.error err, st2) =>
        match timeSince env testStart st2 with
        | (d, st3) =>
          executeWithTests.loop env s fuel req rest
            (testResults ++ [{ TestCase := testCase,
                               ActualOutput := "",
                               Passed := false,
                               ErrorMessage := err.Error,
                               ExecutionTimeMs := Milliseconds d }])
            false st3
      | some (.ok result, st2) =>
        let actualNormalized := TrimSpace result.Output
        let expectedNormalized := TrimSpace testCase.ExpectedOutput
        let passed := actualNormalized == expectedNormalized
        executeWithTests.loop env s fuel req rest
          (testResults ++ [{ TestCase := testCase,
                             ActualOutput := result.Output,
                             Passed := passed,
                             ErrorMessage := result.Error,
                             ExecutionTimeMs := result.ExecutionTimeMs }])
          (if !passed then false else allPassed) st2

/-- The method `executeWithTests`: one run per test case, then the aggregate. -/
def Service.executeWithTests (env : Env) (s : Service) (fuel : Nat) (req : ExecuteRequest)
    (startTime : Int) (st : St) : Option (Except GoError ExecuteResponse × St) :=
  match executeWithTests.loop env s fuel req req.TestCases [] true st with
  | none => none
  | some (testResults, allPassed, st1) =>
    match timeSince env startTime st1 with
    | (d, st2) =>
      some (.ok { Output := "",
                  Error := "",
                  Passed := allPassed,
                  TestResults := testResults,
                  ExecutionTimeMs := Milliseconds d,
                  ExitCode := 0 }, st2)

/-- The method `Execute`. -/
def Service.Execute (env : Env) (s : Service) (fuel : Nat) (req : ExecuteRequest) (st : St) :
    Option (Except GoError ExecuteResponse × St) :=
  match timeNow env st with
  | (startTime, st1) =>
    if req.TestCases.length > 0 then s.executeWithTests env fuel req startTime st1
    else s.executeSimple env fuel req startTime st1

/-! ## `pkg/errors/api_error.go` and `internal/delivery/http` -/

/-- The values the handlers below put into `map[string]interface{}`. -/
inductive DetailValue where
  | text (s : String)
  | texts (l : List String)
deriving DecidableEq, Repr

/-- The error body (`APIError`); `Details` is the map, as a list of entries. -/
structure APIError where
  Code : String
  Message : String
  Details : List (String × DetailValue)
  Timestamp : Int
  RequestID : String
deriving DecidableEq, Repr

/-- The constant `ErrCodeValidation`. -/
def ErrCodeValidation : String := "VALIDATION_ERROR"

/-- The constant `ErrCodeInternal`. -/
def ErrCodeInternal : String := "INTERNAL_ERROR"

/-- The constant `MsgInternalError`. -/
def MsgInternalError : String := "Internal server error"

/-- The function `NewAPIError`; the timestamp is a reading of the clock. -/
def NewAPIError (env : Env) (code message requestID : String) (st : St) : APIError × St :=
  match timeNow env st with
  | (now, st1) =>
    ({ Code := code, Message := message, Details := [], Timestamp := now,
       RequestID := requestID }, st1)

/-- The method `WithDetails`: every given entry is set in the map. -/
def APIError.WithDetails (e : APIError) (details : List (String × DetailValue)) : APIError :=
  { e with
    Details := e.Details.filter (fun kv => !(details.map Prod.fst).contains kv.1) ++ details }

/-- What a handler writes with `c.JSON`: a status code with an error body, or
with the response of the service. -/
inductive Reply where
  | apiError (statusCode : Int) (err : APIError)
  | response (statusCode : Int) (resp : ExecuteResponse)
deriving DecidableEq, Repr

/-- The function `ErrorResponse`; `requestID` is what `GetRequestID` yields for
the request, `details` may be nil. -/
def ErrorResponse (env : Env) (requestID : String) (statusCode : Int) (code message : String)
    (details : Option (List (String × DetailValue))) (st : St) : Reply × St :=
  match NewAPIError env code message requestID st with
  | (err, st1) =>
    match details with
    | some d => (.apiError statusCode (err.WithDetails d), st1)
    | none => (.apiError statusCode err, st1)

/-- The function `ValidationError`: status 400. -/
def ValidationError (env : Env) (requestID : String) (message : String)
    (details : Option (List (String × DetailValue))) (st : St) : Reply × St :=
  ErrorResponse env requestID 400 ErrCodeValidation message details st

/-- The function `InternalError`: status 500, with the error's text as a
detail. -/
def InternalError (env : Env) (requestID : String) (message : String) (err : Option GoError)
    (st : St) : Reply × St :=
  let message := if message = "" then MsgInternalError else message
  let details : List (String × DetailValue) :=
    match err with
    | some e => [("error", .text e.Error)]
    | none => []
  ErrorResponse env requestID 500 ErrCodeInternal message (some details) st

/-- The handler (`CodeHandler`). -/
structure CodeHandler where
  svc : Service
deriving DecidableEq, Repr

/-- The map `validLanguages` of `CodeHandler.Execute`. -/
def validLanguages : List (String × Bool) :=
  [("python", true), ("javascript", true), ("java", true), ("go", true), ("cpp", true)]

/-- The method `CodeHandler.Execute`. `bound` is the outcome of
`c.ShouldBindJSON(&req)`: the request, or the binding error. -/
def CodeHandler.Execute (env : Env) (h : CodeHandler) (fuel : Nat) (requestID : String)
    (bound : Except GoError ExecuteRequest) (st : St) : Option (Reply × St) :=
  match bound with
  | .error err =>
    some (ValidationError env requestID "Invalid request body"
      (some [("validation_error", .text err.Error)]) st)
  | .ok req =>
    if !((validLanguages.lookup req.Language).getD false) then
      some (ValidationError env requestID "Invalid language"
        (some [("language", .text req.Language),
               ("supported_languages",
                 .texts ["python", "javascript", "java", "go", "cpp"])]) st)
    else
      match h.svc.Execute env fuel req st with
      | none => none
      | some (.error err, st1) =>
        some (InternalError env requestID "Failed to execute code" (some err) st1)
      | some (.ok resp, st1) => some (.response 200 resp, st1)

/-! ## Notions used to state the properties -/

/-- The environment's clock passes every instant: after any number of readings
some later reading is at or beyond any given time. -/
def ClockAdvances (env : Env) : Prop :=
  ∀ (t : Int) (k : Nat), ∃ j, k ≤ j ∧ t ≤ env.clock j

/-- The submission `executeSimple` builds for a request. -/
def submissionFor (s : Service) (req : ExecuteRequest) (languageID : Int) : SubmissionRequest :=
  { SourceCode := req.Code, LanguageID := languageID, Stdin := req.Stdin,
    CPUTimeLimit := 5, MemoryLimit := s.memoryLimit }

/-- The request `executeWithTests` builds for one test case. -/
def testRequest (req : ExecuteRequest) (testCase : TestCase) : ExecuteRequest :=
  { Code := req.Code, Language := req.Language, Stdin := testCase.Input, TestCases := [] }

/-- Normalization as the specification words it: the output is the raw stdout,
the error text is the first non-empty of stderr, compile output and (when the
status is not the accepted one) the status description, and the run passed when
the status is the accepted one and the exit code is zero. -/
def normalize (r : SubmissionResult) (elapsedMs : Int) : ExecuteResponse :=
  { Output := r.Stdout,
    Error := ([r.Stderr, r.CompileOutput,
               if r.Status.ID = 3 then "" else r.Status.Description].find?
                 (fun t => t ≠ "")).getD "",
    Passed := decide (r.Status.ID = 3 ∧ r.ExitCode = 0),
    TestResults := [],
    ExecutionTimeMs := elapsedMs,
    ExitCode := r.ExitCode }

/-- The `TestResult` recorded for a test case whose run returned an error
(`err.Error()` is `msg`). -/
def errorResult (testCase : TestCase) (msg : String) (ms : Int) : TestResult :=
  { TestCase := testCase, ActualOutput := "", Passed := false, ErrorMessage := msg,
    ExecutionTimeMs := ms }

/-- The `TestResult` recorded for a test case whose run returned a response. -/
def gradedResult (testCase : TestCase) (result : ExecuteResponse) : TestResult :=
  { TestCase := testCase, ActualOutput := result.Output,
    Passed := TrimSpace result.Output == TrimSpace testCase.ExpectedOutput,
    ErrorMessage := result.Error, ExecutionTimeMs := result.ExecutionTimeMs }

/-- Whether a logged call is a call of the local stand-in `executeLocalGo`. -/
def Call.isLocal : Call → Bool
  | .executeLocalGo _ _ _ => true
  | _ => false

/-- All characters of a list are white space. -/
def allSpace (l : List Char) : Prop :=
  ∀ c ∈ l, isSpace c = true

/-- The outcome of one iteration of the poll loop: the loop returns, or goes
round again from a new state. -/
inductive PollStep where
  | ret (out : Except GoError SubmissionResult × St)
  | again (st : St)

/-- One iteration of the poll loop of `SubmitAndWait`, used to reason about
`SubmitAndWait.poll` (see `poll_succ`). -/
def SubmitAndWait.step (env : Env) (c : Client) (token : String) (deadline : Int) (st : St) :
    PollStep :=
  if env.clock st.clockReads < deadline then
    match env.select st.selects with
    | .done err => .ret (.error err, (selectNext env (timeNow env st).2).2)
    | .tick =>
      match (c.GetResult env token (selectNext env (timeNow env st).2).2).1 with
      | .error err => .ret (.error err, (c.GetResult env token (selectNext env (timeNow env st).2).2).2)
      | .ok result =>
        if 2 < result.Status.ID then
          .ret (.ok result, (c.GetResult env token (selectNext env (timeNow env st).2).2).2)
        else .again (c.GetResult env token (selectNext env (timeNow env st).2).2).2
  else .ret (.error (.errorf "timeout waiting for result"), (timeNow env st).2)

/-- The characters `TrimSpace` keeps, as a list. -/
def trimList (l : List Char) : List Char :=
  ((l.dropWhile isSpace).reverse.dropWhile isSpace).reverse

/-! ## A judge stub, for concrete runs -/

/-- A submission still in the queue. -/
def queuedResult : SubmissionResult :=
  { Status := { ID := 1, Description := "In Queue" }, Stdout := "", Stderr := "",
    CompileOutput := "", Time := "", Memory := 0, ExitCode := 0, ExitSignal := none }

/-- A run that failed with a non-zero exit code. -/
def crashResult : SubmissionResult :=
  { Status := { ID := 11, Description := "Runtime Error (NZEC)" }, Stdout := "",
    Stderr := "boom", CompileOutput := "", Time := "0.01", Memory := 100, ExitCode := 1,
    ExitSignal := none }

/-- An accepted run that printed `b`. -/
def acceptedResult (b : String) : SubmissionResult :=
  { Status := { ID := 3, Description := "Accepted" }, Stdout := b, Stderr := "",
    CompileOutput := "", Time := "0.01", Memory := 100, ExitCode := 0, ExitSignal := none }

/-- The stub's decoder of a poll body: `queued` is a submission still in the
queue, `crash` a failed run, anything else an accepted run that printed the
body. -/
def stubResult (b : String) : Except GoError SubmissionResult :=
  if b = "queued" then .ok queuedResult
  else if b = "crash" then .ok crashResult
  else .ok (acceptedResult b)

/-- An environment whose judge answers the k-th HTTP exchange with the k-th
entry of `script` (and refuses the connection after that), whose clock moves
100 ms per reading, and whose context is never done. -/
def stubEnv (script : List HTTPOutcome) : Env :=
  { clock := fun k => (k : Int) * 100000000,
    urlErr := fun _ => none,
    http := fun k _ => script.getD k (.err (.errorf "connection refused")),
    decodeToken := fun b => .ok b,
    decodeResult := stubResult,
    select := fun _ => .tick }

/-- The state before anything has happened. -/
def st0 : St :=
  { clockReads := 0, exchanges := 0, selects := 0, trace := [] }

/-- A service with a judge configured, a timeout of 10 s and 128000 KB. -/
def judgeService : Service :=
  { judge0Client := some { apiURL := "http://judge", apiKey := "" },
    timeout := 10000000000, memoryLimit := 128000 }

/-- A service with no judge (an empty base URL). -/
def bareService : Service :=
  { judge0Client := some { apiURL := "", apiKey := "" },
    timeout := 10000000000, memoryLimit := 128000 }

/-- A request for one run of a Python program. -/
def pythonRequest : ExecuteRequest :=
  { Code := "print(input())", Language := "python", Stdin := "hi", TestCases := [] }

/-- A request with two test cases. -/
def gradedRequest : ExecuteRequest :=
  { Code := "print(input())", Language := "python", Stdin := "",
    TestCases := [{ Input := "hi", ExpectedOutput := "hi", Description := "" },
                  { Input := "yo", ExpectedOutput := "no", Description := "" }] }

/-- A judge that accepts the submission, reports it queued at the first poll
and crashed at the second. -/
def crashEnv : Env :=
  stubEnv [.resp 201 "t1", .resp 200 "queued", .resp 200 "crash"]

/-- The log of a run of `pythonRequest` against `crashEnv`. -/
def crashTrace : List Call :=
  [.Submit (submissionFor judgeService pythonRequest 71) (.ok "t1"),
   .GetResult "t1" (.ok queuedResult),
   .GetResult "t1" (.ok crashResult)]

/-- A judge that rejects the first submission with status 500, accepts the
second and reports that it printed `no`. -/
def flakyEnv : Env :=
  stubEnv [.resp 500 "oops", .resp 201 "t2", .resp 200 "no"]

/-- A judge that accepts two submissions; the first run prints `hi` with
trailing white space, the second prints `yo`. -/
def mixedEnv : Env :=
  stubEnv [.resp 201 "t1", .resp 200 "hi \n", .resp 201 "t2", .resp 200 "yo"]

/-- The first test case of `gradedRequest`. -/
def caseHi : TestCase :=
  { Input := "hi", ExpectedOutput := "hi", Description := "" }

/-- The second test case of `gradedRequest`. -/
def caseNo : TestCase :=
  { Input := "yo", ExpectedOutput := "no", Description := "" }

/-- A request for one run of a Go program. -/
def goRequest : ExecuteRequest :=
  { Code := "package main", Language := "go", Stdin := "", TestCases := [] }

/-- The raw result the local stand-in returns. -/
def localResult : SubmissionResult :=
  { Status := { ID := 3, Description := "Accepted" },
    Stdout := "Local execution not fully implemented", Stderr := "", CompileOutput := "",
    Time := "", Memory := 0, ExitCode := 0, ExitSignal := none }

/-- The client of `judgeService`. -/
def judgeClient : Client :=
  { apiURL := "http://judge", apiKey := "" }

/-- The response of the run of `caseHi` against `mixedEnv`. -/
def hiResponse : ExecuteResponse :=
  { Output := "hi \n", Error := "", Passed := true, TestResults := [],
    ExecutionTimeMs := 300, ExitCode := 0 }

/-- The state after the run of `caseHi` against `mixedEnv`. -/
def hiState : St :=
  { clockReads := 5, exchanges := 2, selects := 1,
    trace := [.Submit (submissionFor judgeService (testRequest gradedRequest caseHi) 71)
                (.ok "t1"),
              .GetResult "t1" (.ok (acceptedResult "hi \n"))] }

/-- The error of the run of `caseHi` against `flakyEnv`. -/
def oopsError : GoError :=
  .wrapf "judge0 execution: " (.errorf "judge0 api error: 500 - oops")

/-- The state after the run of `caseHi` against `flakyEnv`. -/
def oopsState : St :=
  { clockReads := 2, exchanges := 1, selects := 0,
    trace := [.Submit (submissionFor judgeService (testRequest gradedRequest caseHi) 71)
                (.error (.errorf "judge0 api error: 500 - oops"))] }

/-- The submission a logged call carries, if it is a `Submit`. -/
def Call.submission : Call → Option SubmissionRequest
  | .Submit req _ => some req
  | _ => none

/-- The result a poll body without a status field decodes to: every field has
Go's zero value. -/
def zeroResult : SubmissionResult :=
  { Status := { ID := 0, Description := "" }, Stdout := "", Stderr := "",
    CompileOutput := "", Time := "", Memory := 0, ExitCode := 0, ExitSignal := none }

/-- A judge that accepts the submission, answers the first poll with a body
that has no status field, and the second with an accepted run that printed
`done`. -/
def zeroEnv : Env :=
  { clock := fun k => (k : Int) * 100000000,
    urlErr := fun _ => none,
    http := fun k _ =>
      [HTTPOutcome.resp 201 "t1", .resp 200 "{}", .resp 200 "done"].getD k
        (.err (.errorf "connection refused")),
    decodeToken := fun b => .ok b,
    decodeResult := fun b => if b = "{}" then .ok zeroResult else stubResult b,
    select := fun _ => .tick }

/-- A judge that accepts every submission and reports it queued at every
poll; the context is never done. -/
def busyEnv : Env :=
  { clock := fun k => (k : Int) * 100000000,
    urlErr := fun _ => none,
    http := fun _ r => if r.method = "POST" then .resp 201 "t1" else .resp 200 "queued",
    decodeToken := fun b => .ok b,
    decodeResult := stubResult,
    select := fun _ => .tick }

/-- A judge like `busyEnv` whose context is done at the second `select`. -/
def cancelEnv : Env :=
  { busyEnv with
    select := fun k => if k = 1 then .done (.errorf "context canceled") else .tick }

/-- The state in which the poll loop starts after the submission of
`pythonRequest` was accepted with token `t1`. -/
def polling : St :=
  { clockReads := 1, exchanges := 1, selects := 0,
    trace := [.Submit (submissionFor judgeService pythonRequest 71) (.ok "t1")] }

/-- A service with a judge configured and a timeout of 50 ms. -/
def quickService : Service :=
  { judge0Client := some judgeClient, timeout := 50000000, memoryLimit := 128000 }

/-- The runs the aggregator makes, as the specification words them: for each
test case in input order, one `executeSimple` on that case's request, each
starting where the previous one ended (a run that returned an error is
followed by the clock reading that times it). Returns the outcome of every
run, in order. -/
def subRuns (env : Env) (s : Service) (fuel : Nat) (req : ExecuteRequest) :
    List TestCase → St → Option (List (Except GoError ExecuteResponse) × St)
  | [], st => some ([], st)
  | tc :: rest, st =>
    match s.executeSimple env fuel (testRequest req tc) (timeNow env st).1 (timeNow env st).2 with
    | none => none
    | some (o, st2) =>
      match subRuns env s fuel req rest
          (match o with
           | .error _ => (timeSince env (timeNow env st).1 st2).2
           | .ok _ => st2) with
      | none => none
      | some (os, st3) => some (o :: os, st3)

/-- The entry `t` records the outcome `o` of the run of test case `tc`. -/
def recorded (t : TestResult) (tc : TestCase) (o : Except GoError ExecuteResponse) : Prop :=
  match o with
  | .error err =>
    t.TestCase = tc ∧ t.ActualOutput = "" ∧ t.Passed = false ∧ t.ErrorMessage = err.Error
  | .ok result => t = gradedResult tc result

/-- A run that printed `hi` and then failed: status 11, exit code 1, a message
on stderr. -/
def crashedHi : SubmissionResult :=
  { Status := { ID := 11, Description := "Runtime Error (NZEC)" }, Stdout := "hi\n",
    Stderr := "boom", CompileOutput := "", Time := "0.01", Memory := 100, ExitCode := 1,
    ExitSignal := none }

/-- A judge that accepts the submission and reports `crashedHi` at the first
poll. -/
def sloppyEnv : Env :=
  { clock := fun k => (k : Int) * 100000000,
    urlErr := fun _ => none,
    http := fun k _ =>
      [HTTPOutcome.resp 201 "t1", .resp 200 "crashed-hi"].getD k
        (.err (.errorf "connection refused")),
    decodeToken := fun b => .ok b,
    decodeResult := fun b => if b = "crashed-hi" then .ok crashedHi else stubResult b,
    select := fun _ => .tick }

/-- A request with the single test case `caseHi`. -/
def hiRequest : ExecuteRequest :=
  { Code := "print(input()); exit(1)", Language := "python", Stdin := "",
    TestCases := [caseHi] }

/-- A Go request with two test cases, the first expecting the text the local
stand-in prints. -/
def goGraded : ExecuteRequest :=
  { Code := "package main", Language := "go", Stdin := "",
    TestCases := [{ Input := "1", ExpectedOutput := " Local execution not fully implemented\n",
                    Description := "" },
                  { Input := "2", ExpectedOutput := "2", Description := "" }] }

/-- The text the local stand-in prints. -/
def localText : String := "Local execution not fully implemented"

/-- A clock that stands still, with a context that is done at once; the judge
is that of `busyEnv`. -/
def frozenEnv : Env :=
  { busyEnv with
    clock := fun _ => 0,
    select := fun _ => .done (.errorf "context canceled") }

/-- What `SubmitAndWait` returns when the context is never done, read off the
last call it logged: a poll that returned a status above 2 or failed gives that
outcome, a failed submission gives its error, and anything else (a poll with a
status of at most 2, or the accepted submission itself) means the deadline
passed. -/
def rawFromLast : Option Call → Except GoError SubmissionResult
  | some (.GetResult _ (.ok r)) =>
    if 2 < r.Status.ID then .ok r else .error (.errorf "timeout waiting for result")
  | some (.GetResult _ (.error e)) => .error e
  | some (.Submit _ (.error e)) => .error e
  | _ => .error (.errorf "timeout waiting for result")

/-- Two outcomes of `executeSimple` agree in everything but the elapsed time:
the same error, or responses with the same `Passed`, `Output`, `Error` and
`ExitCode`. -/
def sameVerdict (out1 out2 : Except GoError ExecuteResponse) : Prop :=
  match out1, out2 with
  | .ok r1, .ok r2 =>
    r1.Passed = r2.Passed ∧ r1.Output = r2.Output ∧ r1.Error = r2.Error ∧
      r1.ExitCode = r2.ExitCode
  | .error e1, .error e2 => e1 = e2
  | _, _ => False

/-- A raw result with the judge-reported time and memory blanked. -/
def SubmissionResult.withoutUsage (r : SubmissionResult) : SubmissionResult :=
  { r with Time := "", Memory := 0 }

/-- A logged call with the judge-reported time and memory of its result
blanked. -/
def Call.withoutUsage : Call → Call
  | .GetResult token (.ok r) => .GetResult token (.ok r.withoutUsage)
  | .executeLocalGo code stdin (.ok r) => .executeLocalGo code stdin (.ok r.withoutUsage)
  | call => call

/-- The calls a run added to the log, given the log length before it, with the
judge-reported time and memory blanked: the sequence of judge responses the run
saw. -/
def judgeResponses (before : St) (after : St) : List Call :=
  (after.trace.drop before.trace.length).map Call.withoutUsage

/-- The judge of `crashEnv` on a clock that moves 250 ms per reading, reporting
another time and memory for every run. -/
def slowEnv : Env :=
  { crashEnv with
    clock := fun k => (k : Int) * 250000000,
    decodeResult := fun b =>
      (stubResult b).map (fun r => { r with Time := "9.9", Memory := 777 }) }

/-- The log of a run of `pythonRequest` against `slowEnv`. -/
def slowTrace : List Call :=
  [.Submit (submissionFor judgeService pythonRequest 71) (.ok "t1"),
   .GetResult "t1" (.ok { queuedResult with Time := "9.9", Memory := 777 }),
   .GetResult "t1" (.ok { crashResult with Time := "9.9", Memory := 777 })]

/-- The response to a crashed run that took `ms` milliseconds. -/
def crashResponse (ms : Int) : ExecuteResponse :=
  { Output := "", Error := "boom", Passed := false, TestResults := [],
    ExecutionTimeMs := ms, ExitCode := 1 }

/-! ## github.com/google/uuid and the Go runtime, as the course code uses them -/

/-- `uuid.UUID`: sixteen bytes, read as one big-endian number below `2 ^ 128`. -/
abbrev UUID := Nat

/-- `uuid.Nil`: all sixteen bytes zero. -/
def uuid.Nil : UUID := 0

/-- A `float64` value. -/
inductive Float64 where
  | finite (q : Rat)
  | posInf
  | negInf
  | nan
deriving DecidableEq, Repr

/-- Go's `a > b` on `float64`: false as soon as one side is NaN. -/
def Float64.gt : Float64 → Float64 → Bool
  | .nan, _ => false
  | _, .nan => false
  | .negInf, _ => false
  | _, .posInf => false
  | .posInf, _ => true
  | .finite _, .negInf => true
  | .finite a, .finite b => decide (b < a)

/-- Go's `int` on a 64-bit target: the result of an arithmetic operation is
reduced into `[-2^63, 2^63)`. -/
def wrapInt (x : Int) : Int :=
  (x + 2 ^ 63) % 2 ^ 64 - 2 ^ 63

/-! ## internal/domain/course -/

/-- The domain model of a course (`Course`). -/
structure Course where
  ID : UUID
  Slug : String
  Title : String
  Description : String
  Summary : String
  Language : String
  Difficulty : String
  DurationHours : Int
  DurationMin : Int
  LessonsCount : Int
  StudentsCount : Int
  Tags : List String
  ThumbnailURL : String
  ImageURL : String
  Objectives : List String
  Requirements : List String
  IsFree : Bool
  Price : Option Float64
  PriceCents : Int
  Rating : Float64
  Popularity : Int
deriving DecidableEq, Repr

/-- Go's zero value `dom.Course{}`. -/
def Course.zero : Course :=
  { ID := uuid.Nil, Slug := "", Title := "", Description := "", Summary := "",
    Language := "", Difficulty := "", DurationHours := 0, DurationMin := 0,
    LessonsCount := 0, StudentsCount := 0, Tags := [], ThumbnailURL := "", ImageURL := "",
    Objectives := [], Requirements := [], IsFree := false, Price := none, PriceCents := 0,
    Rating := .finite 0, Popularity := 0 }

/-- The filter and paging parameters of a search (`ListFilter`). The field
`Sort` is written `Sort_` here. -/
structure ListFilter where
  Query : String
  Language : String
  Difficulty : String
  MinPrice : Int
  MaxPrice : Int
  Tags : List String
  Page : Int
  PageSize : Int
  Limit : Int
  Sort_ : String
deriving DecidableEq, Repr

/-- The result of a search (`ListResult`). -/
structure ListResult where
  Items : List Course
  Total : Int
deriving DecidableEq, Repr

/-- What the course code takes from outside itself: the random source behind
`uuid.New` (the k-th draw of sixteen bytes, as a number), the order in which
the k-th `range` over a map visits its entries, what the k-th `sort.Slice`
makes of a slice under a `less` function, and the Unicode case functions
`strings.ToLower` and `strings.EqualFold`. -/
structure Runtime where
  random : Nat → Nat
  rangeOrder : Nat → List (UUID × Course) → List (UUID × Course)
  sortSlice : Nat → (Course → Course → Bool) → List Course → List Course
  toLower : String → String
  equalFold : String → String → Bool

/-- How far the runtime's sources have been consumed. -/
structure RunSt where
  draws : Nat
  ranges : Nat
  sorts : Nat
deriving DecidableEq, Repr

/-- `uuid.New`: a version 4 UUID. Sixteen random bytes, of which byte 6 becomes
`(b & 0x0f) | 0x40` and byte 8 becomes `(b & 0x3f) | 0x80`, so bits 76..79 hold
the version 4 and bits 62..63 the variant `10`. -/
def uuid.New (rt : Runtime) (u : RunSt) : UUID × RunSt :=
  let r := rt.random u.draws % 2 ^ 128
  (r / 2 ^ 80 * 2 ^ 80 + 4 * 2 ^ 76 + r / 2 ^ 64 % 2 ^ 12 * 2 ^ 64 + 2 * 2 ^ 62 + r % 2 ^ 62,
   { u with draws := u.draws + 1 })

/-- `m[k]` with the comma-ok form, on a map kept as a list of entries. -/
def mapGet : List (UUID × Course) → UUID → Option Course
  | [], _ => none
  | (k1, v1) :: m, k => if k1 = k then some v1 else mapGet m k

/-- `m[k] = v`: the entry of `k` is replaced, or a new entry is added. -/
def mapSet : List (UUID × Course) → UUID → Course → List (UUID × Course)
  | [], k, v => [(k, v)]
  | (k1, v1) :: m, k, v => if k1 = k then (k, v) :: m else (k1, v1) :: mapSet m k v

/-- Whether `s` begins with `p`. -/
def startsWith : List Char → List Char → Bool
  | _, [] => true
  | [], _ :: _ => false
  | a :: s, b :: p => a == b && startsWith s p

/-- Whether `sub` occurs in `s`. -/
def occursIn : List Char → List Char → Bool
  | [], sub => sub.isEmpty
  | a :: s, sub => startsWith (a :: s) sub || occursIn s sub

/-- `strings.Contains`. -/
def stringsContains (s sub : String) : Bool :=
  occursIn s.toList sub.toList

/-! ## internal/infrastructure/repository/memory/course_repository.go -/

/-- The in-memory repository: its map from ID to course. -/
structure InMemoryCourseRepository where
  storage : List (UUID × Course)
deriving DecidableEq, Repr

/-- The first demo course, with the ID it was given. -/
def seedBasics (id : UUID) : Course :=
  { Course.zero with
    ID := id, Slug := "go-basics", Title := "Введение в Go",
    Description := "Основы синтаксиса, типы, пакеты", Summary := "Быстрый старт по Go",
    Language := "go", Difficulty := "beginner", DurationMin := 240,
    Tags := ["go", "basics"], ImageURL := "",
    Objectives := ["Понять основы Go", "Освоить пакеты"] }

/-- The second demo course, with the ID it was given. -/
def seedConcurrency (id : UUID) : Course :=
  { Course.zero with
    ID := id, Slug := "go-concurrency", Title := "Go: конкуррентность",
    Description := "Горутины, каналы, контексты", Summary := "Параллелизм и каналы",
    Language := "go", Difficulty := "intermediate", DurationMin := 300,
    Tags := ["go", "concurrency"], ImageURL := "",
    Objectives := ["Горутины", "Каналы"] }

/-- `NewInMemoryCourseRepository`: an empty map, then the two demo courses
stored under two freshly drawn IDs. -/
def NewInMemoryCourseRepository (rt : Runtime) (u : RunSt) :
    InMemoryCourseRepository × RunSt :=
  let (id1, u1) := uuid.New rt u
  let c1 := seedBasics id1
  let (id2, u2) := uuid.New rt u1
  let c2 := seedConcurrency id2
  ({ storage := mapSet (mapSet [] c1.ID c1) c2.ID c2 }, u2)

/-- `InMemoryCourseRepository.List`: the stored courses, in the order the
`range` over the map visits them. -/
def InMemoryCourseRepository.List (rt : Runtime) (r : InMemoryCourseRepository)
    (u : RunSt) : Except GoError (List Course) × RunSt :=
  (.ok ((rt.rangeOrder u.ranges r.storage).map Prod.snd), { u with ranges := u.ranges + 1 })

/-- `simpleSlug`: lower-case letters and digits are kept, upper-case letters
are lowered, space, hyphen and underscore become a hyphen, everything else is
dropped; an empty result becomes `course`. -/
def simpleSlug (s : String) : String :=
  let b := s.toList.filterMap (fun r =>
    if ('a' ≤ r ∧ r ≤ 'z') ∨ ('0' ≤ r ∧ r ≤ '9') then some r
    else if 'A' ≤ r ∧ r ≤ 'Z' then some (Char.ofNat (r.toNat + 32))
    else if r = ' ' ∨ r = '-' ∨ r = '_' then some '-'
    else none)
  if b.length = 0 then "course" else String.mk b

/-- `InMemoryCourseRepository.Create`: a nil ID is replaced by a fresh one, an
empty slug by the slug of the title, and the course is stored under its ID. -/
def InMemoryCourseRepository.Create (rt : Runtime) (r : InMemoryCourseRepository)
    (course : Course) (u : RunSt) :
    Except GoError Course × InMemoryCourseRepository × RunSt :=
  let (course1, u1) :=
    if course.ID = uuid.Nil then
      let (id, u1) := uuid.New rt u
      ({ course with ID := id }, u1)
    else (course, u)
  let course2 :=
    if course1.Slug = "" then { course1 with Slug := simpleSlug course1.Title } else course1
  (.ok course2, { storage := mapSet r.storage course2.ID course2 }, u1)

/-- `InMemoryCourseRepository.Get`: the stored course, or the zero course. -/
def InMemoryCourseRepository.Get (r : InMemoryCourseRepository) (id : UUID) :
    Except GoError Course :=
  match mapGet r.storage id with
  | some c => .ok c
  | none => .ok Course.zero

/-- `sliceContains`. -/
def sliceContains : List String → String → Bool
  | [], _ => false
  | v :: ss, s => if v = s then true else sliceContains ss s

/-- `containsFold`. -/
def containsFold (rt : Runtime) (s sub : String) : Bool :=
  stringsContains (rt.toLower s) (rt.toLower sub)

/-- The body of the loop of `Search` over the stored courses: whether the
course reaches `items = append(items, c)` rather than a `continue`. -/
def Search.keep (rt : Runtime) (f : ListFilter) (c : Course) : Bool :=
  if f.Query ≠ "" ∧ ¬ (containsFold rt c.Title f.Query ∨ containsFold rt c.Description f.Query)
  then false
  else if f.Language ≠ "" ∧ ¬ rt.equalFold c.Language f.Language then false
  else if f.Difficulty ≠ "" ∧ c.Difficulty ≠ f.Difficulty then false
  else if 0 < f.MinPrice ∧ c.PriceCents < f.MinPrice then false
  else if 0 < f.MaxPrice ∧ f.MaxPrice < c.PriceCents then false
  else if 0 < f.Tags.length ∧ ¬ f.Tags.all (sliceContains c.Tags) then false
  else true

/-- The `less` function `Search` hands to `sort.Slice`. -/
def Search.less (sort : String) (a b : Course) : Bool :=
  if sort = "title_desc" then decide (b.Title < a.Title)
  else if sort = "popularity_desc" then decide (b.Popularity < a.Popularity)
  else if sort = "rating_desc" then a.Rating.gt b.Rating
  else decide (a.Title < b.Title)

/-- `items[low:high]` on a slice of capacity `cap`: a run-time panic (`none`)
unless `0 ≤ low ≤ high ≤ cap`. -/
def sliceExpr (items : List Course) (cap : Nat) (low high : Int) : Option (List Course) :=
  if 0 ≤ low ∧ low ≤ high ∧ high ≤ (cap : Int) then
    some ((items.drop low.toNat).take (high - low).toNat)
  else none

/-- `InMemoryCourseRepository.Search`: filter, sort, then cut out the page.
`none` is a run-time panic. -/
def InMemoryCourseRepository.Search (rt : Runtime) (r : InMemoryCourseRepository)
    (f : ListFilter) (u : RunSt) : Option (Except GoError ListResult × RunSt) :=
  let items := ((rt.rangeOrder u.ranges r.storage).map Prod.snd).filter (Search.keep rt f)
  let items := rt.sortSlice u.sorts (Search.less f.Sort_) items
  let u1 : RunSt := { u with ranges := u.ranges + 1, sorts := u.sorts + 1 }
  let total : Int := items.length
  let page := if f.Page < 1 then 1 else f.Page
  let size := if f.PageSize ≤ 0 ∨ 100 < f.PageSize then 12 else f.PageSize
  let start := wrapInt (wrapInt (page - 1) * size)
  if (items.length : Int) < start then some (.ok { Items := [], Total := total }, u1)
  else
    let stop := wrapInt (start + size)
    let stop := if (items.length : Int) < stop then (items.length : Int) else stop
    match sliceExpr items r.storage.length start stop with
    | some page => some (.ok { Items := page, Total := total }, u1)
    | none => none

/-! ## internal/usecase/course/service.go -/

/-- `ErrNotFound`. -/
def ErrNotFound : GoError := .errorf "course not found"

/-- `service.ListCourses` (the debug log line aside). -/
def ListCourses (rt : Runtime) (r : InMemoryCourseRepository) (u : RunSt) :
    Except GoError (List Course) × RunSt :=
  r.List rt u

/-- `service.CreateCourse` (the debug log line aside): a course with a fresh
ID, the title and the description, changed by each option in turn, handed to
the repository. -/
def CreateCourse (rt : Runtime) (title description : String) (opts : List (Course → Course))
    (r : InMemoryCourseRepository) (u : RunSt) :
    Except GoError Course × InMemoryCourseRepository × RunSt :=
  let (id, u1) := uuid.New rt u
  let course := opts.foldl (fun c apply => apply c)
    { Course.zero with ID := id, Title := title, Description := description }
  r.Create rt course u1

/-- `service.GetCourse` (the debug log line aside). -/
def GetCourse (r : InMemoryCourseRepository) (id : UUID) : Except GoError Course :=
  match r.Get id with
  | .error err => .error err
  | .ok course => if course.ID = uuid.Nil then .error ErrNotFound else .ok course

/-- `service.SearchCourses` (the debug log line aside). -/
def SearchCourses (rt : Runtime) (r : InMemoryCourseRepository) (f : ListFilter)
    (u : RunSt) : Option (Except GoError ListResult × RunSt) :=
  r.Search rt f u

/-- A runtime for concrete runs: the k-th draw is `k + 1` times the number
whose sixteen bytes are all `0x11`, a `range` visits the entries last to first,
`sort.Slice` is an insertion sort, and the case functions are the ASCII ones. -/
def stubRuntime : Runtime :=
  { random := fun k => (k + 1) * 0x11111111111111111111111111111111,
    rangeOrder := fun _ m => m.reverse,
    sortSlice := fun _ less items => items.insertionSort (fun a b => less a b = true),
    toLower := fun s => s.toLower,
    equalFold := fun a b => a.toLower == b.toLower }

/-- The runtime's sources before anything has been drawn. -/
def u0 : RunSt :=
  { draws := 0, ranges := 0, sorts := 0 }

/-- The freshly constructed repository of a run on `stubRuntime`. -/
def seededRepo : InMemoryCourseRepository :=
  (NewInMemoryCourseRepository stubRuntime u0).1

/-- The runtime's sources after the two draws of the construction. -/
def u2 : RunSt :=
  { draws := 2, ranges := 0, sorts := 0 }

/-! ## pkg/ratelimit/middleware.go and internal/delivery/http/ratelimit.go -/

/-- The counter of one key (`LimitInfo`); `ResetTime` in nanoseconds. -/
structure LimitInfo where
  Count : Int
  Limit : Int
  ResetTime : Int
deriving DecidableEq, Repr

/-- The in-memory store. Its map holds pointers: a `*LimitInfo` is an address,
`objects p` is the counter at address `p`, and the addresses below `allocated`
are the ones handed out so far. The same pointer is in the map and in the
hands of every handler that `Get` or `Increment` returned it to. -/
structure InMemoryStore where
  objects : Nat → LimitInfo
  allocated : Nat
  data : String → Option Nat
  limit : Int

/-- `NewInMemoryStore`. -/
def NewInMemoryStore (limit : Int) : InMemoryStore :=
  { objects := fun _ => { Count := 0, Limit := 0, ResetTime := 0 }, allocated := 0,
    data := fun _ => none, limit := limit }

/-- `&LimitInfo{...}`: a new counter at the next free address. -/
def InMemoryStore.new (s : InMemoryStore) (info : LimitInfo) : Nat × InMemoryStore :=
  (s.allocated,
   { s with objects := fun p => if p = s.allocated then info else s.objects p,
            allocated := s.allocated + 1 })

/-- `time.Hour`, in nanoseconds. -/
def timeHour : Int := 3600000000000

/-- `InMemoryStore.Get`, one critical section: the stored pointer, or a pointer
to a new counter with count 0 when there is none or its reset time has passed.
The map is not changed. -/
def InMemoryStore.Get (env : Env) (s : InMemoryStore) (key : String) (st : St) :
    Except GoError Nat × InMemoryStore × St :=
  match s.data key with
  | none =>
    let (now, st1) := timeNow env st
    let (p, s1) := s.new { Count := 0, Limit := s.limit, ResetTime := now + timeHour }
    (.ok p, s1, st1)
  | some info =>
    let (now, st1) := timeNow env st
    if (s.objects info).ResetTime < now then
      let (now2, st2) := timeNow env st1
      let (p, s1) := s.new { Count := 0, Limit := s.limit, ResetTime := now2 + timeHour }
      (.ok p, s1, st2)
    else (.ok info, s, st1)

/-- `InMemoryStore.Increment`, one critical section: with no counter for the
key, or one whose reset time lies before now, a pointer to a new counter with
count 1 that resets a window from now is stored; otherwise the count of the
stored counter goes up by one, in place. The pointer in the map is returned. -/
def InMemoryStore.Increment (env : Env) (s : InMemoryStore) (key : String) (window : Int)
    (st : St) : Except GoError Nat × InMemoryStore × St :=
  let (now, st1) := timeNow env st
  match s.data key with
  | none =>
    let (p, s1) := s.new { Count := 1, Limit := s.limit, ResetTime := now + window }
    (.ok p, { s1 with data := fun k => if k = key then some p else s1.data k }, st1)
  | some info =>
    if (s.objects info).ResetTime < now then
      let (p, s1) := s.new { Count := 1, Limit := s.limit, ResetTime := now + window }
      (.ok p, { s1 with data := fun k => if k = key then some p else s1.data k }, st1)
    else
      (.ok info,
       { s with
         objects := fun p =>
           if p = info then
             { s.objects info with Count := wrapInt ((s.objects info).Count + 1) }
           else s.objects p,
         data := fun k => if k = key then some info else s.data k },
       st1)

/-- The JSON body of the 429 answer; `window` stands for the text
`window.String()` and `timestamp` for the clock reading in UTC. -/
structure RateLimitBody where
  code : String
  message : String
  limit : Int
  window : Int
  timestamp : Int
  requestID : String
deriving DecidableEq, Repr

/-- What the middleware did with a request: handed it on (`c.Next()`), or
answered it itself and stopped the chain (`c.JSON` then `c.Abort()`). -/
inductive Handled where
  | next (headers : List (String × String))
  | abort (status : Nat) (headers : List (String × String)) (body : RateLimitBody)
deriving DecidableEq, Repr

/-- The three `X-RateLimit-*` headers. -/
def rateLimitHeaders (info : LimitInfo) : List (String × String) :=
  [("X-RateLimit-Limit", toString info.Limit),
   ("X-RateLimit-Remaining", toString (max 0 (info.Limit - info.Count))),
   ("X-RateLimit-Reset", toString (info.ResetTime / 1000000000))]

/-- The end of the handler `Middleware` returns, after `Increment` has returned
the pointer `info` and released the store's lock: the headers and the check
`info.Count > info.Limit`, read through the pointer from the store as it is
now. -/
def Middleware.respond (env : Env) (store : InMemoryStore) (window : Int)
    (requestID : String) (info : Nat) (st : St) : Handled × St :=
  if (store.objects info).Limit < (store.objects info).Count then
    let requestID := if requestID = "" then "unknown" else requestID
    let (now, st1) := timeNow env st
    (.abort 429 (rateLimitHeaders (store.objects info))
      { code := "RATE_LIMIT_EXCEEDED", message := "Rate limit exceeded",
        limit := (store.objects info).Limit, window := window, timestamp := now,
        requestID := requestID },
     st1)
  else (.next (rateLimitHeaders (store.objects info)), st)

set_option linter.unusedVariables false in
/-- The handler `Middleware` returns, run on one request with key
`keyFunc(c)` and the context's `request_id`, with no other handler running in
between. -/
def Middleware (env : Env) (store : InMemoryStore) (limit : Int) (window : Int)
    (key : String) (requestID : String) (st : St) : Handled × InMemoryStore × St :=
  match store.Get env key st with
  | (.error _, store1, st1) => (.next [], store1, st1)
  | (.ok _, store1, st1) =>
    match store1.Increment env key window st1 with
    | (.error _, store2, st2) => (.next [], store2, st2)
    | (.ok info, store2, st2) =>
      match Middleware.respond env store2 window requestID info st2 with
      | (h, st3) => (h, store2, st3)

/-- Where the handler of one request stands: before `store.Get`, between `Get`
and `Increment`, between `Increment` (which returned the pointer `info`) and
the headers and check, or finished. -/
inductive Stage where
  | entered
  | got
  | counted (info : Nat)
  | done (h : Handled)
deriving DecidableEq, Repr

/-- A request in the hands of the middleware. -/
structure Request where
  key : String
  requestID : String
  stage : Stage
deriving DecidableEq, Repr

/-- The handlers of several requests running at once over one store and
clock. -/
structure Pool where
  store : InMemoryStore
  st : St
  requests : List Request

set_option linter.unusedVariables false in
/-- The handler of request `i` runs up to the next point where another
handler can run: through `Get`, through `Increment`, or through the headers
and the check. -/
def Pool.step (env : Env) (limit window : Int) (p : Pool) (i : Nat) : Pool :=
  match p.requests[i]? with
  | none => p
  | some r =>
    match r.stage with
    | .entered =>
      match p.store.Get env r.key p.st with
      | (.error _, store1, st1) =>
        { store := store1, st := st1,
          requests := p.requests.set i { r with stage := .done (.next []) } }
      | (.ok _, store1, st1) =>
        { store := store1, st := st1, requests := p.requests.set i { r with stage := .got } }
    | .got =>
      match p.store.Increment env r.key window p.st with
      | (.error _, store2, st2) =>
        { store := store2, st := st2,
          requests := p.requests.set i { r with stage := .done (.next []) } }
      | (.ok info, store2, st2) =>
        { store := store2, st := st2,
          requests := p.requests.set i { r with stage := .counted info } }
    | .counted info =>
      match Middleware.respond env p.store window r.requestID info p.st with
      | (h, st3) =>
        { store := p.store, st := st3,
          requests := p.requests.set i { r with stage := .done h } }
    | .done _ => p

/-- The handlers run in the order of a schedule, one step each time. -/
def Pool.run (env : Env) (limit window : Int) (p : Pool) (schedule : List Nat) : Pool :=
  schedule.foldl (Pool.step env limit window) p

/-- The part of `Config` the rate limiter of code execution reads. -/
structure Config where
  RateLimitExecute : Int
deriving DecidableEq, Repr

/-- The store `codeExecRateLimiter` creates. -/
def codeExecRateLimiter.store (cfg : Config) : InMemoryStore :=
  NewInMemoryStore cfg.RateLimitExecute

/-- The handler `codeExecRateLimiter` returns, run on one request. -/
def codeExecRateLimiter (env : Env) (cfg : Config) (store : InMemoryStore) (key : String)
    (requestID : String) (st : St) : Handled × InMemoryStore × St :=
  Middleware env store cfg.RateLimitExecute timeHour key requestID st

/-- The clock reading `Increment` takes in a request handled from this store
and state: the one after those `Get` takes. -/
def incrementTime (env : Env) (store : InMemoryStore) (key : String) (st : St) : Int :=
  (timeNow env (store.Get env key st).2.2).1

/-- Every pointer in the map is one that was handed out. -/
def InMemoryStore.WF (s : InMemoryStore) : Prop :=
  ∀ k p, s.data k = some p → p < s.allocated

/-- Some requests with the same key handled one after the other: what the
middleware did with each, oldest first, and the store and state left. -/
def serve (env : Env) (limit window : Int) (key requestID : String) (store : InMemoryStore)
    (st : St) : Nat → List Handled × InMemoryStore × St
  | 0 => ([], store, st)
  | n + 1 =>
    let (hs, store1, st1) := serve env limit window key requestID store st n
    let (h, store2, st2) := Middleware env store1 limit window key requestID st1
    (hs ++ [h], store2, st2)

/-- Whether the middleware handed the request on. -/
def Handled.isNext : Handled → Bool
  | .next _ => true
  | .abort _ _ _ => false

/-- The status the middleware answered with, if it answered itself. -/
def Handled.status : Handled → Option Nat
  | .next _ => none
  | .abort status _ _ => some status

/-- What the middleware did with a request, once its handler has finished. -/
def Stage.handled : Stage → Option Handled
  | .done h => some h
  | _ => none

/-- A clock that moves one minute per reading. -/
def minuteEnv : Env :=
  { busyEnv with clock := fun k => (k : Int) * 60000000000 }

/-- Two requests of one user that have reached the middleware of a store with
the given limit and no counters yet. -/
def twoRequests (limit : Int) : Pool :=
  { store := NewInMemoryStore limit, st := st0,
    requests := [{ key := "user:1", requestID := "a", stage := .entered },
                 { key := "user:1", requestID := "b", stage := .entered }] }

/-! ## Basic facts about the client -/

theorem GetResult_trace (env : Env) (c : Client) (token : String) (st : St) :
    (c.GetResult env token st).2.trace =
      st.trace ++ [Call.GetResult token (c.GetResult env token st).1] := by
  unfold Client.GetResult
  simp only [St.record, httpDo]
  repeat' split
  all_goals (try simp only [Prod.mk.injEq] at *)
  all_goals (try casesm* _ ∧ _)
  all_goals subst_vars
  all_goals simp

theorem GetResult_clockReads (env : Env) (c : Client) (token : String) (st : St) :
    (c.GetResult env token st).2.clockReads = st.clockReads := by
  unfold Client.GetResult
  simp only [St.record, httpDo]
  repeat' split
  all_goals (try simp only [Prod.mk.injEq] at *)
  all_goals (try casesm* _ ∧ _)
  all_goals subst_vars
  all_goals simp

theorem Submit_trace (env : Env) (c : Client) (req : SubmissionRequest) (st : St) :
    (c.Submit env req st).2.trace =
      st.trace ++ [Call.Submit req (c.Submit env req st).1] := by
  unfold Client.Submit
  simp only [St.record, httpDo]
  repeat' split
  all_goals (try simp only [Prod.mk.injEq] at *)
  all_goals (try casesm* _ ∧ _)
  all_goals subst_vars
  all_goals simp

theorem Submit_clockReads (env : Env) (c : Client) (req : SubmissionRequest) (st : St) :
    (c.Submit env req st).2.clockReads = st.clockReads := by
  unfold Client.Submit
  simp only [St.record, httpDo]
  repeat' split
  all_goals (try simp only [Prod.mk.injEq] at *)
  all_goals (try casesm* _ ∧ _)
  all_goals subst_vars
  all_goals simp

/-! ## The poll loop, one iteration at a time -/

theorem poll_zero (env : Env) (c : Client) (token : String) (deadline : Int) (st : St) :
    SubmitAndWait.poll env c token deadline 0 st = none := by
  rw [SubmitAndWait.poll]

theorem poll_succ (env : Env) (c : Client) (token : String) (deadline : Int) (fuel : Nat)
    (st : St) :
    SubmitAndWait.poll env c token deadline (fuel + 1) st =
      match SubmitAndWait.step env c token deadline st with
      | .ret out => some out
      | .again st3 => SubmitAndWait.poll env c token deadline fuel st3 := by
  rw [SubmitAndWait.poll]
  unfold SubmitAndWait.step
  simp only [timeNow, selectNext]
  by_cases hd : env.clock st.clockReads < deadline
  · simp only [hd, if_true]
    cases hs : env.select st.selects with
    | done err => simp
    | tick =>
      simp only []
      rcases hg : c.GetResult env token
        { clockReads := st.clockReads + 1, exchanges := st.exchanges,
          selects := st.selects + 1, trace := st.trace } with ⟨o, st3⟩
      cases o with
      | error err => simp
      | ok result =>
        simp only []
        by_cases h3 : result.Status.ID = 3
        · have : (2 : Int) < result.Status.ID := by omega
          simp [h3]
        · by_cases h2 : result.Status.ID ≤ 2
          · have : ¬ (2 : Int) < result.Status.ID := by omega
            simp [h3, h2, this]
          · have : (2 : Int) < result.Status.ID := by omega
            simp [h3, h2, this]
  · simp [hd]

theorem step_again (env : Env) (c : Client) (token : String) (deadline : Int) (st st3 : St)
    (h : SubmitAndWait.step env c token deadline st = .again st3) :
    st3.clockReads = st.clockReads + 1 ∧
    ∃ p : SubmissionResult, p.Status.ID ≤ 2 ∧
      st3.trace = st.trace ++ [Call.GetResult token (.ok p)] := by
  unfold SubmitAndWait.step at h
  split at h
  · split at h
    · cases h
    · split at h
      · cases h
      · rename_i result hres
        split at h
        · cases h
        · rename_i hlt
          injection h with h
          subst h
          refine ⟨?_, result, by omega, ?_⟩
          · rw [GetResult_clockReads]; rfl
          · rw [GetResult_trace, hres]; rfl
  · cases h

theorem step_ret_trace (env : Env) (c : Client) (token : String) (deadline : Int) (st : St)
    (out : Except GoError SubmissionResult) (st3 : St)
    (h : SubmitAndWait.step env c token deadline st = .ret (out, st3)) :
    st3.trace = st.trace ∨ st3.trace = st.trace ++ [Call.GetResult token out] := by
  unfold SubmitAndWait.step at h
  split at h
  · split at h
    · injection h with h
      injection h with h1 h2
      subst h2
      exact Or.inl rfl
    · split at h
      · rename_i err hres
        injection h with h
        injection h with h1 h2
        subst h1 h2
        right
        rw [GetResult_trace, hres]; rfl
      · rename_i result hres
        split at h
        · injection h with h
          injection h with h1 h2
          subst h1 h2
          right
          rw [GetResult_trace, hres]; rfl
        · cases h
  · injection h with h
    injection h with h1 h2
    subst h2
    exact Or.inl rfl

theorem step_ret_ok (env : Env) (c : Client) (token : String) (deadline : Int) (st : St)
    (r : SubmissionResult) (st3 : St)
    (h : SubmitAndWait.step env c token deadline st = .ret (.ok r, st3)) :
    2 < r.Status.ID ∧ st3.trace = st.trace ++ [Call.GetResult token (.ok r)] := by
  unfold SubmitAndWait.step at h
  split at h
  · split at h
    · cases h
    · split at h
      · cases h
      · rename_i result hres
        split at h
        · rename_i hlt
          injection h with h
          injection h with h1 h2
          injection h1 with h1
          subst h1 h2
          refine ⟨hlt, ?_⟩
          rw [GetResult_trace, hres]; rfl
        · cases h
  · cases h

theorem step_deadline (env : Env) (c : Client) (token : String) (deadline : Int) (st : St)
    (h : deadline ≤ env.clock st.clockReads) :
    ∃ out, SubmitAndWait.step env c token deadline st = .ret out := by
  unfold SubmitAndWait.step
  have : ¬ env.clock st.clockReads < deadline := by omega
  simp [this]

/-- More fuel does not change what the poll loop returns. -/
theorem poll_mono (env : Env) (c : Client) (token : String) (deadline : Int) :
    ∀ (fuel : Nat) (st : St) (x : Except GoError SubmissionResult × St),
      SubmitAndWait.poll env c token deadline fuel st = some x →
      ∀ fuel2, fuel ≤ fuel2 → SubmitAndWait.poll env c token deadline fuel2 st = some x := by
  intro fuel
  induction fuel with
  | zero => intro st x h; rw [poll_zero] at h; cases h
  | succ n ih =>
    intro st x h fuel2 hle
    obtain ⟨m, rfl⟩ : ∃ m, fuel2 = m + 1 := ⟨fuel2 - 1, by omega⟩
    rw [poll_succ] at h ⊢
    cases hs : SubmitAndWait.step env c token deadline st with
    | ret out => rw [hs] at h; exact h
    | again st3 =>
      rw [hs] at h
      exact ih st3 x h m (by omega)

/-- With a clock that advances, the poll loop returns when given enough fuel. -/
theorem poll_total (env : Env) (c : Client) (token : String) (deadline : Int)
    (hclock : ClockAdvances env) (st : St) :
    ∃ fuel x, SubmitAndWait.poll env c token deadline fuel st = some x := by
  obtain ⟨j, hj, hd⟩ := hclock deadline st.clockReads
  obtain ⟨n, hn⟩ : ∃ n, st.clockReads + n = j := ⟨j - st.clockReads, by omega⟩
  clear hj
  induction n generalizing st with
  | zero =>
    obtain ⟨out, ho⟩ := step_deadline env c token deadline st (by rw [← hn] at hd; simpa using hd)
    exact ⟨1, out, by rw [poll_succ, ho]⟩
  | succ n ih =>
    cases hs : SubmitAndWait.step env c token deadline st with
    | ret out => exact ⟨1, out, by rw [poll_succ, hs]⟩
    | again st3 =>
      obtain ⟨hc, -⟩ := step_again env c token deadline st st3 hs
      obtain ⟨fuel, x, hx⟩ := ih st3 (by omega)
      exact ⟨fuel + 1, x, by rw [poll_succ, hs]; exact hx⟩

/-- What the log shows when the poll loop returns a result: polls with a
status of at most 2, then the returned result, whose status is above 2. -/
theorem poll_ok_trace (env : Env) (c : Client) (token : String) (deadline : Int) :
    ∀ (fuel : Nat) (st st2 : St) (r : SubmissionResult),
      SubmitAndWait.poll env c token deadline fuel st = some (.ok r, st2) →
      ∃ earlier : List SubmissionResult,
        st2.trace = st.trace ++
          (earlier.map (fun p => Call.GetResult token (.ok p)) ++
            [Call.GetResult token (.ok r)]) ∧
        (∀ p ∈ earlier, p.Status.ID ≤ 2) ∧ 2 < r.Status.ID := by
  intro fuel
  induction fuel with
  | zero => intro st st2 r h; rw [poll_zero] at h; cases h
  | succ n ih =>
    intro st st2 r h
    rw [poll_succ] at h
    cases hs : SubmitAndWait.step env c token deadline st with
    | ret out =>
      rw [hs] at h
      injection h with h
      subst h
      obtain ⟨h1, h2⟩ := step_ret_ok env c token deadline st r st2 hs
      exact ⟨[], by simpa using h2, by simp, h1⟩
    | again st3 =>
      rw [hs] at h
      obtain ⟨-, p, hp, htr⟩ := step_again env c token deadline st st3 hs
      obtain ⟨earlier, h1, h2, h3⟩ := ih st3 st2 r h
      refine ⟨p :: earlier, ?_, ?_, h3⟩
      · rw [h1, htr]; simp
      · intro q hq
        rcases List.mem_cons.mp hq with rfl | hq
        · exact hp
        · exact h2 q hq

/-- The poll loop logs nothing but `GetResult` calls. -/
theorem poll_trace (env : Env) (c : Client) (token : String) (deadline : Int) :
    ∀ (fuel : Nat) (st st2 : St) (out : Except GoError SubmissionResult),
      SubmitAndWait.poll env c token deadline fuel st = some (out, st2) →
      ∃ new, st2.trace = st.trace ++ new ∧ ∀ e ∈ new, Call.isLocal e = false := by
  intro fuel
  induction fuel with
  | zero => intro st st2 out h; rw [poll_zero] at h; cases h
  | succ n ih =>
    intro st st2 out h
    rw [poll_succ] at h
    cases hs : SubmitAndWait.step env c token deadline st with
    | ret o =>
      rw [hs] at h
      injection h with h
      subst h
      rcases step_ret_trace env c token deadline st out st2 hs with h1 | h1
      · exact ⟨[], by simpa using h1, by simp⟩
      · exact ⟨_, h1, by simp [Call.isLocal]⟩
    | again st3 =>
      rw [hs] at h
      obtain ⟨-, p, -, htr⟩ := step_again env c token deadline st st3 hs
      obtain ⟨new, h1, h2⟩ := ih st3 st2 out h
      refine ⟨Call.GetResult token (.ok p) :: new, by rw [h1, htr]; simp, ?_⟩
      intro e he
      rcases List.mem_cons.mp he with rfl | he
      · rfl
      · exact h2 e he

/-! ## `SubmitAndWait`, `executeSimple` and the test loop: fuel -/

theorem SubmitAndWait_eq (env : Env) (c : Client) (fuel : Nat) (req : SubmissionRequest)
    (timeout : Int) (st : St) :
    c.SubmitAndWait env fuel req timeout st =
      match (c.Submit env req st).1 with
      | .error err => some (.error err, (c.Submit env req st).2)
      | .ok token =>
        SubmitAndWait.poll env c token
          (env.clock (c.Submit env req st).2.clockReads + timeout) fuel
          (timeNow env (c.Submit env req st).2).2 := by
  unfold Client.SubmitAndWait
  rcases c.Submit env req st with ⟨o, st1⟩
  cases o <;> simp [timeNow]

theorem SubmitAndWait_mono (env : Env) (c : Client) (req : SubmissionRequest) (timeout : Int)
    (fuel : Nat) (st : St) (x : Except GoError SubmissionResult × St)
    (h : c.SubmitAndWait env fuel req timeout st = some x) (fuel2 : Nat) (hle : fuel ≤ fuel2) :
    c.SubmitAndWait env fuel2 req timeout st = some x := by
  rw [SubmitAndWait_eq] at h ⊢
  cases hs : (c.Submit env req st).1 with
  | error err => rw [hs] at h; exact h
  | ok token =>
    rw [hs] at h
    exact poll_mono env c token _ fuel _ x h fuel2 hle

theorem SubmitAndWait_total (env : Env) (c : Client) (req : SubmissionRequest) (timeout : Int)
    (hclock : ClockAdvances env) (st : St) :
    ∃ fuel x, c.SubmitAndWait env fuel req timeout st = some x := by
  cases hs : (c.Submit env req st).1 with
  | error err => exact ⟨0, _, by rw [SubmitAndWait_eq, hs]⟩
  | ok token =>
    obtain ⟨fuel, x, hx⟩ := poll_total env c token
      (env.clock (c.Submit env req st).2.clockReads + timeout) hclock
      (timeNow env (c.Submit env req st).2).2
    exact ⟨fuel, x, by rw [SubmitAndWait_eq, hs]; exact hx⟩

/-- `SubmitAndWait` logs the `Submit` call and `GetResult` calls only. -/
theorem SubmitAndWait_trace (env : Env) (c : Client) (req : SubmissionRequest) (timeout : Int)
    (fuel : Nat) (st st2 : St) (out : Except GoError SubmissionResult)
    (h : c.SubmitAndWait env fuel req timeout st = some (out, st2)) :
    ∃ new, st2.trace = st.trace ++ new ∧ ∀ e ∈ new, Call.isLocal e = false := by
  rw [SubmitAndWait_eq] at h
  cases hs : (c.Submit env req st).1 with
  | error err =>
    rw [hs] at h
    injection h with h
    injection h with h1 h2
    subst h2
    exact ⟨_, Submit_trace env c req st, by simp [Call.isLocal]⟩
  | ok token =>
    rw [hs] at h
    obtain ⟨new, h1, h2⟩ := poll_trace env c token _ fuel _ st2 out h
    refine ⟨Call.Submit req (c.Submit env req st).1 :: new, ?_, ?_⟩
    · rw [h1]
      simp only [timeNow]
      rw [Submit_trace]
      simp
    · intro e he
      rcases List.mem_cons.mp he with rfl | he
      · rfl
      · exact h2 e he

theorem raw_mono (env : Env) (s : Service) (req : ExecuteRequest) (sub : SubmissionRequest)
    (fuel : Nat) (st : St) (x : Except GoError SubmissionResult × St)
    (h : executeSimple.raw env s fuel req sub st = some x) (fuel2 : Nat) (hle : fuel ≤ fuel2) :
    executeSimple.raw env s fuel2 req sub st = some x := by
  unfold executeSimple.raw at h ⊢
  cases hf : s.judge0Client.filter Client.IsAvailable with
  | none => rw [hf] at h; exact h
  | some c =>
    rw [hf] at h
    simp only [] at h ⊢
    cases hsw : c.SubmitAndWait env fuel sub s.timeout st with
    | none => rw [hsw] at h; cases h
    | some y =>
      rw [SubmitAndWait_mono env c sub s.timeout fuel st y hsw fuel2 hle]
      rw [hsw] at h
      exact h

theorem raw_total (env : Env) (s : Service) (req : ExecuteRequest) (sub : SubmissionRequest)
    (hclock : ClockAdvances env) (st : St) :
    ∃ fuel x, executeSimple.raw env s fuel req sub st = some x := by
  unfold executeSimple.raw
  cases hf : s.judge0Client.filter Client.IsAvailable with
  | none =>
    refine ⟨0, ?_⟩
    simp only []
    split
    · exact ⟨_, rfl⟩
    · split <;> exact ⟨_, rfl⟩
  | some c =>
    obtain ⟨fuel, ⟨o, st1⟩, hx⟩ := SubmitAndWait_total env c sub s.timeout hclock st
    refine ⟨fuel, ?_⟩
    simp only [hx]
    cases o <;> exact ⟨_, rfl⟩

theorem executeSimple_mono (env : Env) (s : Service) (req : ExecuteRequest) (startTime : Int)
    (fuel : Nat) (st : St) (x : Except GoError ExecuteResponse × St)
    (h : s.executeSimple env fuel req startTime st = some x) (fuel2 : Nat) (hle : fuel ≤ fuel2) :
    s.executeSimple env fuel2 req startTime st = some x := by
  unfold Service.executeSimple at h ⊢
  cases hl : LanguageID.lookup req.Language with
  | none => rw [hl] at h; exact h
  | some languageID =>
    rw [hl] at h
    simp only [] at h ⊢
    cases hr : executeSimple.raw env s fuel req
        { SourceCode := req.Code, LanguageID := languageID, Stdin := req.Stdin,
          CPUTimeLimit := 5, MemoryLimit := s.memoryLimit } st with
    | none => rw [hr] at h; cases h
    | some y =>
      rw [raw_mono env s req _ fuel st y hr fuel2 hle]
      rw [hr] at h
      exact h

theorem executeSimple_total (env : Env) (s : Service) (req : ExecuteRequest) (startTime : Int)
    (hclock : ClockAdvances env) (st : St) :
    ∃ fuel x, s.executeSimple env fuel req startTime st = some x := by
  unfold Service.executeSimple
  cases hl : LanguageID.lookup req.Language with
  | none => exact ⟨0, _, rfl⟩
  | some languageID =>
    obtain ⟨fuel, ⟨o, st1⟩, hx⟩ := raw_total env s req
      { SourceCode := req.Code, LanguageID := languageID, Stdin := req.Stdin,
        CPUTimeLimit := 5, MemoryLimit := s.memoryLimit } hclock st
    refine ⟨fuel, ?_⟩
    simp only [hx]
    cases o <;> exact ⟨_, rfl⟩

theorem loop_nil (env : Env) (s : Service) (fuel : Nat) (req : ExecuteRequest)
    (acc : List TestResult) (ap : Bool) (st : St) :
    executeWithTests.loop env s fuel req [] acc ap st = some (acc, ap, st) := by
  rw [executeWithTests.loop]

theorem loop_cons (env : Env) (s : Service) (fuel : Nat) (req : ExecuteRequest)
    (tc : TestCase) (rest : List TestCase) (acc : List TestResult) (ap : Bool) (st : St) :
    executeWithTests.loop env s fuel req (tc :: rest) acc ap st =
      match s.executeSimple env fuel (testRequest req tc) (timeNow env st).1 (timeNow env st).2 with
      | none => none
      | some (.error err, st2) =>
        executeWithTests.loop env s fuel req rest
          (acc ++ [errorResult tc err.Error
            (Milliseconds (timeSince env (timeNow env st).1 st2).1)])
          false (timeSince env (timeNow env st).1 st2).2
      | some (.ok result, st2) =>
        executeWithTests.loop env s fuel req rest (acc ++ [gradedResult tc result])
          (ap && (gradedResult tc result).Passed) st2 := by
  rw [executeWithTests.loop]
  simp only [timeNow, testRequest]
  split
  · rename_i h; simp [h]
  · rename_i h; simp [h, errorResult, timeSince, timeNow]
  · rename_i result st2 h
    simp only [h, gradedResult]
    cases ap <;> cases (TrimSpace result.Output == TrimSpace tc.ExpectedOutput) <;> rfl

theorem loop_mono (env : Env) (s : Service) (req : ExecuteRequest) (fuel : Nat) :
    ∀ (cases : List TestCase) (acc : List TestResult) (ap : Bool) (st : St)
      (x : List TestResult × Bool × St),
      executeWithTests.loop env s fuel req cases acc ap st = some x →
      ∀ fuel2, fuel ≤ fuel2 → executeWithTests.loop env s fuel2 req cases acc ap st = some x := by
  intro cases
  induction cases with
  | nil => intro acc ap st x h fuel2 _; rw [loop_nil] at h ⊢; exact h
  | cons tc rest ih =>
    intro acc ap st x h fuel2 hle
    rw [loop_cons] at h ⊢
    cases hr : s.executeSimple env fuel (testRequest req tc) (timeNow env st).1
        (timeNow env st).2 with
    | none => rw [hr] at h; cases h
    | some y =>
      rw [executeSimple_mono env s _ _ fuel _ y hr fuel2 hle]
      rw [hr] at h
      rcases y with ⟨o, st2⟩
      cases o with
      | error err => exact ih _ _ _ x h fuel2 hle
      | ok result => exact ih _ _ _ x h fuel2 hle

theorem loop_total (env : Env) (s : Service) (req : ExecuteRequest)
    (hclock : ClockAdvances env) :
    ∀ (cases : List TestCase) (acc : List TestResult) (ap : Bool) (st : St),
      ∃ fuel x, executeWithTests.loop env s fuel req cases acc ap st = some x := by
  intro cases
  induction cases with
  | nil => intro acc ap st; exact ⟨0, _, loop_nil env s 0 req acc ap st⟩
  | cons tc rest ih =>
    intro acc ap st
    obtain ⟨f1, ⟨o, st2⟩, h1⟩ := executeSimple_total env s (testRequest req tc)
      (timeNow env st).1 hclock (timeNow env st).2
    cases o with
    | error err =>
      obtain ⟨f2, x, h2⟩ := ih
        (acc ++ [errorResult tc err.Error
          (Milliseconds (timeSince env (timeNow env st).1 st2).1)])
        false (timeSince env (timeNow env st).1 st2).2
      refine ⟨max f1 f2, x, ?_⟩
      rw [loop_cons, executeSimple_mono env s _ _ f1 _ _ h1 (max f1 f2) (le_max_left _ _)]
      exact loop_mono env s req f2 _ _ _ _ x h2 _ (le_max_right _ _)
    | ok result =>
      obtain ⟨f2, x, h2⟩ := ih (acc ++ [gradedResult tc result])
        (ap && (gradedResult tc result).Passed) st2
      refine ⟨max f1 f2, x, ?_⟩
      rw [loop_cons, executeSimple_mono env s _ _ f1 _ _ h1 (max f1 f2) (le_max_left _ _)]
      exact loop_mono env s req f2 _ _ _ _ x h2 _ (le_max_right _ _)

/-- What the test loop returns: the accumulated results followed by one result
per remaining test case, in order, and the conjunction of their verdicts. -/
theorem loop_spec (env : Env) (s : Service) (req : ExecuteRequest) (fuel : Nat) :
    ∀ (cases : List TestCase) (acc : List TestResult) (ap : Bool) (st : St)
      (trs : List TestResult) (ap2 : Bool) (st2 : St),
      executeWithTests.loop env s fuel req cases acc ap st = some (trs, ap2, st2) →
      ∃ new, trs = acc ++ new ∧ new.map (fun t => t.TestCase) = cases ∧
        ap2 = (ap && new.all (fun t => t.Passed)) := by
  intro cases
  induction cases with
  | nil =>
    intro acc ap st trs ap2 st2 h
    rw [loop_nil] at h
    injection h with h
    injection h with h1 h2
    injection h2 with h2 h3
    exact ⟨[], by simp [h1], rfl, by simp [h2]⟩
  | cons tc rest ih =>
    intro acc ap st trs ap2 st2 h
    rw [loop_cons] at h
    cases hr : s.executeSimple env fuel (testRequest req tc) (timeNow env st).1
        (timeNow env st).2 with
    | none => rw [hr] at h; cases h
    | some y =>
      rw [hr] at h
      rcases y with ⟨o, st1⟩
      cases o with
      | error err =>
        obtain ⟨new, h1, h2, h3⟩ := ih _ _ _ trs ap2 st2 h
        refine ⟨errorResult tc err.Error
          (Milliseconds (timeSince env (timeNow env st).1 st1).1) :: new,
          by rw [h1]; simp, by simp [h2, errorResult], ?_⟩
        simp [h3, errorResult]
      | ok result =>
        obtain ⟨new, h1, h2, h3⟩ := ih _ _ _ trs ap2 st2 h
        refine ⟨gradedResult tc result :: new, by rw [h1]; simp,
          by simp [h2, gradedResult], ?_⟩
        simp [h3, Bool.and_assoc]

/-- The test loop over a concatenation runs the first part, then the second
from where the first ended. -/
theorem loop_append (env : Env) (s : Service) (req : ExecuteRequest) (fuel : Nat) :
    ∀ (xs ys : List TestCase) (acc : List TestResult) (ap : Bool) (st : St),
      executeWithTests.loop env s fuel req (xs ++ ys) acc ap st =
        match executeWithTests.loop env s fuel req xs acc ap st with
        | none => none
        | some (acc2, ap2, st2) => executeWithTests.loop env s fuel req ys acc2 ap2 st2 := by
  intro xs
  induction xs with
  | nil => intro ys acc ap st; rw [loop_nil]; rfl
  | cons tc rest ih =>
    intro ys acc ap st
    rw [List.cons_append, loop_cons, loop_cons]
    cases hr : s.executeSimple env fuel (testRequest req tc) (timeNow env st).1
        (timeNow env st).2 with
    | none => rfl
    | some y =>
      rcases y with ⟨o, st1⟩
      cases o with
      | error err => exact ih ys _ _ _
      | ok result => exact ih ys _ _ _

/-- The accumulator and the running verdict only sit in front of what the loop
adds. -/
theorem loop_acc (env : Env) (s : Service) (req : ExecuteRequest) (fuel : Nat) :
    ∀ (cases : List TestCase) (acc : List TestResult) (ap : Bool) (st : St),
      executeWithTests.loop env s fuel req cases acc ap st =
        match executeWithTests.loop env s fuel req cases [] true st with
        | none => none
        | some (new, ap2, st2) => some (acc ++ new, ap && ap2, st2) := by
  intro cases
  induction cases with
  | nil => intro acc ap st; rw [loop_nil, loop_nil]; simp
  | cons tc rest ih =>
    intro acc ap st
    rw [loop_cons, loop_cons]
    cases hr : s.executeSimple env fuel (testRequest req tc) (timeNow env st).1
        (timeNow env st).2 with
    | none => rfl
    | some y =>
      rcases y with ⟨o, st1⟩
      cases o with
      | error err =>
        simp only []
        rw [ih (acc ++ _), ih ([] ++ _)]
        cases executeWithTests.loop env s fuel req rest [] true _ with
        | none => rfl
        | some z => rcases z with ⟨new, ap2, st2⟩; simp
      | ok result =>
        simp only []
        rw [ih (acc ++ _), ih ([] ++ _)]
        cases executeWithTests.loop env s fuel req rest [] true _ with
        | none => rfl
        | some z => rcases z with ⟨new, ap2, st2⟩; simp [Bool.and_assoc]

/-! ## `Execute` and `executeSimple` -/

theorem Execute_simple (env : Env) (s : Service) (fuel : Nat) (req : ExecuteRequest) (st : St)
    (h : req.TestCases = []) :
    s.Execute env fuel req st =
      s.executeSimple env fuel req (timeNow env st).1 (timeNow env st).2 := by
  unfold Service.Execute
  simp [h, timeNow]

theorem Execute_tests (env : Env) (s : Service) (fuel : Nat) (req : ExecuteRequest) (st : St)
    (h : 1 ≤ req.TestCases.length) :
    s.Execute env fuel req st =
      match executeWithTests.loop env s fuel req req.TestCases [] true (timeNow env st).2 with
      | none => none
      | some (testResults, allPassed, st1) =>
        some (.ok { Output := "", Error := "", Passed := allPassed, TestResults := testResults,
                    ExecutionTimeMs := Milliseconds (timeSince env (timeNow env st).1 st1).1,
                    ExitCode := 0 }, (timeSince env (timeNow env st).1 st1).2) := by
  unfold Service.Execute Service.executeWithTests
  have : req.TestCases.length > 0 := h
  simp only [timeNow, this, if_true]

theorem executeSimple_of_raw (env : Env) (s : Service) (fuel : Nat) (req : ExecuteRequest)
    (startTime : Int) (st : St) (languageID : Int) (r : SubmissionResult) (st1 : St)
    (hL : LanguageID.lookup req.Language = some languageID)
    (hraw : executeSimple.raw env s fuel req (submissionFor s req languageID) st =
      some (.ok r, st1)) :
    s.executeSimple env fuel req startTime st =
      some (.ok { Output := r.Stdout,
                  Error := if r.Stderr ≠ "" then r.Stderr
                           else if r.CompileOutput ≠ "" then r.CompileOutput
                           else if r.Status.ID ≠ 3 then r.Status.Description
                           else "",
                  Passed := r.Status.ID == 3 && r.ExitCode == 0,
                  TestResults := [],
                  ExecutionTimeMs := Milliseconds (timeSince env startTime st1).1,
                  ExitCode := r.ExitCode }, (timeSince env startTime st1).2) := by
  unfold Service.executeSimple
  unfold submissionFor at hraw
  simp only [hL, hraw]

theorem filter_none_iff (s : Service) :
    s.judge0Client.filter Client.IsAvailable = none ↔
      (s.judge0Client = none ∨ ∃ c, s.judge0Client = some c ∧ c.IsAvailable = false) := by
  cases h : s.judge0Client with
  | none => simp
  | some c =>
    cases hc : c.IsAvailable <;> simp [Option.filter, hc]

theorem lookup_go : LanguageID.lookup "go" = some 60 := by decide

/-- With a clock that advances, `Execute` on a request with test cases
returns once the fuel is large enough, and what it returns is built from what
the test loop returns. -/
theorem Execute_tests_total (env : Env) (s : Service) (req : ExecuteRequest) (st : St)
    (hclock : ClockAdvances env) (hN : 1 ≤ req.TestCases.length) :
    ∃ fuel0, ∀ fuel, fuel0 ≤ fuel → ∃ trs ap st1,
      executeWithTests.loop env s fuel req req.TestCases [] true (timeNow env st).2 =
        some (trs, ap, st1) ∧
      s.Execute env fuel req st =
        some (.ok { Output := "", Error := "", Passed := ap, TestResults := trs,
                    ExecutionTimeMs := Milliseconds (timeSince env (timeNow env st).1 st1).1,
                    ExitCode := 0 }, (timeSince env (timeNow env st).1 st1).2) := by
  obtain ⟨f, ⟨trs, ap, st1⟩, hx⟩ :=
    loop_total env s req hclock req.TestCases [] true (timeNow env st).2
  refine ⟨f, fun fuel hle => ⟨trs, ap, st1, ?_, ?_⟩⟩
  · exact loop_mono env s req f _ _ _ _ _ hx fuel hle
  · rw [Execute_tests env s fuel req st hN,
      loop_mono env s req f _ _ _ _ _ hx fuel hle]

/-- Where the test loop puts the result of one test case: after the results of
the cases before it, and the loop then goes on with the cases after it. -/
theorem loop_case (env : Env) (s : Service) (req : ExecuteRequest) (fuel : Nat)
    (pre : List TestCase) (tc : TestCase) (post : List TestCase)
    (trs : List TestResult) (ap : Bool) (sti : St)
    (o : Except GoError ExecuteResponse) (st2 : St) (st1 : St)
    (all : List TestResult) (apAll : Bool) (stEnd : St)
    (hpre : executeWithTests.loop env s fuel req pre [] true st1 = some (trs, ap, sti))
    (hrun : s.executeSimple env fuel (testRequest req tc) (timeNow env sti).1
      (timeNow env sti).2 = some (o, st2))
    (hall : executeWithTests.loop env s fuel req (pre ++ tc :: post) [] true st1 =
      some (all, apAll, stEnd)) :
    trs.length = pre.length ∧
    match o with
    | .error err =>
      executeWithTests.loop env s fuel req post
        (trs ++ [errorResult tc err.Error
          (Milliseconds (timeSince env (timeNow env sti).1 st2).1)])
        false (timeSince env (timeNow env sti).1 st2).2 = some (all, apAll, stEnd)
    | .ok result =>
      executeWithTests.loop env s fuel req post (trs ++ [gradedResult tc result])
        (ap && (gradedResult tc result).Passed) st2 = some (all, apAll, stEnd) := by
  constructor
  · obtain ⟨new, h1, h2, -⟩ := loop_spec env s req fuel pre [] true st1 trs ap sti hpre
    rw [h1, List.nil_append, ← h2, List.length_map]
  · rw [loop_append, hpre] at hall
    simp only [] at hall
    rw [loop_cons, hrun] at hall
    cases o with
    | error err => exact hall
    | ok result => exact hall

/-- The entry at the position of a test case, when the loop went on from the
results `trs ++ [t]`. -/
theorem loop_entry (env : Env) (s : Service) (req : ExecuteRequest) (fuel : Nat)
    (post : List TestCase) (trs : List TestResult) (t : TestResult) (ap : Bool) (st : St)
    (all : List TestResult) (apAll : Bool) (stEnd : St)
    (h : executeWithTests.loop env s fuel req post (trs ++ [t]) ap st =
      some (all, apAll, stEnd)) :
    all[trs.length]? = some t ∧ all.length = trs.length + 1 + post.length ∧
      (ap = false → apAll = false) := by
  obtain ⟨new, h1, h2, h3⟩ := loop_spec env s req fuel post _ ap st all apAll stEnd h
  refine ⟨?_, ?_, ?_⟩
  · rw [h1, List.append_assoc, List.getElem?_append_right (le_refl _)]
    simp
  · rw [h1, ← h2]; simp; omega
  · intro hap; rw [h3, hap]; rfl

/-! ## `TrimSpace` -/

theorem trimList_decomp (l : List Char) :
    ∃ la ra, allSpace la ∧ allSpace ra ∧ l = la ++ trimList l ++ ra := by
  refine ⟨l.takeWhile isSpace, ((l.dropWhile isSpace).reverse.takeWhile isSpace).reverse,
    ?_, ?_, ?_⟩
  · intro c hc; exact List.mem_takeWhile_imp hc
  · intro c hc; exact List.mem_takeWhile_imp (List.mem_reverse.mp hc)
  · have h1 : (l.dropWhile isSpace) =
        trimList l ++ ((l.dropWhile isSpace).reverse.takeWhile isSpace).reverse := by
      unfold trimList
      rw [← List.reverse_append, List.takeWhile_append_dropWhile, List.reverse_reverse]
    rw [List.append_assoc, ← h1, List.takeWhile_append_dropWhile]

theorem trimList_pad (la core ra : List Char) (hla : allSpace la) (hra : allSpace ra) :
    trimList (la ++ core ++ ra) = trimList core := by
  unfold trimList
  rw [List.append_assoc, List.dropWhile_append_of_pos hla, List.dropWhile_append]
  split
  · rename_i he
    have hnil : core.dropWhile isSpace = [] := by simpa using he
    have hr : ra.dropWhile isSpace = [] := by
      rw [List.dropWhile_eq_nil_iff]; exact hra
    rw [hnil, hr]
  · rw [List.reverse_append, List.dropWhile_append_of_pos]
    intro c hc
    exact hra c (List.mem_reverse.mp hc)

/-- Two strings have the same `TrimSpace` exactly when they are the same text
between white space at either end. -/
theorem TrimSpace_eq_iff (a e : String) :
    TrimSpace a = TrimSpace e ↔
      ∃ core la ra le re, allSpace la ∧ allSpace ra ∧ allSpace le ∧ allSpace re ∧
        a.data = la ++ core ++ ra ∧ e.data = le ++ core ++ re := by
  constructor
  · intro h
    have hd : trimList a.data = trimList e.data := by
      have := congrArg String.data h
      simpa [TrimSpace, trimList] using this
    obtain ⟨la, ra, h1, h2, h3⟩ := trimList_decomp a.data
    obtain ⟨le, re, h4, h5, h6⟩ := trimList_decomp e.data
    exact ⟨trimList a.data, la, ra, le, re, h1, h2, h4, h5, h3, by rw [hd]; exact h6⟩
  · rintro ⟨core, la, ra, le, re, h1, h2, h3, h4, h5, h6⟩
    show String.mk (trimList a.data) = String.mk (trimList e.data)
    rw [h5, h6, trimList_pad la core ra h1 h2, trimList_pad le core re h3 h4]

theorem stubEnv_clockAdvances (script : List HTTPOutcome) : ClockAdvances (stubEnv script) := by
  intro t k
  refine ⟨max k t.toNat, le_max_left _ _, ?_⟩
  show t ≤ ((max k t.toNat : Nat) : Int) * 100000000
  have h1 : t ≤ (t.toNat : Int) := Int.self_le_toNat t
  have h2 : (t.toNat : Int) ≤ ((max k t.toNat : Nat) : Int) := by
    exact_mod_cast le_max_right k t.toNat
  have h3 : (0 : Int) ≤ ((max k t.toNat : Nat) : Int) := Int.natCast_nonneg _
  nlinarith

theorem normalize_eq (r : SubmissionResult) (ms : Int) :
    ({ Output := r.Stdout,
       Error := if r.Stderr ≠ "" then r.Stderr
                else if r.CompileOutput ≠ "" then r.CompileOutput
                else if r.Status.ID ≠ 3 then r.Status.Description
                else "",
       Passed := r.Status.ID == 3 && r.ExitCode == 0,
       TestResults := [],
       ExecutionTimeMs := ms,
       ExitCode := r.ExitCode } : ExecuteResponse) = normalize r ms := by
  unfold normalize
  congr 1
  · by_cases h1 : r.Stderr = ""
    · by_cases h2 : r.CompileOutput = ""
      · by_cases h3 : r.Status.ID = 3
        · simp [h1, h2, h3, List.find?]
        · by_cases h4 : r.Status.Description = ""
          · simp [h1, h2, h3, h4, List.find?]
          · simp [h1, h2, h3, h4, List.find?]
      · simp [h1, h2, List.find?]
    · simp [h1, List.find?]
  · by_cases h3 : r.Status.ID = 3 <;> by_cases h4 : r.ExitCode = 0 <;> simp [h3, h4]

/-- What `executeSimple` adds to the log: calls of the local stand-in appear
exactly when no judge is available and the language is `go`. -/
theorem executeSimple_trace (env : Env) (s : Service) (fuel : Nat) (req : ExecuteRequest)
    (startTime : Int) (st : St) (out : Except GoError ExecuteResponse) (st2 : St)
    (h : s.executeSimple env fuel req startTime st = some (out, st2)) :
    ∃ new, st2.trace = st.trace ++ new ∧
      ((∃ e ∈ new, Call.isLocal e = true) ↔
        (s.judge0Client.filter Client.IsAvailable = none ∧ req.Language = "go")) := by
  unfold Service.executeSimple at h
  cases hl : LanguageID.lookup req.Language with
  | none =>
    rw [hl] at h
    injection h with h
    injection h with h1 h2
    subst h2
    refine ⟨[], by simp, ?_⟩
    constructor
    · rintro ⟨e, he, -⟩; cases he
    · rintro ⟨-, hgo⟩
      rw [hgo, lookup_go] at hl
      cases hl
  | some languageID =>
    rw [hl] at h
    simp only [] at h
    unfold executeSimple.raw at h
    cases hf : s.judge0Client.filter Client.IsAvailable with
    | some c =>
      rw [hf] at h
      simp only [] at h
      cases hsw : c.SubmitAndWait env fuel
          { SourceCode := req.Code, LanguageID := languageID, Stdin := req.Stdin,
            CPUTimeLimit := 5, MemoryLimit := s.memoryLimit } s.timeout st with
      | none => rw [hsw] at h; cases h
      | some y =>
        rcases y with ⟨o, st1⟩
        obtain ⟨new, h1, h2⟩ := SubmitAndWait_trace env c _ s.timeout fuel st st1 o hsw
        rw [hsw] at h
        have htr : st2.trace = st1.trace := by
          cases o with
          | error err =>
            simp only [] at h
            injection h with h
            injection h with h3 h4
            rw [← h4]
          | ok result =>
            simp only [timeSince, timeNow] at h
            injection h with h
            injection h with h3 h4
            rw [← h4]
        refine ⟨new, by rw [htr, h1], ?_⟩
        constructor
        · rintro ⟨e, he, hloc⟩
          rw [h2 e he] at hloc
          cases hloc
        · rintro ⟨hnone, -⟩
          cases hnone
    | none =>
      rw [hf] at h
      simp only [] at h
      by_cases hgo : req.Language = "go"
      · simp only [hgo, ne_eq, not_true_eq_false, if_false, Service.executeLocalGo,
          St.record, timeSince, timeNow] at h
        injection h with h
        injection h with h3 h4
        refine ⟨[Call.executeLocalGo req.Code req.Stdin (.ok localResult)],
          by rw [← h4]; rfl, ?_⟩
        constructor
        · intro _; exact ⟨rfl, hgo⟩
        · intro _; exact ⟨_, List.mem_singleton.mpr rfl, rfl⟩
      · simp only [ne_eq, hgo, not_false_eq_true, if_true] at h
        injection h with h
        injection h with h3 h4
        subst h4
        refine ⟨[], by simp, ?_⟩
        constructor
        · rintro ⟨e, he, -⟩; cases he
        · rintro ⟨-, h5⟩; exact absurd h5 hgo

/-! ## The poll loop: each kind of iteration -/

theorem step_tick_ok (env : Env) (c : Client) (token : String) (deadline : Int) (st : St)
    (result : SubmissionResult)
    (hnow : env.clock st.clockReads < deadline) (htick : env.select st.selects = .tick)
    (hres : (c.GetResult env token (selectNext env (timeNow env st).2).2).1 = .ok result) :
    SubmitAndWait.step env c token deadline st =
      if 2 < result.Status.ID then
        .ret (.ok result, (c.GetResult env token (selectNext env (timeNow env st).2).2).2)
      else .again (c.GetResult env token (selectNext env (timeNow env st).2).2).2 := by
  unfold SubmitAndWait.step
  simp only [hnow, if_true, htick, hres]

theorem step_tick_error (env : Env) (c : Client) (token : String) (deadline : Int) (st : St)
    (err : GoError)
    (hnow : env.clock st.clockReads < deadline) (htick : env.select st.selects = .tick)
    (hres : (c.GetResult env token (selectNext env (timeNow env st).2).2).1 = .error err) :
    SubmitAndWait.step env c token deadline st =
      .ret (.error err, (c.GetResult env token (selectNext env (timeNow env st).2).2).2) := by
  unfold SubmitAndWait.step
  simp only [hnow, if_true, htick, hres]

theorem step_done (env : Env) (c : Client) (token : String) (deadline : Int) (st : St)
    (err : GoError)
    (hnow : env.clock st.clockReads < deadline) (hdone : env.select st.selects = .done err) :
    SubmitAndWait.step env c token deadline st =
      .ret (.error err, (selectNext env (timeNow env st).2).2) := by
  unfold SubmitAndWait.step
  simp only [hnow, if_true, hdone]

theorem step_timeout (env : Env) (c : Client) (token : String) (deadline : Int) (st : St)
    (hnow : deadline ≤ env.clock st.clockReads) :
    SubmitAndWait.step env c token deadline st =
      .ret (.error (.errorf "timeout waiting for result"), (timeNow env st).2) := by
  unfold SubmitAndWait.step
  have : ¬ env.clock st.clockReads < deadline := by omega
  simp only [this, if_false]

theorem GetResult_exchanges (env : Env) (c : Client) (token : String) (st : St)
    (r : SubmissionResult) (h : (c.GetResult env token st).1 = .ok r) :
    (c.GetResult env token st).2.exchanges = st.exchanges + 1 := by
  unfold Client.GetResult at h ⊢
  simp only [St.record, httpDo] at h ⊢
  repeat' split
  all_goals (try simp only [Prod.mk.injEq] at *)
  all_goals (try casesm* _ ∧ _)
  all_goals subst_vars
  all_goals simp_all

theorem Submit_exchanges (env : Env) (c : Client) (req : SubmissionRequest) (st : St)
    (token : String) (h : (c.Submit env req st).1 = .ok token) :
    (c.Submit env req st).2.exchanges = st.exchanges + 1 := by
  unfold Client.Submit at h ⊢
  simp only [St.record, httpDo] at h ⊢
  repeat' split
  all_goals (try simp only [Prod.mk.injEq] at *)
  all_goals (try casesm* _ ∧ _)
  all_goals subst_vars
  all_goals simp_all

/-- The shape of the log when the poll loop returns: polls that returned a
status of at most 2, then either nothing more (the loop ended on the deadline
or on a done context, with an error) or one last poll whose return value is
what the loop returns. -/
theorem poll_shape (env : Env) (c : Client) (token : String) (deadline : Int) :
    ∀ (fuel : Nat) (st st2 : St) (out : Except GoError SubmissionResult),
      SubmitAndWait.poll env c token deadline fuel st = some (out, st2) →
      ∃ (earlier : List SubmissionResult) (last : List Call),
        st2.trace = st.trace ++ (earlier.map (fun p => Call.GetResult token (.ok p)) ++ last) ∧
        (∀ p ∈ earlier, p.Status.ID ≤ 2) ∧
        ((last = [] ∧ ∃ err, out = .error err) ∨ last = [Call.GetResult token out]) := by
  intro fuel
  induction fuel with
  | zero => intro st st2 out h; rw [poll_zero] at h; cases h
  | succ n ih =>
    intro st st2 out h
    rw [poll_succ] at h
    cases hs : SubmitAndWait.step env c token deadline st with
    | ret o =>
      rw [hs] at h
      injection h with h
      subst h
      rcases step_ret_trace env c token deadline st out st2 hs with h1 | h1
      · refine ⟨[], [], by simpa using h1, by simp, Or.inl ⟨rfl, ?_⟩⟩
        cases out with
        | error err => exact ⟨err, rfl⟩
        | ok r =>
          have := (step_ret_ok env c token deadline st r st2 hs).2
          rw [h1] at this
          simp at this
      · exact ⟨[], _, by simpa using h1, by simp, Or.inr rfl⟩
    | again st3 =>
      rw [hs] at h
      obtain ⟨-, p, hp, htr⟩ := step_again env c token deadline st st3 hs
      obtain ⟨earlier, last, h1, h2, h3⟩ := ih st3 st2 out h
      refine ⟨p :: earlier, last, by rw [h1, htr]; simp, ?_, h3⟩
      intro q hq
      rcases List.mem_cons.mp hq with rfl | hq
      · exact hp
      · exact h2 q hq

/-- The shape of the log when `SubmitAndWait` returns: one `Submit`, then the
polls of `poll_shape` when the submission was accepted, nothing when it was
not. -/
theorem SubmitAndWait_shape (env : Env) (c : Client) (fuel : Nat) (req : SubmissionRequest)
    (timeout : Int) (st st2 : St) (out : Except GoError SubmissionResult)
    (h : c.SubmitAndWait env fuel req timeout st = some (out, st2)) :
    (∃ err, (c.Submit env req st).1 = .error err ∧ out = .error err ∧
      st2.trace = st.trace ++ [Call.Submit req (.error err)]) ∨
    (∃ (token : String) (earlier : List SubmissionResult) (last : List Call),
      (c.Submit env req st).1 = .ok token ∧
      st2.trace = st.trace ++ (Call.Submit req (.ok token) ::
        (earlier.map (fun p => Call.GetResult token (.ok p)) ++ last)) ∧
      (∀ p ∈ earlier, p.Status.ID ≤ 2) ∧
      ((last = [] ∧ ∃ err, out = .error err) ∨ last = [Call.GetResult token out])) := by
  rw [SubmitAndWait_eq] at h
  cases hs : (c.Submit env req st).1 with
  | error err =>
    rw [hs] at h
    injection h with h
    injection h with h1 h2
    subst h1 h2
    left
    exact ⟨err, rfl, rfl, by rw [Submit_trace, hs]⟩
  | ok token =>
    rw [hs] at h
    obtain ⟨earlier, last, h1, h2, h3⟩ := poll_shape env c token _ fuel _ st2 out h
    right
    refine ⟨token, earlier, last, rfl, ?_, h2, h3⟩
    rw [h1]
    simp only [timeNow]
    rw [Submit_trace, hs]
    simp

/-- The poll loop against a judge that never reports a status above 2, with a
context that is never done: it can only end on the deadline. -/
theorem poll_busy (env : Env) (c : Client) (token : String) (deadline : Int)
    (hpoll : ∀ st1, ∃ r, (c.GetResult env token st1).1 = .ok r ∧ r.Status.ID ≤ 2)
    (hctx : ∀ k, env.select k = .tick) :
    ∀ (fuel : Nat) (st st2 : St) (out : Except GoError SubmissionResult),
      SubmitAndWait.poll env c token deadline fuel st = some (out, st2) →
      out = .error (.errorf "timeout waiting for result") ∧
      1 ≤ st2.clockReads ∧ deadline ≤ env.clock (st2.clockReads - 1) ∧
      ∃ polls : List SubmissionResult,
        st2.trace = st.trace ++ polls.map (fun p => Call.GetResult token (.ok p)) ∧
        (∀ p ∈ polls, p.Status.ID ≤ 2) ∧
        st2.exchanges = st.exchanges + polls.length := by
  intro fuel
  induction fuel with
  | zero => intro st st2 out h; rw [poll_zero] at h; cases h
  | succ n ih =>
    intro st st2 out h
    rw [poll_succ] at h
    by_cases hnow : env.clock st.clockReads < deadline
    · obtain ⟨r, hr, hle⟩ := hpoll (selectNext env (timeNow env st).2).2
      have hnot : ¬ (2 : Int) < r.Status.ID := by omega
      rw [step_tick_ok env c token deadline st r hnow (hctx _) hr] at h
      simp only [hnot, if_false] at h
      obtain ⟨h1, h2, h3, polls, h4, h5, h6⟩ := ih _ st2 out h
      refine ⟨h1, h2, h3, r :: polls, ?_, ?_, ?_⟩
      · rw [h4, GetResult_trace, hr]
        simp [selectNext, timeNow]
      · intro q hq
        rcases List.mem_cons.mp hq with rfl | hq
        · exact hle
        · exact h5 q hq
      · rw [h6, GetResult_exchanges env c token _ r hr]
        simp [selectNext, timeNow]
        omega
    · rw [step_timeout env c token deadline st (by omega)] at h
      injection h with h
      injection h with h1 h2
      subst h1 h2
      refine ⟨rfl, by simp [timeNow], by simpa [timeNow] using hnow, [], by simp [timeNow],
        by simp, by simp [timeNow]⟩

/-! ## The text of the client's errors -/

theorem head_append_some (a x : String) (ch : Char) (h : a.data.head? = some ch) :
    (a ++ x).data.head? = some ch := by
  rw [String.data_append]
  cases hd : a.data with
  | nil => rw [hd] at h; cases h
  | cons y ys => rw [hd] at h; simpa using h

theorem ne_of_head_ne (a b : String) (h : a.data.head? ≠ b.data.head?) : a ≠ b := by
  intro hab
  exact h (by rw [hab])

theorem append_left_cancel (a x y : String) (h : a ++ x = a ++ y) : x = y := by
  have hd := congrArg String.data h
  rw [String.data_append, String.data_append] at hd
  exact String.ext (List.append_cancel_left hd)

/-- The first character of the text of an error of `Submit`: that of `create
request: `, `do request: `, `decode response: ` or `judge0 api error: `. -/
theorem Submit_error_head (env : Env) (c : Client) (req : SubmissionRequest) (st : St)
    (e : GoError) (h : (c.Submit env req st).1 = .error e) :
    e.Error.data.head? = some 'c' ∨ e.Error.data.head? = some 'd' ∨
      e.Error.data.head? = some 'j' := by
  unfold Client.Submit at h
  simp only [httpDo] at h
  split at h
  · injection h with h
    subst h
    exact Or.inl (head_append_some _ _ _ rfl)
  · split at h
    · injection h with h
      subst h
      exact Or.inr (Or.inl (head_append_some _ _ _ rfl))
    · split at h
      · injection h with h
        subst h
        refine Or.inr (Or.inr ?_)
        exact head_append_some _ _ _ (head_append_some _ _ _ (head_append_some _ _ _ rfl))
      · split at h
        · injection h with h
          subst h
          exact Or.inr (Or.inl (head_append_some _ _ _ rfl))
        · cases h

theorem GetResult_error_head (env : Env) (c : Client) (token : String) (st : St)
    (e : GoError) (h : (c.GetResult env token st).1 = .error e) :
    e.Error.data.head? = some 'c' ∨ e.Error.data.head? = some 'd' ∨
      e.Error.data.head? = some 'j' := by
  unfold Client.GetResult at h
  simp only [httpDo] at h
  split at h
  · injection h with h
    subst h
    exact Or.inl (head_append_some _ _ _ rfl)
  · split at h
    · injection h with h
      subst h
      exact Or.inr (Or.inl (head_append_some _ _ _ rfl))
    · split at h
      · injection h with h
        subst h
        refine Or.inr (Or.inr ?_)
        exact head_append_some _ _ _ (head_append_some _ _ _ (head_append_some _ _ _ rfl))
      · split at h
        · injection h with h
          subst h
          exact Or.inr (Or.inl (head_append_some _ _ _ rfl))
        · cases h

theorem busyEnv_clockAdvances : ClockAdvances busyEnv := by
  intro t k
  refine ⟨max k t.toNat, le_max_left _ _, ?_⟩
  show t ≤ ((max k t.toNat : Nat) : Int) * 100000000
  have h1 : t ≤ (t.toNat : Int) := Int.self_le_toNat t
  have h2 : (t.toNat : Int) ≤ ((max k t.toNat : Nat) : Int) := by
    exact_mod_cast le_max_right k t.toNat
  have h3 : (0 : Int) ≤ ((max k t.toNat : Nat) : Int) := Int.natCast_nonneg _
  nlinarith

theorem busyEnv_polls (st1 : St) :
    ∃ r, (judgeClient.GetResult busyEnv "t1" st1).1 = .ok r ∧ r.Status.ID ≤ 2 :=
  ⟨queuedResult, rfl, by decide⟩

/-! ## The aggregator's runs and submissions -/

theorem loop_subRuns (env : Env) (s : Service) (fuel : Nat) (req : ExecuteRequest) :
    ∀ (cases : List TestCase) (acc : List TestResult) (ap : Bool) (st : St)
      (trs : List TestResult) (ap2 : Bool) (st2 : St),
      executeWithTests.loop env s fuel req cases acc ap st = some (trs, ap2, st2) →
      ∃ outs new, subRuns env s fuel req cases st = some (outs, st2) ∧
        outs.length = cases.length ∧ trs = acc ++ new ∧
        List.Forall₂ (fun t (p : TestCase × Except GoError ExecuteResponse) =>
          recorded t p.1 p.2) new (cases.zip outs) := by
  intro cases
  induction cases with
  | nil =>
    intro acc ap st trs ap2 st2 h
    rw [loop_nil] at h
    injection h with h
    injection h with h1 h2
    injection h2 with h2 h3
    subst h1 h3
    exact ⟨[], [], rfl, rfl, by simp, List.Forall₂.nil⟩
  | cons tc rest ih =>
    intro acc ap st trs ap2 st2 h
    rw [loop_cons] at h
    cases hr : s.executeSimple env fuel (testRequest req tc) (timeNow env st).1
        (timeNow env st).2 with
    | none => rw [hr] at h; cases h
    | some y =>
      rw [hr] at h
      rcases y with ⟨o, st1⟩
      cases o with
      | error err =>
        obtain ⟨outs, new, h1, h2, h3, h4⟩ := ih _ _ _ trs ap2 st2 h
        refine ⟨.error err :: outs, errorResult tc err.Error
          (Milliseconds (timeSince env (timeNow env st).1 st1).1) :: new, ?_, ?_, ?_, ?_⟩
        · rw [subRuns, hr]
          simp only [h1]
        · simp [h2]
        · rw [h3]; simp
        · exact List.Forall₂.cons ⟨rfl, rfl, rfl, rfl⟩ h4
      | ok result =>
        obtain ⟨outs, new, h1, h2, h3, h4⟩ := ih _ _ _ trs ap2 st2 h
        refine ⟨.ok result :: outs, gradedResult tc result :: new, ?_, ?_, ?_, ?_⟩
        · rw [subRuns, hr]
          simp only [h1]
        · simp [h2]
        · rw [h3]; simp
        · exact List.Forall₂.cons rfl h4

/-- With a judge available and a supported language, `executeSimple` is one
`SubmitAndWait`, given the submission built from the request and the service's
timeout, followed by the wrapping of its error or the normalization of its
result. -/
theorem executeSimple_judge (env : Env) (s : Service) (fuel : Nat) (req : ExecuteRequest)
    (startTime : Int) (st : St) (c : Client) (languageID : Int)
    (hf : s.judge0Client.filter Client.IsAvailable = some c)
    (hL : LanguageID.lookup req.Language = some languageID) :
    s.executeSimple env fuel req startTime st =
      match c.SubmitAndWait env fuel
          { SourceCode := req.Code, LanguageID := languageID, Stdin := req.Stdin,
            CPUTimeLimit := 5, MemoryLimit := s.memoryLimit } s.timeout st with
      | none => none
      | some (.error err, st1) => some (.error (.wrapf "judge0 execution: " err), st1)
      | some (.ok r, st1) =>
        some (.ok (normalize r (Milliseconds (timeSince env startTime st1).1)),
          (timeSince env startTime st1).2) := by
  unfold Service.executeSimple executeSimple.raw
  simp only [hL, hf]
  cases hsw : c.SubmitAndWait env fuel
      { SourceCode := req.Code, LanguageID := languageID, Stdin := req.Stdin,
        CPUTimeLimit := 5, MemoryLimit := s.memoryLimit } s.timeout st with
  | none => rfl
  | some y =>
    rcases y with ⟨o, st1⟩
    cases o with
    | error err => rfl
    | ok r =>
      simp only []
      rw [← normalize_eq]

theorem filterMap_submission_polls (token : String) (earlier : List SubmissionResult) :
    (earlier.map (fun p => Call.GetResult token (.ok p))).filterMap Call.submission = [] := by
  induction earlier with
  | nil => rfl
  | cons p ps ih => simp [Call.submission]

/-- With a judge available and a supported language, a run of `executeSimple`
logs exactly one submission: the one built from the request. -/
theorem executeSimple_submissions (env : Env) (s : Service) (fuel : Nat) (req : ExecuteRequest)
    (startTime : Int) (st : St) (c : Client) (languageID : Int)
    (out : Except GoError ExecuteResponse) (st2 : St)
    (hf : s.judge0Client.filter Client.IsAvailable = some c)
    (hL : LanguageID.lookup req.Language = some languageID)
    (h : s.executeSimple env fuel req startTime st = some (out, st2)) :
    ∃ new, st2.trace = st.trace ++ new ∧
      new.filterMap Call.submission = [submissionFor s req languageID] := by
  rw [executeSimple_judge env s fuel req startTime st c languageID hf hL] at h
  cases hsw : c.SubmitAndWait env fuel
      { SourceCode := req.Code, LanguageID := languageID, Stdin := req.Stdin,
        CPUTimeLimit := 5, MemoryLimit := s.memoryLimit } s.timeout st with
  | none => rw [hsw] at h; cases h
  | some y =>
    rcases y with ⟨o, st1⟩
    rw [hsw] at h
    have htr : st2.trace = st1.trace := by
      cases o with
      | error err =>
        simp only [] at h
        injection h with h
        injection h with h3 h4
        rw [← h4]
      | ok r =>
        simp only [timeSince, timeNow] at h
        injection h with h
        injection h with h3 h4
        rw [← h4]
    rcases SubmitAndWait_shape env c fuel _ s.timeout st st1 o hsw with
      ⟨err, -, -, h1⟩ | ⟨token, earlier, last, -, h1, -, hlast⟩
    · exact ⟨[Call.Submit _ (.error err)], by rw [htr, h1]; rfl, rfl⟩
    · refine ⟨_, by rw [htr, h1], ?_⟩
      rw [List.filterMap_cons]
      simp only [Call.submission]
      rw [List.filterMap_append, filterMap_submission_polls]
      rcases hlast with ⟨rfl, -⟩ | rfl
      · rfl
      · rfl

/-- With a judge available and a supported language, the test loop logs one
submission per test case, in order, each built from that case's request. -/
theorem loop_submissions (env : Env) (s : Service) (fuel : Nat) (req : ExecuteRequest)
    (c : Client) (languageID : Int)
    (hf : s.judge0Client.filter Client.IsAvailable = some c)
    (hL : LanguageID.lookup req.Language = some languageID) :
    ∀ (cases : List TestCase) (acc : List TestResult) (ap : Bool) (st : St)
      (trs : List TestResult) (ap2 : Bool) (st2 : St),
      executeWithTests.loop env s fuel req cases acc ap st = some (trs, ap2, st2) →
      ∃ new, st2.trace = st.trace ++ new ∧
        new.filterMap Call.submission =
          cases.map (fun tc => submissionFor s (testRequest req tc) languageID) := by
  intro cases
  induction cases with
  | nil =>
    intro acc ap st trs ap2 st2 h
    rw [loop_nil] at h
    injection h with h
    injection h with h1 h2
    injection h2 with h2 h3
    subst h3
    exact ⟨[], by simp, rfl⟩
  | cons tc rest ih =>
    intro acc ap st trs ap2 st2 h
    rw [loop_cons] at h
    cases hr : s.executeSimple env fuel (testRequest req tc) (timeNow env st).1
        (timeNow env st).2 with
    | none => rw [hr] at h; cases h
    | some y =>
      rw [hr] at h
      rcases y with ⟨o, st1⟩
      obtain ⟨new1, h1, h2⟩ := executeSimple_submissions env s fuel (testRequest req tc) _ _ c
        languageID o st1 hf hL hr
      have h1' : st1.trace = st.trace ++ new1 := h1
      cases o with
      | error err =>
        obtain ⟨new2, h3, h4⟩ := ih _ _ _ trs ap2 st2 h
        have h3' : st2.trace = st1.trace ++ new2 := h3
        refine ⟨new1 ++ new2, by rw [h3', h1', List.append_assoc], ?_⟩
        rw [List.filterMap_append, h2, h4]
        rfl
      | ok result =>
        obtain ⟨new2, h3, h4⟩ := ih _ _ _ trs ap2 st2 h
        refine ⟨new1 ++ new2, by rw [h3, h1', List.append_assoc], ?_⟩
        rw [List.filterMap_append, h2, h4]
        rfl

theorem executeSimple_no_results (env : Env) (s : Service) (fuel : Nat) (req : ExecuteRequest)
    (startTime : Int) (st : St) (resp : ExecuteResponse) (st2 : St)
    (h : s.executeSimple env fuel req startTime st = some (.ok resp, st2)) :
    resp.TestResults = [] := by
  unfold Service.executeSimple at h
  cases hl : LanguageID.lookup req.Language with
  | none => rw [hl] at h; cases h
  | some languageID =>
    rw [hl] at h
    simp only [] at h
    cases hr : executeSimple.raw env s fuel req
        { SourceCode := req.Code, LanguageID := languageID, Stdin := req.Stdin,
          CPUTimeLimit := 5, MemoryLimit := s.memoryLimit } st with
    | none => rw [hr] at h; cases h
    | some y =>
      rcases y with ⟨o, st1⟩
      rw [hr] at h
      cases o with
      | error err => cases h
      | ok r =>
        simp only [timeSince, timeNow] at h
        injection h with h
        injection h with h1 h2
        injection h1 with h1
        rw [← h1]

/-! ## The language table and the handler's language check -/

theorem LanguageID_lookup (l : String) (id : Int) :
    LanguageID.lookup l = some id ↔
      (l = "python" ∧ id = 71) ∨ (l = "javascript" ∧ id = 63) ∨ (l = "java" ∧ id = 62) ∨
        (l = "go" ∧ id = 60) ∨ (l = "cpp" ∧ id = 54) := by
  by_cases h1 : l = "python"
  · subst h1; simp [LanguageID, List.lookup]; exact eq_comm
  by_cases h2 : l = "javascript"
  · subst h2; simp [LanguageID, List.lookup]; exact eq_comm
  by_cases h3 : l = "java"
  · subst h3; simp [LanguageID, List.lookup]; exact eq_comm
  by_cases h4 : l = "go"
  · subst h4; simp [LanguageID, List.lookup]; exact eq_comm
  by_cases h5 : l = "cpp"
  · subst h5; simp [LanguageID, List.lookup]; exact eq_comm
  have e1 : (l == "python") = false := by simpa using h1
  have e2 : (l == "javascript") = false := by simpa using h2
  have e3 : (l == "java") = false := by simpa using h3
  have e4 : (l == "go") = false := by simpa using h4
  have e5 : (l == "cpp") = false := by simpa using h5
  simp [LanguageID, List.lookup, e1, e2, e3, e4, e5, h1, h2, h3, h4, h5]

theorem validLanguages_lookup (l : String) :
    (validLanguages.lookup l).getD false = true ↔
      (l = "python" ∨ l = "javascript" ∨ l = "java" ∨ l = "go" ∨ l = "cpp") := by
  by_cases h1 : l = "python"
  · subst h1; simp [validLanguages, List.lookup]
  by_cases h2 : l = "javascript"
  · subst h2; simp [validLanguages, List.lookup]
  by_cases h3 : l = "java"
  · subst h3; simp [validLanguages, List.lookup]
  by_cases h4 : l = "go"
  · subst h4; simp [validLanguages, List.lookup]
  by_cases h5 : l = "cpp"
  · subst h5; simp [validLanguages, List.lookup]
  have e1 : (l == "python") = false := by simpa using h1
  have e2 : (l == "javascript") = false := by simpa using h2
  have e3 : (l == "java") = false := by simpa using h3
  have e4 : (l == "go") = false := by simpa using h4
  have e5 : (l == "cpp") = false := by simpa using h5
  simp [validLanguages, List.lookup, e1, e2, e3, e4, e5, h1, h2, h3, h4, h5]

theorem LanguageID_keys (l : String) :
    l ∈ LanguageID.map Prod.fst ↔
      (l = "python" ∨ l = "javascript" ∨ l = "java" ∨ l = "go" ∨ l = "cpp") := by
  simp [LanguageID]

/-- The text of an error of `executeSimple` for a supported language starts
with `j` (`judge0 ...`) or `l` (`local execution: ...`). -/
theorem executeSimple_error_head (env : Env) (s : Service) (fuel : Nat) (req : ExecuteRequest)
    (startTime : Int) (st : St) (languageID : Int) (e : GoError) (st2 : St)
    (hL : LanguageID.lookup req.Language = some languageID)
    (h : s.executeSimple env fuel req startTime st = some (.error e, st2)) :
    e.Error.data.head? = some 'j' ∨ e.Error.data.head? = some 'l' := by
  unfold Service.executeSimple at h
  rw [hL] at h
  simp only [] at h
  unfold executeSimple.raw at h
  cases hf : s.judge0Client.filter Client.IsAvailable with
  | some c =>
    rw [hf] at h
    simp only [] at h
    cases hsw : c.SubmitAndWait env fuel
        { SourceCode := req.Code, LanguageID := languageID, Stdin := req.Stdin,
          CPUTimeLimit := 5, MemoryLimit := s.memoryLimit } s.timeout st with
    | none => rw [hsw] at h; cases h
    | some y =>
      rcases y with ⟨o, st1⟩
      rw [hsw] at h
      cases o with
      | error err =>
        simp only [] at h
        injection h with h
        injection h with h1 h2
        injection h1 with h1
        subst h1
        exact Or.inl (head_append_some _ _ _ rfl)
      | ok r => simp only [timeSince, timeNow] at h; cases h
  | none =>
    rw [hf] at h
    simp only [] at h
    by_cases hgo : req.Language = "go"
    · simp only [hgo, ne_eq, not_true_eq_false, if_false, Service.executeLocalGo,
        St.record, timeSince, timeNow] at h
      cases h
    · simp only [ne_eq, hgo, not_false_eq_true, if_true] at h
      injection h with h
      injection h with h1 h2
      injection h1 with h1
      subst h1
      exact Or.inl (head_append_some _ _ _ (head_append_some _ _ _ rfl))

/-! ## The local stand-in -/

theorem executeSimple_local (env : Env) (s : Service) (fuel : Nat) (req : ExecuteRequest)
    (startTime : Int) (st : St)
    (hf : s.judge0Client.filter Client.IsAvailable = none) (hgo : req.Language = "go") :
    s.executeSimple env fuel req startTime st =
      some (.ok { Output := localText, Error := "", Passed := true, TestResults := [],
                  ExecutionTimeMs := Milliseconds (clampInt64 (env.clock st.clockReads - startTime)),
                  ExitCode := 0 },
        { clockReads := st.clockReads + 1, exchanges := st.exchanges, selects := st.selects,
          trace := st.trace ++ [Call.executeLocalGo req.Code req.Stdin (.ok localResult)] }) := by
  have hL : LanguageID.lookup req.Language = some 60 := by rw [hgo]; exact lookup_go
  unfold Service.executeSimple executeSimple.raw
  simp only [hL, hf, hgo, ne_eq, not_true_eq_false, if_false]
  rfl

theorem loop_local (env : Env) (s : Service) (fuel : Nat) (req : ExecuteRequest)
    (hf : s.judge0Client.filter Client.IsAvailable = none) (hgo : req.Language = "go") :
    ∀ (cases : List TestCase) (acc : List TestResult) (ap : Bool) (st : St),
      ∃ new ap2 st2,
        executeWithTests.loop env s fuel req cases acc ap st = some (acc ++ new, ap2, st2) ∧
        new.map (fun t => (t.TestCase, t.ActualOutput, t.Passed, t.ErrorMessage)) =
          cases.map (fun tc => (tc, localText,
            decide (TrimSpace tc.ExpectedOutput = localText), "")) := by
  intro cases
  induction cases with
  | nil => intro acc ap st; exact ⟨[], ap, st, by rw [loop_nil]; simp, rfl⟩
  | cons tc rest ih =>
    intro acc ap st
    obtain ⟨r, stx, hrun, hout, herr⟩ : ∃ r stx,
        s.executeSimple env fuel (testRequest req tc) (timeNow env st).1 (timeNow env st).2 =
          some (.ok r, stx) ∧ r.Output = localText ∧ r.Error = "" :=
      ⟨_, _, executeSimple_local env s fuel (testRequest req tc) (timeNow env st).1
        (timeNow env st).2 hf hgo, rfl, rfl⟩
    rw [loop_cons, hrun]
    simp only []
    obtain ⟨new, ap2, st2, h1, h2⟩ := ih (acc ++ [gradedResult tc r])
      (ap && (gradedResult tc r).Passed) stx
    refine ⟨gradedResult tc r :: new, ap2, st2, ?_, ?_⟩
    · rw [h1]; simp
    · rw [List.map_cons, List.map_cons, h2]
      congr 1
      simp only [gradedResult, hout, herr, Prod.mk.injEq, true_and, and_true]
      have ht : TrimSpace localText = localText := by decide
      rw [ht]
      by_cases hp : TrimSpace tc.ExpectedOutput = localText
      · simp [hp]
      · simp [hp]
        exact fun h => hp h.symm

/-! ## Clock readings and elapsed times -/

theorem step_ret_clockReads (env : Env) (c : Client) (token : String) (deadline : Int)
    (st : St) (out : Except GoError SubmissionResult) (st3 : St)
    (h : SubmitAndWait.step env c token deadline st = .ret (out, st3)) :
    st3.clockReads = st.clockReads + 1 := by
  unfold SubmitAndWait.step at h
  split at h
  · split at h
    · injection h with h
      injection h with h1 h2
      subst h2
      rfl
    · split at h
      · injection h with h
        injection h with h1 h2
        subst h2
        rw [GetResult_clockReads]; rfl
      · split at h
        · injection h with h
          injection h with h1 h2
          subst h2
          rw [GetResult_clockReads]; rfl
        · cases h
  · injection h with h
    injection h with h1 h2
    subst h2
    rfl

theorem poll_clockReads (env : Env) (c : Client) (token : String) (deadline : Int) :
    ∀ (fuel : Nat) (st st2 : St) (out : Except GoError SubmissionResult),
      SubmitAndWait.poll env c token deadline fuel st = some (out, st2) →
      st.clockReads ≤ st2.clockReads := by
  intro fuel
  induction fuel with
  | zero => intro st st2 out h; rw [poll_zero] at h; cases h
  | succ n ih =>
    intro st st2 out h
    rw [poll_succ] at h
    cases hs : SubmitAndWait.step env c token deadline st with
    | ret o =>
      rw [hs] at h
      injection h with h
      subst h
      have := step_ret_clockReads env c token deadline st out st2 hs
      omega
    | again st3 =>
      rw [hs] at h
      obtain ⟨hc, -⟩ := step_again env c token deadline st st3 hs
      have := ih st3 st2 out h
      omega

theorem SubmitAndWait_clockReads (env : Env) (c : Client) (fuel : Nat)
    (req : SubmissionRequest) (timeout : Int) (st st2 : St)
    (out : Except GoError SubmissionResult)
    (h : c.SubmitAndWait env fuel req timeout st = some (out, st2)) :
    st.clockReads ≤ st2.clockReads := by
  rw [SubmitAndWait_eq] at h
  cases hs : (c.Submit env req st).1 with
  | error err =>
    rw [hs] at h
    injection h with h
    injection h with h1 h2
    rw [← h2, Submit_clockReads]
  | ok token =>
    rw [hs] at h
    have := poll_clockReads env c token _ fuel _ st2 out h
    simp only [timeNow] at this
    rw [Submit_clockReads] at this
    omega

theorem raw_clockReads (env : Env) (s : Service) (fuel : Nat) (req : ExecuteRequest)
    (sub : SubmissionRequest) (st st2 : St) (out : Except GoError SubmissionResult)
    (h : executeSimple.raw env s fuel req sub st = some (out, st2)) :
    st.clockReads ≤ st2.clockReads := by
  unfold executeSimple.raw at h
  cases hf : s.judge0Client.filter Client.IsAvailable with
  | some c =>
    rw [hf] at h
    simp only [] at h
    cases hsw : c.SubmitAndWait env fuel sub s.timeout st with
    | none => rw [hsw] at h; cases h
    | some y =>
      rcases y with ⟨o, st1⟩
      rw [hsw] at h
      have := SubmitAndWait_clockReads env c fuel sub s.timeout st st1 o hsw
      cases o with
      | error err =>
        simp only [] at h
        injection h with h
        injection h with h1 h2
        rw [← h2]; exact this
      | ok r =>
        simp only [] at h
        injection h with h
        injection h with h1 h2
        rw [← h2]; exact this
  | none =>
    rw [hf] at h
    simp only [] at h
    split at h
    · injection h with h
      injection h with h1 h2
      rw [← h2]
    · simp only [Service.executeLocalGo, St.record] at h
      injection h with h
      injection h with h1 h2
      rw [← h2]

/-- The readings of a run of `executeSimple`: it never gives readings back, and
a response carries the whole milliseconds between `startTime` and the last
reading. -/
theorem executeSimple_time (env : Env) (s : Service) (fuel : Nat) (req : ExecuteRequest)
    (startTime : Int) (st st2 : St) (out : Except GoError ExecuteResponse)
    (h : s.executeSimple env fuel req startTime st = some (out, st2)) :
    st.clockReads ≤ st2.clockReads ∧
    ∀ resp, out = .ok resp →
      st.clockReads + 1 ≤ st2.clockReads ∧
      resp.ExecutionTimeMs =
        Milliseconds (clampInt64 (env.clock (st2.clockReads - 1) - startTime)) := by
  unfold Service.executeSimple at h
  cases hl : LanguageID.lookup req.Language with
  | none =>
    rw [hl] at h
    injection h with h
    injection h with h1 h2
    subst h1 h2
    exact ⟨le_refl _, fun resp hr => by cases hr⟩
  | some languageID =>
    rw [hl] at h
    simp only [] at h
    cases hr : executeSimple.raw env s fuel req
        { SourceCode := req.Code, LanguageID := languageID, Stdin := req.Stdin,
          CPUTimeLimit := 5, MemoryLimit := s.memoryLimit } st with
    | none => rw [hr] at h; cases h
    | some y =>
      rcases y with ⟨o, st1⟩
      rw [hr] at h
      have hle := raw_clockReads env s fuel req _ st st1 o hr
      cases o with
      | error err =>
        simp only [] at h
        injection h with h
        injection h with h1 h2
        subst h1 h2
        exact ⟨hle, fun resp hr => by cases hr⟩
      | ok r =>
        simp only [timeSince, timeNow] at h
        injection h with h
        injection h with h1 h2
        subst h1 h2
        refine ⟨by simp only []; omega, ?_⟩
        intro resp hresp
        injection hresp with hresp
        subst hresp
        refine ⟨by simp only []; omega, ?_⟩
        simp

theorem Milliseconds_mul_le (d : Int) (h : 0 ≤ d) : Milliseconds d * 1000000 ≤ d := by
  unfold Milliseconds
  rw [Int.tdiv_eq_ediv h (by norm_num)]
  exact Int.ediv_mul_le d (by norm_num)

theorem clampInt64_of_fits (d : Int) (h0 : 0 ≤ d) (h1 : d < 2 ^ 63) : clampInt64 d = d := by
  unfold clampInt64
  have e : (2 : Int) ^ 63 = 9223372036854775808 := by norm_num
  rw [e] at h1 ⊢
  split
  · omega
  · split
    · omega
    · rfl

/-- The milliseconds recorded by the test loop: with a clock that does not go
back, and as long as the time between the readings `k0` and `k1` around the loop
fits a `Duration`, a million times their sum is at most the time between the
loop's first and next readings. -/
theorem loop_time (env : Env) (s : Service) (fuel : Nat) (req : ExecuteRequest)
    (hmono : Monotone env.clock) (k0 k1 : Nat)
    (hfit : env.clock k1 - env.clock k0 < 2 ^ 63) :
    ∀ (cases : List TestCase) (acc : List TestResult) (ap : Bool) (st : St)
      (trs : List TestResult) (ap2 : Bool) (st2 : St),
      executeWithTests.loop env s fuel req cases acc ap st = some (trs, ap2, st2) →
      k0 ≤ st.clockReads → st2.clockReads ≤ k1 →
      st.clockReads ≤ st2.clockReads ∧
      ∃ new, trs = acc ++ new ∧
        (new.map (fun t => t.ExecutionTimeMs)).sum * 1000000 ≤
          env.clock st2.clockReads - env.clock st.clockReads := by
  intro cases
  induction cases with
  | nil =>
    intro acc ap st trs ap2 st2 h _ _
    rw [loop_nil] at h
    injection h with h
    injection h with h1 h2
    injection h2 with h2 h3
    subst h1 h3
    exact ⟨le_refl _, [], by simp, by simp⟩
  | cons tc rest ih =>
    intro acc ap st trs ap2 st2 h hk0 hk1
    rw [loop_cons] at h
    cases hr : s.executeSimple env fuel (testRequest req tc) (timeNow env st).1
        (timeNow env st).2 with
    | none => rw [hr] at h; cases h
    | some y =>
      rcases y with ⟨o, st1⟩
      rw [hr] at h
      obtain ⟨hle1, hok⟩ := executeSimple_time env s fuel _ _ _ st1 o hr
      have hle1' : st.clockReads + 1 ≤ st1.clockReads := hle1
      cases o with
      | error err =>
        simp only [] at h
        obtain ⟨hle2, new, hnew, hsum⟩ := ih _ _ _ trs ap2 st2 h
          (by simp only [timeSince, timeNow]; omega) hk1
        have hle2' : st1.clockReads + 1 ≤ st2.clockReads := hle2
        refine ⟨by omega, errorResult tc err.Error
          (Milliseconds (timeSince env (timeNow env st).1 st1).1) :: new,
          by rw [hnew]; simp, ?_⟩
        have hsum' : (new.map (fun t => t.ExecutionTimeMs)).sum * 1000000 ≤
            env.clock st2.clockReads - env.clock (st1.clockReads + 1) := hsum
        have hd0 : 0 ≤ env.clock st1.clockReads - env.clock st.clockReads := by
          have := hmono (show st.clockReads ≤ st1.clockReads by omega)
          omega
        have hd1 : env.clock st1.clockReads - env.clock st.clockReads < 2 ^ 63 := by
          have h1 := hmono (show st1.clockReads ≤ k1 by omega)
          have h2 := hmono hk0
          omega
        have hms : (errorResult tc err.Error
            (Milliseconds (timeSince env (timeNow env st).1 st1).1)).ExecutionTimeMs =
            Milliseconds (env.clock st1.clockReads - env.clock st.clockReads) := by
          simp only [errorResult, timeSince, timeNow]
          rw [clampInt64_of_fits _ hd0 hd1]
        rw [List.map_cons, List.sum_cons, hms]
        have h3 := Milliseconds_mul_le _ hd0
        have h4 := hmono (show st1.clockReads ≤ st1.clockReads + 1 by omega)
        nlinarith
      | ok result =>
        simp only [] at h
        obtain ⟨hle2, new, hnew, hsum⟩ := ih _ _ _ trs ap2 st2 h (by omega) hk1
        obtain ⟨hge, hms0⟩ := hok result rfl
        have hge' : st.clockReads + 1 + 1 ≤ st1.clockReads := hge
        refine ⟨by omega, gradedResult tc result :: new, by rw [hnew]; simp, ?_⟩
        have hd0 : 0 ≤ env.clock (st1.clockReads - 1) - env.clock st.clockReads := by
          have := hmono (show st.clockReads ≤ st1.clockReads - 1 by omega)
          omega
        have hd1 : env.clock (st1.clockReads - 1) - env.clock st.clockReads < 2 ^ 63 := by
          have h1 := hmono (show st1.clockReads - 1 ≤ k1 by omega)
          have h2 := hmono hk0
          omega
        have hms : (gradedResult tc result).ExecutionTimeMs =
            Milliseconds (env.clock (st1.clockReads - 1) - env.clock st.clockReads) := by
          simp only [gradedResult]
          rw [hms0]
          simp only [timeNow]
          rw [clampInt64_of_fits _ hd0 hd1]
        rw [List.map_cons, List.sum_cons, hms]
        have h3 := Milliseconds_mul_le _ hd0
        have h4 := hmono (show st1.clockReads - 1 ≤ st1.clockReads by omega)
        nlinarith

/-! ## The outcome of a run, read off its log -/

theorem poll_by_trace (env : Env) (c : Client) (token : String) (deadline : Int)
    (hctx : ∀ k, env.select k = .tick) :
    ∀ (fuel : Nat) (st st2 : St) (o : Except GoError SubmissionResult) (last : Option Call),
      rawFromLast last = .error (.errorf "timeout waiting for result") →
      SubmitAndWait.poll env c token deadline fuel st = some (o, st2) →
      ∃ new, st2.trace = st.trace ++ new ∧ o = rawFromLast (new.getLast?.or last) := by
  intro fuel
  induction fuel with
  | zero => intro st st2 o last _ h; rw [poll_zero] at h; cases h
  | succ n ih =>
    intro st st2 o last hlast h
    rw [poll_succ] at h
    by_cases hnow : env.clock st.clockReads < deadline
    · cases hres : (c.GetResult env token (selectNext env (timeNow env st).2).2).1 with
      | error err =>
        rw [step_tick_error env c token deadline st err hnow (hctx _) hres] at h
        injection h with h
        injection h with h1 h2
        subst h1 h2
        refine ⟨[Call.GetResult token (.error err)], ?_, rfl⟩
        rw [GetResult_trace, hres]; rfl
      | ok r =>
        rw [step_tick_ok env c token deadline st r hnow (hctx _) hres] at h
        by_cases h2 : 2 < r.Status.ID
        · simp only [h2, if_true] at h
          injection h with h
          injection h with h3 h4
          subst h3 h4
          refine ⟨[Call.GetResult token (.ok r)], ?_, ?_⟩
          · rw [GetResult_trace, hres]; rfl
          · simp [rawFromLast, h2]
        · simp only [h2, if_false] at h
          obtain ⟨new, h3, h4⟩ := ih _ st2 o (some (Call.GetResult token (.ok r)))
            (by simp [rawFromLast, h2]) h
          refine ⟨Call.GetResult token (.ok r) :: new, ?_, ?_⟩
          · rw [h3, GetResult_trace, hres]
            simp [selectNext, timeNow]
          · rw [h4]
            have : (Call.GetResult token (.ok r) :: new).getLast? =
                new.getLast?.or (some (Call.GetResult token (.ok r))) := by
              rw [← List.singleton_append, List.getLast?_append]
              rfl
            rw [this]
            cases new.getLast? <;> rfl
    · rw [step_timeout env c token deadline st (by omega)] at h
      injection h with h
      injection h with h1 h2
      subst h1 h2
      exact ⟨[], by simp [timeNow], by simpa using hlast.symm⟩

theorem SubmitAndWait_by_trace (env : Env) (c : Client) (fuel : Nat) (req : SubmissionRequest)
    (timeout : Int) (st st2 : St) (o : Except GoError SubmissionResult)
    (hctx : ∀ k, env.select k = .tick)
    (h : c.SubmitAndWait env fuel req timeout st = some (o, st2)) :
    ∃ new, st2.trace = st.trace ++ new ∧ o = rawFromLast new.getLast? := by
  rw [SubmitAndWait_eq] at h
  cases hs : (c.Submit env req st).1 with
  | error err =>
    rw [hs] at h
    injection h with h
    injection h with h1 h2
    subst h1 h2
    exact ⟨[Call.Submit req (.error err)], by rw [Submit_trace, hs], rfl⟩
  | ok token =>
    rw [hs] at h
    obtain ⟨new, h1, h2⟩ := poll_by_trace env c token _ hctx fuel _ st2 o
      (some (Call.Submit req (.ok token))) rfl h
    refine ⟨Call.Submit req (.ok token) :: new, ?_, ?_⟩
    · rw [h1]
      simp only [timeNow]
      rw [Submit_trace, hs]
      simp
    · rw [h2]
      have : (Call.Submit req (.ok token) :: new).getLast? =
          new.getLast?.or (some (Call.Submit req (.ok token))) := by
        rw [← List.singleton_append, List.getLast?_append]
        rfl
      rw [this]

theorem sameVerdict_normalize (r : SubmissionResult) (ms1 ms2 : Int) :
    sameVerdict (.ok (normalize r ms1)) (.ok (normalize r ms2)) :=
  ⟨rfl, rfl, rfl, rfl⟩

theorem rawFromLast_withoutUsage (last : Option Call) :
    rawFromLast (last.map Call.withoutUsage) =
      (rawFromLast last).map SubmissionResult.withoutUsage := by
  rcases last with _ | (⟨req, _ | _⟩ | ⟨token, _ | r⟩ | ⟨code, stdin, _ | _⟩) <;>
    simp only [Option.map, Call.withoutUsage, rawFromLast, Except.map]
  by_cases h : 2 < r.Status.ID
  · simp [SubmissionResult.withoutUsage, h]
  · simp [SubmissionResult.withoutUsage, h]

theorem sameVerdict_normalize_withoutUsage (r1 r2 : SubmissionResult) (ms1 ms2 : Int)
    (h : r1.withoutUsage = r2.withoutUsage) :
    sameVerdict (.ok (normalize r1 ms1)) (.ok (normalize r2 ms2)) := by
  rcases r1 with ⟨s1, o1, e1, c1, t1, m1, x1, g1⟩
  rcases r2 with ⟨s2, o2, e2, c2, t2, m2, x2, g2⟩
  simp only [SubmissionResult.withoutUsage, SubmissionResult.mk.injEq] at h
  obtain ⟨h1, h2, h3, h4, _, _, h5, _⟩ := h
  subst h1 h2 h3 h4 h5
  exact ⟨rfl, rfl, rfl, rfl⟩

/-- Two runs of `executeSimple` for the same service and request, with contexts
that are never done, that saw the same judge responses up to the reported time
and memory, agree in everything but the elapsed time. -/
theorem executeSimple_same_log (env1 env2 : Env) (s : Service) (fuel1 fuel2 : Nat)
    (req : ExecuteRequest) (start1 start2 : Int) (st1 st2 sa sb : St)
    (out1 out2 : Except GoError ExecuteResponse)
    (hctx1 : ∀ k, env1.select k = .tick) (hctx2 : ∀ k, env2.select k = .tick)
    (h1 : s.executeSimple env1 fuel1 req start1 st1 = some (out1, sa))
    (h2 : s.executeSimple env2 fuel2 req start2 st2 = some (out2, sb))
    (hlog : judgeResponses st1 sa = judgeResponses st2 sb) :
    sameVerdict out1 out2 := by
  cases hl : LanguageID.lookup req.Language with
  | none =>
    unfold Service.executeSimple at h1 h2
    rw [hl] at h1 h2
    injection h1 with h1
    injection h1 with h1 _
    injection h2 with h2
    injection h2 with h2 _
    subst h1 h2
    rfl
  | some languageID =>
    cases hf : s.judge0Client.filter Client.IsAvailable with
    | none =>
      by_cases hgo : req.Language = "go"
      · rw [executeSimple_local env1 s fuel1 req start1 st1 hf hgo] at h1
        rw [executeSimple_local env2 s fuel2 req start2 st2 hf hgo] at h2
        injection h1 with h1
        injection h1 with h1 _
        injection h2 with h2
        injection h2 with h2 _
        subst h1 h2
        exact ⟨rfl, rfl, rfl, rfl⟩
      · unfold Service.executeSimple executeSimple.raw at h1 h2
        simp only [hl, hf, ne_eq, hgo, not_false_eq_true, if_true] at h1 h2
        injection h1 with h1
        injection h1 with h1 _
        injection h2 with h2
        injection h2 with h2 _
        subst h1 h2
        rfl
    | some c =>
      rw [executeSimple_judge env1 s fuel1 req start1 st1 c languageID hf hl] at h1
      rw [executeSimple_judge env2 s fuel2 req start2 st2 c languageID hf hl] at h2
      cases hsw1 : c.SubmitAndWait env1 fuel1
          { SourceCode := req.Code, LanguageID := languageID, Stdin := req.Stdin,
            CPUTimeLimit := 5, MemoryLimit := s.memoryLimit } s.timeout st1 with
      | none => rw [hsw1] at h1; cases h1
      | some y1 =>
        cases hsw2 : c.SubmitAndWait env2 fuel2
            { SourceCode := req.Code, LanguageID := languageID, Stdin := req.Stdin,
              CPUTimeLimit := 5, MemoryLimit := s.memoryLimit } s.timeout st2 with
        | none => rw [hsw2] at h2; cases h2
        | some y2 =>
          rcases y1 with ⟨o1, sa1⟩
          rcases y2 with ⟨o2, sb1⟩
          rw [hsw1] at h1
          rw [hsw2] at h2
          obtain ⟨new1, ht1, ho1⟩ :=
            SubmitAndWait_by_trace env1 c fuel1 _ s.timeout st1 sa1 o1 hctx1 hsw1
          obtain ⟨new2, ht2, ho2⟩ :=
            SubmitAndWait_by_trace env2 c fuel2 _ s.timeout st2 sb1 o2 hctx2 hsw2
          have hsa : sa.trace = sa1.trace := by
            cases o1 with
            | error err =>
              simp only [] at h1
              injection h1 with h1
              injection h1 with _ h4
              rw [← h4]
            | ok r =>
              simp only [timeSince, timeNow] at h1
              injection h1 with h1
              injection h1 with _ h4
              rw [← h4]
          have hsb : sb.trace = sb1.trace := by
            cases o2 with
            | error err =>
              simp only [] at h2
              injection h2 with h2
              injection h2 with _ h4
              rw [← h4]
            | ok r =>
              simp only [timeSince, timeNow] at h2
              injection h2 with h2
              injection h2 with _ h4
              rw [← h4]
          unfold judgeResponses at hlog
          rw [hsa, hsb, ht1, ht2, List.drop_left, List.drop_left] at hlog
          have ho : o1.map SubmissionResult.withoutUsage =
              o2.map SubmissionResult.withoutUsage := by
            rw [ho1, ho2, ← rawFromLast_withoutUsage, ← rawFromLast_withoutUsage,
              ← List.getLast?_map, ← List.getLast?_map, hlog]
          cases o1 with
          | error err1 =>
            cases o2 with
            | error err2 =>
              simp only [Except.map, Except.error.injEq] at ho
              subst ho
              simp only [] at h1 h2
              injection h1 with h1
              injection h1 with h1 _
              injection h2 with h2
              injection h2 with h2 _
              subst h1 h2
              rfl
            | ok r2 => simp [Except.map] at ho
          | ok r1 =>
            cases o2 with
            | error err2 => simp [Except.map] at ho
            | ok r2 =>
              simp only [Except.map, Except.ok.injEq] at ho
              simp only [] at h1 h2
              injection h1 with h1
              injection h1 with h1 _
              injection h2 with h2
              injection h2 with h2 _
              subst h1 h2
              exact sameVerdict_normalize_withoutUsage r1 r2 _ _ ho

/-! ## The course repository -/

theorem uuid_New_ne_Nil (rt : Runtime) (u : RunSt) : (uuid.New rt u).1 ≠ uuid.Nil := by
  show rt.random u.draws % 2 ^ 128 / 2 ^ 80 * 2 ^ 80 + 4 * 2 ^ 76 +
    rt.random u.draws % 2 ^ 128 / 2 ^ 64 % 2 ^ 12 * 2 ^ 64 + 2 * 2 ^ 62 +
    rt.random u.draws % 2 ^ 128 % 2 ^ 62 ≠ 0
  apply Nat.ne_of_gt
  positivity

theorem mapGet_mapSet_same (m : List (UUID × Course)) (k : UUID) (v : Course) :
    mapGet (mapSet m k v) k = some v := by
  induction m with
  | nil => simp [mapSet, mapGet]
  | cons e m ih =>
    rcases e with ⟨k1, v1⟩
    by_cases h : k1 = k
    · simp [mapSet, mapGet, h]
    · simp [mapSet, mapGet, h, ih]

theorem mapSet_of_absent (m : List (UUID × Course)) (k : UUID) (v : Course)
    (h : mapGet m k = none) : mapSet m k v = m ++ [(k, v)] := by
  induction m with
  | nil => rfl
  | cons e m ih =>
    rcases e with ⟨k1, v1⟩
    by_cases h1 : k1 = k
    · simp [mapGet, h1] at h
    · simp only [mapGet, h1, if_false] at h
      simp [mapSet, h1, ih h]

theorem Create_of_id (rt : Runtime) (r : InMemoryCourseRepository) (course : Course)
    (u : RunSt) (hid : course.ID ≠ uuid.Nil) (hslug : course.Slug = "") :
    r.Create rt course u =
      (.ok { course with Slug := simpleSlug course.Title },
       { storage := mapSet r.storage course.ID { course with Slug := simpleSlug course.Title } },
       u) := by
  simp [InMemoryCourseRepository.Create, hid, hslug]

theorem CreateCourse_plain (rt : Runtime) (title description : String)
    (r : InMemoryCourseRepository) (u : RunSt) :
    CreateCourse rt title description [] r u =
      (.ok { Course.zero with ID := (uuid.New rt u).1, Slug := simpleSlug title,
                              Title := title, Description := description },
       { storage := mapSet r.storage (uuid.New rt u).1
           { Course.zero with ID := (uuid.New rt u).1, Slug := simpleSlug title,
                              Title := title, Description := description } },
       (uuid.New rt u).2) := by
  unfold CreateCourse
  simp only [List.foldl_nil]
  rw [Create_of_id rt r _ _ (uuid_New_ne_Nil rt u) rfl]

theorem wrapInt_of_fits (x : Int) (h1 : -(2 ^ 63) ≤ x) (h2 : x < 2 ^ 63) : wrapInt x = x := by
  unfold wrapInt
  omega

theorem List_perm (rt : Runtime) (hrange : ∀ k m, (rt.rangeOrder k m).Perm m)
    (r : InMemoryCourseRepository) (u : RunSt) :
    ∃ l, (ListCourses rt r u).1 = .ok l ∧ l.Perm (r.storage.map Prod.snd) :=
  ⟨_, rfl, (hrange u.ranges r.storage).map Prod.snd⟩

theorem New_storage (rt : Runtime) (u : RunSt) :
    (NewInMemoryCourseRepository rt u).1.storage =
      if (uuid.New rt u).1 = (uuid.New rt (uuid.New rt u).2).1 then
        [((uuid.New rt (uuid.New rt u).2).1,
          seedConcurrency (uuid.New rt (uuid.New rt u).2).1)]
      else
        [((uuid.New rt u).1, seedBasics (uuid.New rt u).1),
         ((uuid.New rt (uuid.New rt u).2).1,
          seedConcurrency (uuid.New rt (uuid.New rt u).2).1)] := by
  simp only [NewInMemoryCourseRepository, mapSet, seedBasics, seedConcurrency]

/-- Off the wrap-around, `Search` does what its guards are written for: when
`(page - 1) * size` fits the machine integer, it returns the number of matches
as `Total` and the matches from `start` up to `min (start + size) Total` as
`Items` (none when `start` exceeds `Total`). -/
theorem Search_of_fits (rt : Runtime) (r : InMemoryCourseRepository) (f : ListFilter)
    (u : RunSt) (page size start : Int)
    (hrange : ∀ k m, (rt.rangeOrder k m).Perm m)
    (hsort : ∀ k less l, (rt.sortSlice k less l).Perm l)
    (hlen : (r.storage.length : Int) + 100 < 2 ^ 63)
    (hmax : f.Page < 2 ^ 63)
    (hpage : page = if f.Page < 1 then 1 else f.Page)
    (hsize : size = if f.PageSize ≤ 0 ∨ 100 < f.PageSize then 12 else f.PageSize)
    (hstart : start = (page - 1) * size)
    (hfit : start < 2 ^ 63) :
    ∃ items : List Course,
      items.Perm ((r.storage.map Prod.snd).filter (Search.keep rt f)) ∧
      r.Search rt f u =
        some (.ok { Items := (items.drop start.toNat).take
                      (min (start + size) items.length - start).toNat,
                    Total := items.length },
              { u with ranges := u.ranges + 1, sorts := u.sorts + 1 }) := by
  have hp1 : 1 ≤ page := by rw [hpage]; split <;> omega
  have hp2 : page < 2 ^ 63 := by rw [hpage]; split <;> omega
  have hs1 : 1 ≤ size ∧ size ≤ 100 := by rw [hsize]; split <;> omega
  have hs0 : 0 ≤ start := by
    rw [hstart]
    exact Int.mul_nonneg (by omega) (by omega)
  refine ⟨rt.sortSlice u.sorts (Search.less f.Sort_)
    (((rt.rangeOrder u.ranges r.storage).map Prod.snd).filter (Search.keep rt f)), ?_, ?_⟩
  · exact (hsort _ _ _).trans (((hrange _ _).map Prod.snd).filter _)
  · have hcap : (rt.sortSlice u.sorts (Search.less f.Sort_)
        (((rt.rangeOrder u.ranges r.storage).map Prod.snd).filter
          (Search.keep rt f))).length ≤ r.storage.length := by
      rw [(hsort _ _ _).length_eq]
      refine (List.length_filter_le _ _).trans ?_
      rw [List.length_map, (hrange _ _).length_eq]
    unfold InMemoryCourseRepository.Search
    simp only [← hpage, ← hsize]
    rw [wrapInt_of_fits (page - 1) (by omega) (by omega), ← hstart,
      wrapInt_of_fits start (by omega) hfit]
    generalize rt.sortSlice u.sorts (Search.less f.Sort_)
      (((rt.rangeOrder u.ranges r.storage).map Prod.snd).filter (Search.keep rt f)) = items
      at hcap ⊢
    by_cases hgt : (items.length : Int) < start
    · rw [if_pos hgt]
      have : items.drop start.toNat = [] := List.drop_eq_nil_of_le (by omega)
      rw [this]
      simp
    · rw [if_neg hgt, wrapInt_of_fits (start + size) (by omega) (by omega)]
      by_cases hend : (items.length : Int) < start + size
      · simp only [hend, if_true]
        rw [min_eq_right (by omega)]
        simp only [sliceExpr]
        rw [if_pos (by omega)]
      · simp only [hend, if_false]
        rw [min_eq_left (by omega)]
        simp only [sliceExpr]
        rw [if_pos (by omega)]

/-! ## The rate limiter -/

theorem Get_ok (env : Env) (s : InMemoryStore) (key : String) (st : St) :
    ∃ p, (s.Get env key st).1 = .ok p := by
  unfold InMemoryStore.Get
  cases s.data key with
  | none => exact ⟨_, rfl⟩
  | some info =>
    simp only [timeNow]
    split
    · exact ⟨_, rfl⟩
    · exact ⟨_, rfl⟩

theorem Get_clockReads (env : Env) (s : InMemoryStore) (key : String) (st : St) :
    st.clockReads + 1 ≤ (s.Get env key st).2.2.clockReads ∧
      (s.Get env key st).2.2.clockReads ≤ st.clockReads + 2 := by
  unfold InMemoryStore.Get
  cases s.data key with
  | none => simp [timeNow, InMemoryStore.new]
  | some info =>
    simp only [timeNow]
    split <;> simp [InMemoryStore.new]

/-- `Get` leaves the map, the limit and every counter handed out so far as
they are. -/
theorem Get_store (env : Env) (s : InMemoryStore) (key : String) (st : St) :
    (s.Get env key st).2.1.data = s.data ∧
      (s.Get env key st).2.1.limit = s.limit ∧
      s.allocated ≤ (s.Get env key st).2.1.allocated ∧
      ∀ q, q < s.allocated → (s.Get env key st).2.1.objects q = s.objects q := by
  unfold InMemoryStore.Get
  cases s.data key with
  | none =>
    refine ⟨rfl, rfl, by simp [timeNow, InMemoryStore.new], ?_⟩
    intro q hq
    simp [timeNow, InMemoryStore.new, Nat.ne_of_lt hq]
  | some info =>
    simp only [timeNow]
    split
    · refine ⟨rfl, rfl, by simp [InMemoryStore.new], ?_⟩
      intro q hq
      simp [InMemoryStore.new, Nat.ne_of_lt hq]
    · exact ⟨rfl, rfl, le_refl _, fun _ _ => rfl⟩

/-- A request handled alone while the key's counter has not reached its reset
time is counted on that counter, in place, and is handed on exactly when the
new count is within the limit; otherwise it is answered 429. -/
theorem Middleware_in_window (env : Env) (s : InMemoryStore) (limit window : Int)
    (key requestID : String) (st : St) (p : Nat)
    (hwf : s.WF) (hd : s.data key = some p)
    (hnow : incrementTime env s key st ≤ (s.objects p).ResetTime) :
    ∃ h s2 st2,
      Middleware env s limit window key requestID st = (h, s2, st2) ∧
      s2.data key = some p ∧
      s2.objects p =
        { s.objects p with Count := wrapInt ((s.objects p).Count + 1) } ∧
      s2.limit = s.limit ∧ s2.WF ∧
      (h.isNext = true ↔ wrapInt ((s.objects p).Count + 1) ≤ (s.objects p).Limit) ∧
      (h.isNext = false → h.status = some 429) ∧
      (s.Get env key st).2.2.clockReads + 1 ≤ st2.clockReads ∧
      st2.clockReads ≤ (s.Get env key st).2.2.clockReads + 2 := by
  obtain ⟨g, hg⟩ := Get_ok env s key st
  obtain ⟨hgd, hgl, hga, hgo⟩ := Get_store env s key st
  unfold incrementTime at hnow
  unfold Middleware
  rcases hG : s.Get env key st with ⟨o, s1, st1⟩
  rw [hG] at hg hgd hgl hga hgo hnow
  simp only at hg hgd hgl hga hgo hnow ⊢
  subst hg
  have hp : p < s.allocated := hwf key p hd
  have hd1 : s1.data key = some p := by rw [hgd]; exact hd
  have ho1 : s1.objects p = s.objects p := hgo p hp
  simp only [timeNow] at hnow
  rw [← ho1] at hnow
  simp only [InMemoryStore.Increment, timeNow, hd1, not_lt.mpr hnow, if_false,
    Middleware.respond, if_true]
  have hwf2 : InMemoryStore.WF
      { s1 with
        objects := fun q =>
          if q = p then { s1.objects p with Count := wrapInt ((s1.objects p).Count + 1) }
          else s1.objects q,
        data := fun k => if k = key then some p else s1.data k } := by
    intro k q hk
    simp only at hk
    by_cases hkk : k = key
    · simp only [hkk, if_true, Option.some.injEq] at hk
      subst hk
      exact Nat.lt_of_lt_of_le hp hga
    · simp only [hkk, if_false] at hk
      rw [hgd] at hk
      exact Nat.lt_of_lt_of_le (hwf k q hk) hga
  rw [← ho1]
  by_cases hc : (s1.objects p).Limit < wrapInt ((s1.objects p).Count + 1)
  · simp only [hc, if_true]
    refine ⟨_, _, _, rfl, by simp, by simp, hgl, hwf2, ?_, ?_, ?_, ?_⟩
    · simp [Handled.isNext, not_le.mpr hc]
    · intro _; rfl
    · simp
    · simp
  · simp only [hc, if_false]
    refine ⟨_, _, _, rfl, by simp, by simp, hgl, hwf2, ?_, ?_, ?_, ?_⟩
    · simp [Handled.isNext, not_lt.mp hc]
    · intro h; simp [Handled.isNext] at h
    · simp
    · simp

/-- A request handled alone when the key has no counter, or one whose reset
time lies before now, opens a new window: the map points to a new counter with
count 1, the store's limit, and a reset time one window from now. -/
theorem Middleware_opens (env : Env) (s : InMemoryStore) (limit window : Int)
    (key requestID : String) (st : St) (hwf : s.WF)
    (hopen : s.data key = none ∨
      ∃ p, s.data key = some p ∧ (s.objects p).ResetTime < incrementTime env s key st) :
    ∃ h s2 st2 q,
      Middleware env s limit window key requestID st = (h, s2, st2) ∧
      s2.data key = some q ∧
      s2.objects q =
        { Count := 1, Limit := s.limit, ResetTime := incrementTime env s key st + window } ∧
      s2.limit = s.limit ∧ s2.WF ∧
      (h.isNext = true ↔ 1 ≤ s.limit) ∧
      (h.isNext = false → h.status = some 429) ∧
      (s.Get env key st).2.2.clockReads + 1 ≤ st2.clockReads ∧
      st2.clockReads ≤ (s.Get env key st).2.2.clockReads + 2 := by
  obtain ⟨g, hg⟩ := Get_ok env s key st
  obtain ⟨hgd, hgl, hga, hgo⟩ := Get_store env s key st
  unfold incrementTime at hopen ⊢
  unfold Middleware
  rcases hG : s.Get env key st with ⟨o, s1, st1⟩
  rw [hG] at hg hgd hgl hga hgo hopen
  simp only at hg hgd hgl hga hgo hopen ⊢
  subst hg
  simp only [timeNow] at hopen ⊢
  have hinc : s1.Increment env key window st1 =
      (.ok s1.allocated,
       { (s1.new { Count := 1, Limit := s1.limit,
                   ResetTime := env.clock st1.clockReads + window }).2 with
         data := fun k => if k = key then some s1.allocated else s1.data k },
       { st1 with clockReads := st1.clockReads + 1 }) := by
    rcases hopen with hd | ⟨p, hd, hlt⟩
    · have hd1 : s1.data key = none := by rw [hgd]; exact hd
      simp only [InMemoryStore.Increment, timeNow, hd1, InMemoryStore.new]
    · have hd1 : s1.data key = some p := by rw [hgd]; exact hd
      have ho1 : s1.objects p = s.objects p := hgo p (hwf key p hd)
      rw [← ho1] at hlt
      simp only [InMemoryStore.Increment, timeNow, hd1, hlt, if_true, InMemoryStore.new]
  rw [hinc]
  have hwf2 : InMemoryStore.WF
      { (s1.new { Count := 1, Limit := s1.limit,
                  ResetTime := env.clock st1.clockReads + window }).2 with
        data := fun k => if k = key then some s1.allocated else s1.data k } := by
    intro k q hk
    simp only [InMemoryStore.new] at hk ⊢
    by_cases hkk : k = key
    · simp only [hkk, if_true, Option.some.injEq] at hk
      omega
    · simp only [hkk, if_false] at hk
      rw [hgd] at hk
      have := hwf k q hk
      omega
  simp only [Middleware.respond, InMemoryStore.new, if_true]
  rw [hgl]
  by_cases hc : s.limit < 1
  · simp only [hc, if_true]
    refine ⟨_, _, _, s1.allocated, rfl, by simp, by simp, rfl, ?_, ?_, ?_, ?_, ?_⟩
    · simpa [InMemoryStore.new, hgl] using hwf2
    · simp [Handled.isNext, not_le.mpr hc]
    · intro _; rfl
    · simp only [timeNow]; omega
    · simp only [timeNow]; omega
  · simp only [hc, if_false]
    refine ⟨_, _, _, s1.allocated, rfl, by simp, by simp, rfl, ?_, ?_, ?_, ?_, ?_⟩
    · simpa [InMemoryStore.new, hgl] using hwf2
    · simp [Handled.isNext, not_lt.mp hc]
    · intro h; simp [Handled.isNext] at h
    · exact Nat.le_refl _
    · show st1.clockReads + 1 ≤ st1.clockReads + 2
      omega

theorem NewInMemoryStore_WF (limit : Int) : (NewInMemoryStore limit).WF := by
  intro k p h
  simp [NewInMemoryStore] at h

theorem Middleware_clockReads (env : Env) (s : InMemoryStore) (limit window : Int)
    (key requestID : String) (st : St) (hwf : s.WF) :
    (s.Get env key st).2.2.clockReads + 1 ≤
        (Middleware env s limit window key requestID st).2.2.clockReads ∧
      (Middleware env s limit window key requestID st).2.1.WF := by
  by_cases hopen : s.data key = none ∨
      ∃ p, s.data key = some p ∧ (s.objects p).ResetTime < incrementTime env s key st
  · obtain ⟨h, s2, st2, q, heq, _, _, _, hwf2, _, _, h1, _⟩ :=
      Middleware_opens env s limit window key requestID st hwf hopen
    rw [heq]
    exact ⟨h1, hwf2⟩
  · cases hd : s.data key with
    | none => exact absurd (Or.inl hd) hopen
    | some p =>
      have hnow : incrementTime env s key st ≤ (s.objects p).ResetTime := by
        by_contra hlt
        exact hopen (Or.inr ⟨p, hd, not_le.mp hlt⟩)
      obtain ⟨h, s2, st2, heq, _, _, _, hwf2, _, _, h1, _⟩ :=
        Middleware_in_window env s limit window key requestID st p hwf hd hnow
      rw [heq]
      exact ⟨h1, hwf2⟩

theorem serve_succ (env : Env) (limit window : Int) (key requestID : String)
    (s : InMemoryStore) (st : St) (n : Nat) :
    serve env limit window key requestID s st (n + 1) =
      ((serve env limit window key requestID s st n).1 ++
         [(Middleware env (serve env limit window key requestID s st n).2.1 limit window key
            requestID (serve env limit window key requestID s st n).2.2).1],
       (Middleware env (serve env limit window key requestID s st n).2.1 limit window key
          requestID (serve env limit window key requestID s st n).2.2).2.1,
       (Middleware env (serve env limit window key requestID s st n).2.1 limit window key
          requestID (serve env limit window key requestID s st n).2.2).2.2) := by
  rfl

theorem serve_WF (env : Env) (limit window : Int) (key requestID : String)
    (s : InMemoryStore) (st : St) (hwf : s.WF) (n : Nat) :
    (serve env limit window key requestID s st n).2.1.WF := by
  induction n with
  | zero => exact hwf
  | succ n ih =>
    rw [serve_succ]
    exact (Middleware_clockReads env _ limit window key requestID _ ih).2

theorem serve_clockReads_succ (env : Env) (limit window : Int) (key requestID : String)
    (s : InMemoryStore) (st : St) (hwf : s.WF) (n : Nat) :
    (serve env limit window key requestID s st n).2.2.clockReads + 2 ≤
      (serve env limit window key requestID s st (n + 1)).2.2.clockReads := by
  rw [serve_succ]
  have h1 := (Middleware_clockReads env (serve env limit window key requestID s st n).2.1
    limit window key requestID (serve env limit window key requestID s st n).2.2
    (serve_WF env limit window key requestID s st hwf n)).1
  have h2 := (Get_clockReads env (serve env limit window key requestID s st n).2.1 key
    (serve env limit window key requestID s st n).2.2).1
  simp only
  omega

theorem serve_clockReads_mono (env : Env) (limit window : Int) (key requestID : String)
    (s : InMemoryStore) (st : St) (hwf : s.WF) (m n : Nat) (h : m ≤ n) :
    (serve env limit window key requestID s st m).2.2.clockReads ≤
      (serve env limit window key requestID s st n).2.2.clockReads := by
  induction n with
  | zero =>
    have : m = 0 := by omega
    subst this
    exact le_refl _
  | succ n ih =>
    by_cases hm : m = n + 1
    · subst hm
      exact le_refl _
    · have := serve_clockReads_succ env limit window key requestID s st hwf n
      have := ih (by omega)
      omega

/-- Requests handled one after the other, the window as a whole: when the
first of `n` requests opens a window and every clock reading taken by the later
ones is at or before its reset time, the counter after the `n`-th request has
count `n`, and that request is handed on exactly when `n` is within the store's
limit, and answered 429 otherwise. -/
theorem serve_window (env : Env) (limit window : Int) (key requestID : String)
    (s : InMemoryStore) (st : St) (hwf : s.WF)
    (hopen : s.data key = none ∨
      ∃ p, s.data key = some p ∧ (s.objects p).ResetTime < incrementTime env s key st)
    (n : Nat) (h1 : 1 ≤ n) (hn : (n : Int) < 2 ^ 63)
    (hwin : ∀ j, (serve env limit window key requestID s st 1).2.2.clockReads ≤ j →
      j < (serve env limit window key requestID s st n).2.2.clockReads →
      env.clock j ≤ incrementTime env s key st + window) :
    (∃ q, (serve env limit window key requestID s st n).2.1.data key = some q ∧
        (serve env limit window key requestID s st n).2.1.objects q =
          { Count := n, Limit := s.limit,
            ResetTime := incrementTime env s key st + window }) ∧
      (serve env limit window key requestID s st n).2.1.limit = s.limit ∧
      ∃ h, (serve env limit window key requestID s st n).1.getLast? = some h ∧
        (h.isNext = true ↔ (n : Int) ≤ s.limit) ∧
        (h.isNext = false → h.status = some 429) := by
  induction n, h1 using Nat.le_induction with
  | base =>
    obtain ⟨h, s2, st2, q, heq, hd, ho, hl, _, hnext, hst, _, _⟩ :=
      Middleware_opens env s limit window key requestID st hwf hopen
    have hs1 : serve env limit window key requestID s st 1 = ([h], s2, st2) := by
      rw [serve_succ]
      simp only [serve, heq, List.nil_append]
    rw [hs1]
    exact ⟨⟨q, hd, by simpa using ho⟩, hl, h, rfl, by simpa using hnext, hst⟩
  | succ n h1 ih =>
    have hmono := serve_clockReads_succ env limit window key requestID s st hwf n
    obtain ⟨⟨q, hd, ho⟩, hlim, _⟩ := ih (by omega) (fun j hj1 hj2 => hwin j hj1 (by omega))
    have hwfn := serve_WF env limit window key requestID s st hwf n
    have hg := Get_clockReads env (serve env limit window key requestID s st n).2.1 key
      (serve env limit window key requestID s st n).2.2
    have hm := (Middleware_clockReads env (serve env limit window key requestID s st n).2.1
      limit window key requestID (serve env limit window key requestID s st n).2.2 hwfn).1
    have hnow : incrementTime env (serve env limit window key requestID s st n).2.1 key
        (serve env limit window key requestID s st n).2.2 ≤
        ((serve env limit window key requestID s st n).2.1.objects q).ResetTime := by
      rw [ho]
      unfold incrementTime
      simp only [timeNow]
      apply hwin
      · have := serve_clockReads_mono env limit window key requestID s st hwf 1 n h1
        omega
      · rw [serve_succ]
        simp only
        omega
    obtain ⟨h, s2, st2, heq, hd2, ho2, hl2, _, hnext, hst, _, _⟩ :=
      Middleware_in_window env (serve env limit window key requestID s st n).2.1 limit window
        key requestID (serve env limit window key requestID s st n).2.2 q hwfn hd hnow
    have hw : wrapInt ((n : Int) + 1) = ((n + 1 : Nat) : Int) := by
      rw [wrapInt_of_fits _ (by omega) (by push_cast at hn; omega)]
      push_cast
      rfl
    rw [ho] at ho2 hnext
    simp only at ho2 hnext
    rw [hw] at ho2 hnext
    rw [serve_succ, heq]
    refine ⟨⟨q, hd2, ho2⟩, hl2.trans hlim, h, by simp, hnext, hst⟩

/-- One handler running with no other in between is `Middleware`: its three
steps in a row leave the store and state `Middleware` leaves, and the request
finished with what `Middleware` did. -/
theorem Pool_run_alone (env : Env) (limit window : Int) (key requestID : String)
    (s : InMemoryStore) (st : St) :
    (Pool.run env limit window
        { store := s, st := st,
          requests := [{ key := key, requestID := requestID, stage := .entered }] }
        [0, 0, 0]).requests =
      [{ key := key, requestID := requestID,
         stage := .done (Middleware env s limit window key requestID st).1 }] := by
  obtain ⟨g, hg⟩ := Get_ok env s key st
  unfold Pool.run Middleware
  rcases hG : s.Get env key st with ⟨o, s1, st1⟩
  rw [hG] at hg
  simp only at hg
  subst hg
  simp only [List.foldl_cons, List.foldl_nil, Pool.step, List.getElem?_cons_zero, hG,
    List.set_cons_zero]
  rcases hI : s1.Increment env key window st1 with ⟨o2, s2, st2⟩
  cases o2 with
  | error e => simp [Pool.step]
  | ok info => simp [Pool.step]

/-- The limiter of code execution is `Middleware` with a window of one hour on
a store whose limit is the configured `RateLimitExecute`. -/
theorem codeExecRateLimiter_eq (env : Env) (cfg : Config) (s : InMemoryStore)
    (key requestID : String) (st : St) :
    codeExecRateLimiter env cfg s key requestID st =
        Middleware env s cfg.RateLimitExecute timeHour key requestID st ∧
      (codeExecRateLimiter.store cfg).limit = cfg.RateLimitExecute ∧
      (∀ k, (codeExecRateLimiter.store cfg).data k = none) ∧
      timeHour = 60 * 60 * 1000000000 :=
  ⟨rfl, rfl, fun _ => rfl, by decide⟩

/-! ## Claims -/

/-- C1: a request whose language is not a key of the `LanguageID` table makes
`executeSimple` return no response and the error `unsupported language: ` followed
by the language; the state is left exactly as it was, so no `Submit`, no
`GetResult`, no HTTP exchange and no local run took place. This holds for every
service, with or without a judge. -/
theorem C1_unsupported_language (env : Env) (s : Service) (fuel : Nat) (req : ExecuteRequest)
    (startTime : Int) (st : St) (h : req.Language ∉ LanguageID.map Prod.fst) :
    s.executeSimple env fuel req startTime st =
      some (.error (.errorf ("unsupported language: " ++ req.Language)), st) := by
  have hl : LanguageID.lookup req.Language = none := by
    simp only [LanguageID, List.map, List.mem_cons, List.mem_singleton, not_or,
      List.not_mem_nil, or_false] at h
    obtain ⟨h1, h2, h3, h4, h5⟩ := h
    have e1 : (req.Language == "python") = false := by simpa using h1
    have e2 : (req.Language == "javascript") = false := by simpa using h2
    have e3 : (req.Language == "java") = false := by simpa using h3
    have e4 : (req.Language == "go") = false := by simpa using h4
    have e5 : (req.Language == "cpp") = false := by simpa using h5
    simp only [LanguageID, List.lookup, e1, e2, e3, e4, e5]
  unfold Service.executeSimple
  rw [hl]

theorem C1_unsupported_language_witness :
    ("ruby" ∉ LanguageID.map Prod.fst) ∧
    judgeService.executeSimple (stubEnv []) 5 { pythonRequest with Language := "ruby" } 0 st0 =
      some (.error (.errorf "unsupported language: ruby"), st0) :=
  ⟨by decide,
   C1_unsupported_language (stubEnv []) judgeService 5 { pythonRequest with Language := "ruby" }
     0 st0 (by decide)⟩

/-- C2: for a request without test cases whose run obtained a raw result `r`
(from the judge or from the local stand-in), `Execute` returns a response, and
its `Passed` is true exactly when `r.Status.ID` is 3 and `r.ExitCode` is 0; so
it is false for status 3 with a non-zero exit code and for any other status
with exit code 0. -/
theorem C2_passed_iff_accepted_and_exit_zero (env : Env) (s : Service) (fuel : Nat)
    (req : ExecuteRequest) (st : St) (languageID : Int) (r : SubmissionResult) (st1 : St)
    (hT : req.TestCases = [])
    (hL : LanguageID.lookup req.Language = some languageID)
    (hraw : executeSimple.raw env s fuel req (submissionFor s req languageID)
      (timeNow env st).2 = some (.ok r, st1)) :
    ∃ resp st2, s.Execute env fuel req st = some (.ok resp, st2) ∧
      (resp.Passed = true ↔ (r.Status.ID = 3 ∧ r.ExitCode = 0)) ∧
      (r.Status.ID = 3 → r.ExitCode ≠ 0 → resp.Passed = false) ∧
      (r.Status.ID ≠ 3 → r.ExitCode = 0 → resp.Passed = false) := by
  have hx := executeSimple_of_raw env s fuel req (timeNow env st).1 (timeNow env st).2
    languageID r st1 hL hraw
  rw [← Execute_simple env s fuel req st hT] at hx
  refine ⟨_, _, hx, ?_, ?_, ?_⟩
  · simp
  · intro h3 he; simp [h3, he]
  · intro h3 he; simp [h3, he]

theorem C2_passed_iff_accepted_and_exit_zero_witness :
    pythonRequest.TestCases = [] ∧
    LanguageID.lookup pythonRequest.Language = some 71 ∧
    executeSimple.raw crashEnv judgeService 5 pythonRequest
      (submissionFor judgeService pythonRequest 71) (timeNow crashEnv st0).2 =
      some (.ok crashResult,
        { clockReads := 4, exchanges := 3, selects := 2, trace := crashTrace }) ∧
    ∃ resp st2,
      judgeService.Execute crashEnv 5 pythonRequest st0 = some (.ok resp, st2) ∧
      (resp.Passed = true ↔ (crashResult.Status.ID = 3 ∧ crashResult.ExitCode = 0)) ∧
      (crashResult.Status.ID = 3 → crashResult.ExitCode ≠ 0 → resp.Passed = false) ∧
      (crashResult.Status.ID ≠ 3 → crashResult.ExitCode = 0 → resp.Passed = false) :=
  ⟨rfl, by decide, by decide,
   C2_passed_iff_accepted_and_exit_zero crashEnv judgeService 5 pythonRequest st0 71
     crashResult { clockReads := 4, exchanges := 3, selects := 2, trace := crashTrace }
     rfl (by decide) (by decide)⟩

/-- C3: the `Error` text of the response `executeSimple` builds from a raw
result `r` is `r.Stderr` when that is not empty; else `r.CompileOutput` when
that is not empty; else `r.Status.Description` when `r.Status.ID` is not 3;
else the empty string. -/
theorem C3_error_text_priority (env : Env) (s : Service) (fuel : Nat)
    (req : ExecuteRequest) (startTime : Int) (st : St) (languageID : Int)
    (r : SubmissionResult) (st1 : St)
    (hL : LanguageID.lookup req.Language = some languageID)
    (hraw : executeSimple.raw env s fuel req (submissionFor s req languageID) st =
      some (.ok r, st1)) :
    ∃ resp st2, s.executeSimple env fuel req startTime st = some (.ok resp, st2) ∧
      (r.Stderr ≠ "" → resp.Error = r.Stderr) ∧
      (r.Stderr = "" → r.CompileOutput ≠ "" → resp.Error = r.CompileOutput) ∧
      (r.Stderr = "" → r.CompileOutput = "" → r.Status.ID ≠ 3 →
        resp.Error = r.Status.Description) ∧
      (r.Stderr = "" → r.CompileOutput = "" → r.Status.ID = 3 → resp.Error = "") := by
  refine ⟨_, _, executeSimple_of_raw env s fuel req startTime st languageID r st1 hL hraw,
    ?_, ?_, ?_, ?_⟩
  · intro h; simp [h]
  · intro h1 h2; simp [h1, h2]
  · intro h1 h2 h3; simp [h1, h2, h3]
  · intro h1 h2 h3; simp [h1, h2, h3]

theorem C3_error_text_priority_witness :
    LanguageID.lookup pythonRequest.Language = some 71 ∧
    executeSimple.raw crashEnv judgeService 5 pythonRequest
      (submissionFor judgeService pythonRequest 71) st0 =
      some (.ok crashResult,
        { clockReads := 3, exchanges := 3, selects := 2, trace := crashTrace }) ∧
    ∃ resp st2,
      judgeService.executeSimple crashEnv 5 pythonRequest 0 st0 = some (.ok resp, st2) ∧
      (crashResult.Stderr ≠ "" → resp.Error = crashResult.Stderr) ∧
      (crashResult.Stderr = "" → crashResult.CompileOutput ≠ "" →
        resp.Error = crashResult.CompileOutput) ∧
      (crashResult.Stderr = "" → crashResult.CompileOutput = "" → crashResult.Status.ID ≠ 3 →
        resp.Error = crashResult.Status.Description) ∧
      (crashResult.Stderr = "" → crashResult.CompileOutput = "" → crashResult.Status.ID = 3 →
        resp.Error = "") :=
  ⟨by decide, by decide,
   C3_error_text_priority crashEnv judgeService 5 pythonRequest 0 st0 71 crashResult
     { clockReads := 3, exchanges := 3, selects := 2, trace := crashTrace }
     (by decide) (by decide)⟩

/-- C4: for a request with N >= 1 test cases (and a clock that advances),
`Execute` returns, once the fuel suffices, a response and no error; its
`TestResults` has exactly N entries and the i-th entry carries the i-th test
case of the request, whatever the judge answered and whichever runs failed. -/
theorem C4_one_result_per_test_case (env : Env) (s : Service) (req : ExecuteRequest) (st : St)
    (hclock : ClockAdvances env) (hN : 1 ≤ req.TestCases.length) :
    ∃ fuel0, ∀ fuel, fuel0 ≤ fuel → ∃ resp st2,
      s.Execute env fuel req st = some (.ok resp, st2) ∧
      resp.TestResults.length = req.TestCases.length ∧
      ∀ i : Nat, (resp.TestResults[i]?).map TestResult.TestCase = req.TestCases[i]? := by
  obtain ⟨fuel0, h⟩ := Execute_tests_total env s req st hclock hN
  refine ⟨fuel0, fun fuel hle => ?_⟩
  obtain ⟨trs, ap, st1, hloop, hex⟩ := h fuel hle
  obtain ⟨new, h1, h2, -⟩ := loop_spec env s req fuel _ _ _ _ trs ap st1 hloop
  refine ⟨_, _, hex, ?_, ?_⟩
  · show trs.length = req.TestCases.length
    rw [h1, List.nil_append, ← h2, List.length_map]
  · intro i
    show (trs[i]?).map TestResult.TestCase = req.TestCases[i]?
    rw [h1, List.nil_append, ← h2, List.getElem?_map]

theorem C4_one_result_per_test_case_witness :
    ClockAdvances flakyEnv ∧ 1 ≤ gradedRequest.TestCases.length ∧
    (∃ fuel0, ∀ fuel, fuel0 ≤ fuel → ∃ resp st2,
      judgeService.Execute flakyEnv fuel gradedRequest st0 = some (.ok resp, st2) ∧
      resp.TestResults.length = gradedRequest.TestCases.length ∧
      ∀ i : Nat, (resp.TestResults[i]?).map TestResult.TestCase = gradedRequest.TestCases[i]?) ∧
    (judgeService.Execute flakyEnv 5 gradedRequest st0).map
        (fun x => x.1.toOption.map (fun r => r.TestResults.map (fun t => t.ErrorMessage))) =
      some (some ["judge0 execution: judge0 api error: 500 - oops", ""]) :=
  ⟨stubEnv_clockAdvances _, by decide,
   C4_one_result_per_test_case flakyEnv judgeService gradedRequest st0
     (stubEnv_clockAdvances _) (by decide),
   by decide⟩

/-- C5: for a request with at least one test case (and a clock that advances),
the overall `Passed` of the response `Execute` returns is true exactly when
every entry of `TestResults` has `Passed` true. -/
theorem C5_passed_iff_all_passed (env : Env) (s : Service) (req : ExecuteRequest) (st : St)
    (hclock : ClockAdvances env) (hN : 1 ≤ req.TestCases.length) :
    ∃ fuel0, ∀ fuel, fuel0 ≤ fuel → ∃ resp st2,
      s.Execute env fuel req st = some (.ok resp, st2) ∧
      (resp.Passed = true ↔ ∀ t ∈ resp.TestResults, t.Passed = true) := by
  obtain ⟨fuel0, h⟩ := Execute_tests_total env s req st hclock hN
  refine ⟨fuel0, fun fuel hle => ?_⟩
  obtain ⟨trs, ap, st1, hloop, hex⟩ := h fuel hle
  obtain ⟨new, h1, -, h3⟩ := loop_spec env s req fuel _ _ _ _ trs ap st1 hloop
  refine ⟨_, _, hex, ?_⟩
  show ap = true ↔ ∀ t ∈ trs, t.Passed = true
  rw [h3, h1, List.nil_append, Bool.true_and, List.all_eq_true]

theorem C5_passed_iff_all_passed_witness :
    ClockAdvances mixedEnv ∧ 1 ≤ gradedRequest.TestCases.length ∧
    (∃ fuel0, ∀ fuel, fuel0 ≤ fuel → ∃ resp st2,
      judgeService.Execute mixedEnv fuel gradedRequest st0 = some (.ok resp, st2) ∧
      (resp.Passed = true ↔ ∀ t ∈ resp.TestResults, t.Passed = true)) ∧
    (judgeService.Execute mixedEnv 5 gradedRequest st0).map
        (fun x => x.1.toOption.map
          (fun r => (r.Passed, r.TestResults.map (fun t => (t.TestCase, t.Passed))))) =
      some (some (false, [(caseHi, true), (caseNo, false)])) :=
  ⟨stubEnv_clockAdvances _, by decide,
   C5_passed_iff_all_passed mixedEnv judgeService gradedRequest st0
     (stubEnv_clockAdvances _) (by decide),
   by decide⟩

/-- C6: when the run of a test case returned a response (no error), the
`TestResult` at that case's position has `Passed` equal to the comparison of
`TrimSpace` of the actual output with `TrimSpace` of the expected output; so
the case passes exactly when the two strings are the same text between white
space at either end, and any other difference makes it fail. -/
theorem C6_trimmed_comparison (env : Env) (s : Service) (req : ExecuteRequest) (st : St)
    (fuel : Nat) (pre : List TestCase) (tc : TestCase) (post : List TestCase)
    (trs : List TestResult) (ap : Bool) (sti : St) (result : ExecuteResponse) (st2 : St)
    (hclock : ClockAdvances env)
    (hsplit : req.TestCases = pre ++ tc :: post)
    (hpre : executeWithTests.loop env s fuel req pre [] true (timeNow env st).2 =
      some (trs, ap, sti))
    (hrun : s.executeSimple env fuel (testRequest req tc) (timeNow env sti).1
      (timeNow env sti).2 = some (.ok result, st2)) :
    ∃ fuel0, ∀ fuel2, fuel0 ≤ fuel2 → ∃ resp st3 t,
      s.Execute env fuel2 req st = some (.ok resp, st3) ∧
      resp.TestResults[pre.length]? = some t ∧
      t.TestCase = tc ∧ t.ActualOutput = result.Output ∧
      t.Passed = (TrimSpace result.Output == TrimSpace tc.ExpectedOutput) ∧
      (t.Passed = true ↔
        ∃ core la ra le re, allSpace la ∧ allSpace ra ∧ allSpace le ∧ allSpace re ∧
          result.Output.data = la ++ core ++ ra ∧ tc.ExpectedOutput.data = le ++ core ++ re) := by
  have hN : 1 ≤ req.TestCases.length := by rw [hsplit]; simp; omega
  obtain ⟨fuel0, h⟩ := Execute_tests_total env s req st hclock hN
  refine ⟨max fuel fuel0, fun fuel2 hle => ?_⟩
  obtain ⟨all, apAll, stEnd, hloop, hex⟩ := h fuel2 (le_trans (le_max_right _ _) hle)
  have hf : fuel ≤ fuel2 := le_trans (le_max_left _ _) hle
  have hpre2 := loop_mono env s req fuel _ _ _ _ _ hpre fuel2 hf
  have hrun2 := executeSimple_mono env s _ _ fuel _ _ hrun fuel2 hf
  rw [hsplit] at hloop
  obtain ⟨hlen, hgo⟩ := loop_case env s req fuel2 pre tc post trs ap sti _ st2 _ all apAll
    stEnd hpre2 hrun2 hloop
  obtain ⟨hentry, -, -⟩ := loop_entry env s req fuel2 post trs _ _ _ all apAll stEnd hgo
  refine ⟨_, _, gradedResult tc result, hex, ?_, rfl, rfl, rfl, ?_⟩
  · rw [← hlen]; exact hentry
  · rw [← TrimSpace_eq_iff]
    simp [gradedResult]

theorem C6_trimmed_comparison_witness :
    ClockAdvances mixedEnv ∧
    gradedRequest.TestCases = [] ++ caseHi :: [caseNo] ∧
    executeWithTests.loop mixedEnv judgeService 5 gradedRequest [] [] true
      (timeNow mixedEnv st0).2 = some ([], true, (timeNow mixedEnv st0).2) ∧
    judgeService.executeSimple mixedEnv 5 (testRequest gradedRequest caseHi)
      (timeNow mixedEnv (timeNow mixedEnv st0).2).1
      (timeNow mixedEnv (timeNow mixedEnv st0).2).2 = some (.ok hiResponse, hiState) ∧
    (∃ fuel0, ∀ fuel2, fuel0 ≤ fuel2 → ∃ resp st3 t,
      judgeService.Execute mixedEnv fuel2 gradedRequest st0 = some (.ok resp, st3) ∧
      resp.TestResults[([] : List TestCase).length]? = some t ∧
      t.TestCase = caseHi ∧ t.ActualOutput = hiResponse.Output ∧
      t.Passed = (TrimSpace hiResponse.Output == TrimSpace caseHi.ExpectedOutput) ∧
      (t.Passed = true ↔
        ∃ core la ra le re, allSpace la ∧ allSpace ra ∧ allSpace le ∧ allSpace re ∧
          hiResponse.Output.data = la ++ core ++ ra ∧
          caseHi.ExpectedOutput.data = le ++ core ++ re)) ∧
    (TrimSpace "hi " == TrimSpace "hi") = true ∧
    (TrimSpace "a b" == TrimSpace "a  b") = false :=
  ⟨stubEnv_clockAdvances _, rfl, rfl, by decide,
   C6_trimmed_comparison mixedEnv judgeService gradedRequest st0 5 [] caseHi [caseNo] [] true
     (timeNow mixedEnv st0).2 hiResponse hiState (stubEnv_clockAdvances _) rfl rfl (by decide),
   by decide, by decide⟩

/-- C7: when the run of a test case returns an error, `Execute` still returns a
response and no error: the entry at that case's position has `Passed` false, an
empty `ActualOutput` and the error's text as `ErrorMessage`, the overall
`Passed` is false, and the loop goes on from there over the remaining test
cases, so that every test case has its entry. -/
theorem C7_error_recorded_not_returned (env : Env) (s : Service) (req : ExecuteRequest)
    (st : St) (fuel : Nat) (pre : List TestCase) (tc : TestCase) (post : List TestCase)
    (trs : List TestResult) (ap : Bool) (sti : St) (err : GoError) (st2 : St)
    (hclock : ClockAdvances env)
    (hsplit : req.TestCases = pre ++ tc :: post)
    (hpre : executeWithTests.loop env s fuel req pre [] true (timeNow env st).2 =
      some (trs, ap, sti))
    (hrun : s.executeSimple env fuel (testRequest req tc) (timeNow env sti).1
      (timeNow env sti).2 = some (.error err, st2)) :
    ∃ fuel0, ∀ fuel2, fuel0 ≤ fuel2 → ∃ resp st3 t stEnd,
      s.Execute env fuel2 req st = some (.ok resp, st3) ∧
      resp.TestResults[pre.length]? = some t ∧
      t.TestCase = tc ∧ t.Passed = false ∧ t.ActualOutput = "" ∧ t.ErrorMessage = err.Error ∧
      resp.Passed = false ∧
      resp.TestResults.length = req.TestCases.length ∧
      executeWithTests.loop env s fuel2 req post (trs ++ [t]) false
        (timeSince env (timeNow env sti).1 st2).2 =
        some (resp.TestResults, resp.Passed, stEnd) := by
  have hN : 1 ≤ req.TestCases.length := by rw [hsplit]; simp; omega
  obtain ⟨fuel0, h⟩ := Execute_tests_total env s req st hclock hN
  refine ⟨max fuel fuel0, fun fuel2 hle => ?_⟩
  obtain ⟨all, apAll, stEnd, hloop, hex⟩ := h fuel2 (le_trans (le_max_right _ _) hle)
  have hf : fuel ≤ fuel2 := le_trans (le_max_left _ _) hle
  have hpre2 := loop_mono env s req fuel _ _ _ _ _ hpre fuel2 hf
  have hrun2 := executeSimple_mono env s _ _ fuel _ _ hrun fuel2 hf
  rw [hsplit] at hloop
  obtain ⟨hlen, hgo⟩ := loop_case env s req fuel2 pre tc post trs ap sti _ st2 _ all apAll
    stEnd hpre2 hrun2 hloop
  obtain ⟨hentry, hlength, hfalse⟩ :=
    loop_entry env s req fuel2 post trs _ _ _ all apAll stEnd hgo
  refine ⟨_, _, errorResult tc err.Error
    (Milliseconds (timeSince env (timeNow env sti).1 st2).1), stEnd, hex, ?_, rfl, rfl, rfl,
    rfl, hfalse rfl, ?_, ?_⟩
  · rw [← hlen]; exact hentry
  · show all.length = req.TestCases.length
    rw [hlength, hsplit, hlen]; simp; omega
  · show _ = some (all, apAll, stEnd)
    exact hgo

theorem C7_error_recorded_not_returned_witness :
    ClockAdvances flakyEnv ∧
    gradedRequest.TestCases = [] ++ caseHi :: [caseNo] ∧
    executeWithTests.loop flakyEnv judgeService 5 gradedRequest [] [] true
      (timeNow flakyEnv st0).2 = some ([], true, (timeNow flakyEnv st0).2) ∧
    judgeService.executeSimple flakyEnv 5 (testRequest gradedRequest caseHi)
      (timeNow flakyEnv (timeNow flakyEnv st0).2).1
      (timeNow flakyEnv (timeNow flakyEnv st0).2).2 = some (.error oopsError, oopsState) ∧
    (∃ fuel0, ∀ fuel2, fuel0 ≤ fuel2 → ∃ resp st3 t stEnd,
      judgeService.Execute flakyEnv fuel2 gradedRequest st0 = some (.ok resp, st3) ∧
      resp.TestResults[([] : List TestCase).length]? = some t ∧
      t.TestCase = caseHi ∧ t.Passed = false ∧ t.ActualOutput = "" ∧
      t.ErrorMessage = oopsError.Error ∧
      resp.Passed = false ∧
      resp.TestResults.length = gradedRequest.TestCases.length ∧
      executeWithTests.loop flakyEnv judgeService fuel2 gradedRequest [caseNo] ([] ++ [t]) false
        (timeSince flakyEnv (timeNow flakyEnv (timeNow flakyEnv st0).2).1 oopsState).2 =
        some (resp.TestResults, resp.Passed, stEnd)) ∧
    (judgeService.Execute flakyEnv 5 gradedRequest st0).map
        (fun x => x.1.toOption.map
          (fun r => (r.Passed, r.TestResults))) =
      some (some (false,
        [errorResult caseHi "judge0 execution: judge0 api error: 500 - oops" 100,
         { TestCase := caseNo, ActualOutput := "no", Passed := true, ErrorMessage := "",
           ExecutionTimeMs := 300 }])) :=
  ⟨stubEnv_clockAdvances _, rfl, rfl, by decide,
   C7_error_recorded_not_returned flakyEnv judgeService gradedRequest st0 5 [] caseHi [caseNo]
     [] true (timeNow flakyEnv st0).2 oopsError oopsState (stubEnv_clockAdvances _) rfl rfl
     (by decide),
   by decide⟩

/-- C8: for a supported language other than `go`, when the judge is unavailable
(the client is nil, or `IsAvailable` is false), `executeSimple` returns no
response and the judge-unavailable error; the state is left exactly as it was,
so neither the local stand-in nor the judge was called. -/
theorem C8_unavailable_judge_other_language (env : Env) (s : Service) (fuel : Nat)
    (req : ExecuteRequest) (startTime : Int) (st : St) (languageID : Int)
    (hL : LanguageID.lookup req.Language = some languageID)
    (hgo : req.Language ≠ "go")
    (hj : s.judge0Client = none ∨ ∃ c, s.judge0Client = some c ∧ c.IsAvailable = false) :
    s.executeSimple env fuel req startTime st =
      some (.error (.errorf ("judge0 not available and language " ++ req.Language ++
        " not supported locally. Please configure Judge0")), st) := by
  have hf := (filter_none_iff s).mpr hj
  unfold Service.executeSimple executeSimple.raw
  simp [hL, hf, hgo]

theorem C8_unavailable_judge_other_language_witness :
    LanguageID.lookup pythonRequest.Language = some 71 ∧
    pythonRequest.Language ≠ "go" ∧
    (bareService.judge0Client = none ∨
      ∃ c, bareService.judge0Client = some c ∧ c.IsAvailable = false) ∧
    bareService.executeSimple (stubEnv []) 5 pythonRequest 0 st0 =
      some (.error (.errorf ("judge0 not available and language python" ++
        " not supported locally. Please configure Judge0")), st0) :=
  ⟨by decide, by decide, Or.inr ⟨_, rfl, by decide⟩,
   C8_unavailable_judge_other_language (stubEnv []) bareService 5 pythonRequest 0 st0 71
     (by decide) (by decide) (Or.inr ⟨_, rfl, by decide⟩)⟩

/-- C9: the local stand-in is called exactly when no judge is available and the
language is `go`. In that case the response is `normalize` of the stand-in's raw
result; a raw result from the judge is turned into the response by the same
`normalize`; and when a judge is available the stand-in is not called, also for
`go`. -/
theorem C9_fallback_guard_and_same_normalization (env : Env) (s : Service) (fuel : Nat)
    (req : ExecuteRequest) (startTime : Int) (st : St) :
    ((s.judge0Client.filter Client.IsAvailable = none ∧ req.Language = "go") →
      ∃ r st1, s.executeLocalGo req.Code req.Stdin st = (.ok r, st1) ∧
        st1.trace = st.trace ++ [Call.executeLocalGo req.Code req.Stdin (.ok r)] ∧
        s.executeSimple env fuel req startTime st =
          some (.ok (normalize r (Milliseconds (timeSince env startTime st1).1)),
            (timeSince env startTime st1).2)) ∧
    (∀ c languageID r st1, s.judge0Client.filter Client.IsAvailable = some c →
      LanguageID.lookup req.Language = some languageID →
      c.SubmitAndWait env fuel (submissionFor s req languageID) s.timeout st =
        some (.ok r, st1) →
      s.executeSimple env fuel req startTime st =
        some (.ok (normalize r (Milliseconds (timeSince env startTime st1).1)),
          (timeSince env startTime st1).2)) ∧
    (∀ out st2, s.executeSimple env fuel req startTime st = some (out, st2) →
      ((∃ e ∈ st2.trace.drop st.trace.length, Call.isLocal e = true) ↔
        (s.judge0Client.filter Client.IsAvailable = none ∧ req.Language = "go"))) := by
  refine ⟨?_, ?_, ?_⟩
  · rintro ⟨hf, hgo⟩
    refine ⟨_, _, rfl, rfl, ?_⟩
    have hL : LanguageID.lookup req.Language = some 60 := by rw [hgo]; exact lookup_go
    rw [← normalize_eq]
    apply executeSimple_of_raw env s fuel req startTime st 60 _ _ hL
    unfold executeSimple.raw
    simp only [hf, hgo, ne_eq, not_true_eq_false, if_false]
    rfl
  · intro c languageID r st1 hf hL hsw
    rw [← normalize_eq]
    apply executeSimple_of_raw env s fuel req startTime st languageID r st1 hL
    unfold executeSimple.raw
    simp only [hf, hsw]
  · intro out st2 h
    obtain ⟨new, h1, h2⟩ := executeSimple_trace env s fuel req startTime st out st2 h
    rw [h1, List.drop_left]
    exact h2

theorem C9_fallback_guard_and_same_normalization_witness :
    (bareService.judge0Client.filter Client.IsAvailable = none ∧ goRequest.Language = "go") ∧
    (∃ r st1, bareService.executeLocalGo goRequest.Code goRequest.Stdin st0 = (.ok r, st1) ∧
      st1.trace = st0.trace ++ [Call.executeLocalGo goRequest.Code goRequest.Stdin (.ok r)] ∧
      bareService.executeSimple (stubEnv []) 0 goRequest 0 st0 =
        some (.ok (normalize r (Milliseconds (timeSince (stubEnv []) 0 st1).1)),
          (timeSince (stubEnv []) 0 st1).2)) ∧
    bareService.executeSimple (stubEnv []) 0 goRequest 0 st0 =
      some (.ok { Output := "Local execution not fully implemented", Error := "",
                  Passed := true, TestResults := [], ExecutionTimeMs := 0, ExitCode := 0 },
        { clockReads := 1, exchanges := 0, selects := 0,
          trace := [.executeLocalGo "package main" "" (.ok localResult)] }) :=
  ⟨⟨by decide, rfl⟩,
   (C9_fallback_guard_and_same_normalization (stubEnv []) bareService 0 goRequest 0 st0).1
     ⟨by decide, rfl⟩,
   by decide⟩

/-- C10: when `SubmitAndWait` returns a result, the log shows the submission,
then polls that all returned a status of at most 2, then a last poll whose
returned value is the result itself, unchanged, with a status above 2 (3, or
4 and above). -/
theorem C10_first_terminal_result_returned (env : Env) (c : Client) (fuel : Nat)
    (req : SubmissionRequest) (timeout : Int) (st st2 : St) (r : SubmissionResult)
    (h : c.SubmitAndWait env fuel req timeout st = some (.ok r, st2)) :
    ∃ (token : String) (earlier : List SubmissionResult),
      st2.trace = st.trace ++
        (Call.Submit req (.ok token) ::
          (earlier.map (fun p => Call.GetResult token (.ok p)) ++
            [Call.GetResult token (.ok r)])) ∧
      (∀ p ∈ earlier, p.Status.ID ≤ 2) ∧
      2 < r.Status.ID ∧ (r.Status.ID = 3 ∨ 4 ≤ r.Status.ID) := by
  rw [SubmitAndWait_eq] at h
  cases hs : (c.Submit env req st).1 with
  | error err => rw [hs] at h; cases h
  | ok token =>
    rw [hs] at h
    obtain ⟨earlier, h1, h2, h3⟩ := poll_ok_trace env c token _ fuel _ st2 r h
    refine ⟨token, earlier, ?_, h2, h3, by omega⟩
    rw [h1]
    simp only [timeNow]
    rw [Submit_trace, hs]
    simp

theorem C10_first_terminal_result_returned_witness :
    judgeClient.SubmitAndWait crashEnv 5 (submissionFor judgeService pythonRequest 71)
      10000000000 st0 =
      some (.ok crashResult,
        { clockReads := 3, exchanges := 3, selects := 2, trace := crashTrace }) ∧
    ∃ (token : String) (earlier : List SubmissionResult),
      crashTrace = st0.trace ++
        (Call.Submit (submissionFor judgeService pythonRequest 71) (.ok token) ::
          (earlier.map (fun p => Call.GetResult token (.ok p)) ++
            [Call.GetResult token (.ok crashResult)])) ∧
      (∀ p ∈ earlier, p.Status.ID ≤ 2) ∧
      2 < crashResult.Status.ID ∧ (crashResult.Status.ID = 3 ∨ 4 ≤ crashResult.Status.ID) :=
  ⟨by decide,
   C10_first_terminal_result_returned crashEnv judgeClient 5
     (submissionFor judgeService pythonRequest 71) 10000000000 st0
     { clockReads := 3, exchanges := 3, selects := 2, trace := crashTrace } crashResult
     (by decide)⟩

/-- C11 (amended): in an iteration of the poll loop whose poll returned a
result, the loop returns that result at once exactly when its status id is
above 2; for every status id of at most 2, which includes 1, 2, 0 and the
negative ids, it goes round again and polls once more. -/
theorem C11_terminal_iff_status_above_two (env : Env) (c : Client) (token : String)
    (deadline : Int) (fuel : Nat) (st : St) (result : SubmissionResult)
    (hnow : env.clock st.clockReads < deadline) (htick : env.select st.selects = .tick)
    (hres : (c.GetResult env token (selectNext env (timeNow env st).2).2).1 = .ok result) :
    (2 < result.Status.ID →
      SubmitAndWait.poll env c token deadline (fuel + 1) st =
        some (.ok result, (c.GetResult env token (selectNext env (timeNow env st).2).2).2)) ∧
    (result.Status.ID ≤ 2 →
      SubmitAndWait.poll env c token deadline (fuel + 1) st =
        SubmitAndWait.poll env c token deadline fuel
          (c.GetResult env token (selectNext env (timeNow env st).2).2).2) := by
  rw [poll_succ, step_tick_ok env c token deadline st result hnow htick hres]
  constructor
  · intro h; simp only [h, if_true]
  · intro h
    have : ¬ (2 : Int) < result.Status.ID := by omega
    simp only [this, if_false]

theorem C11_terminal_iff_status_above_two_witness :
    zeroEnv.clock polling.clockReads < 10000000000 ∧
    zeroEnv.select polling.selects = .tick ∧
    (judgeClient.GetResult zeroEnv "t1" (selectNext zeroEnv (timeNow zeroEnv polling).2).2).1 =
      .ok zeroResult ∧
    ((2 < zeroResult.Status.ID →
      SubmitAndWait.poll zeroEnv judgeClient "t1" 10000000000 (4 + 1) polling =
        some (.ok zeroResult,
          (judgeClient.GetResult zeroEnv "t1"
            (selectNext zeroEnv (timeNow zeroEnv polling).2).2).2)) ∧
     (zeroResult.Status.ID ≤ 2 →
      SubmitAndWait.poll zeroEnv judgeClient "t1" 10000000000 (4 + 1) polling =
        SubmitAndWait.poll zeroEnv judgeClient "t1" 10000000000 4
          (judgeClient.GetResult zeroEnv "t1"
            (selectNext zeroEnv (timeNow zeroEnv polling).2).2).2)) :=
  ⟨by decide, by decide, by decide,
   C11_terminal_iff_status_above_two zeroEnv judgeClient "t1" 10000000000 4 polling zeroResult
     (by decide) (by decide) (by decide)⟩

theorem C11_status_zero_keeps_polling_counterexample :
    zeroResult.Status.ID ≠ 1 ∧ zeroResult.Status.ID ≠ 2 ∧
    zeroEnv.clock polling.clockReads < 10000000000 ∧
    zeroEnv.select polling.selects = .tick ∧
    (judgeClient.GetResult zeroEnv "t1" (selectNext zeroEnv (timeNow zeroEnv polling).2).2).1 =
      .ok zeroResult ∧
    SubmitAndWait.poll zeroEnv judgeClient "t1" 10000000000 5 polling ≠
      some (.ok zeroResult,
        (judgeClient.GetResult zeroEnv "t1"
          (selectNext zeroEnv (timeNow zeroEnv polling).2).2).2) ∧
    judgeClient.SubmitAndWait zeroEnv 5 (submissionFor judgeService pythonRequest 71)
      10000000000 st0 =
      some (.ok (acceptedResult "done"),
        { clockReads := 3, exchanges := 3, selects := 2,
          trace := [.Submit (submissionFor judgeService pythonRequest 71) (.ok "t1"),
                    .GetResult "t1" (.ok zeroResult),
                    .GetResult "t1" (.ok (acceptedResult "done"))] }) := by
  decide

/-- C12: against a judge that accepts the submission and answers every poll
with a status of at most 2, with a context that is never done (and a clock
that advances), `SubmitAndWait` returns, once the fuel suffices, no result and
the error `timeout waiting for result`; the clock reading on which it returns
is at or after the reading taken after the submission plus the timeout; and
the log holds the `Submit` and the polls only, one HTTP exchange each, so
nothing else was sent to the judge. -/
theorem C12_timeout_not_before_deadline (env : Env) (c : Client) (req : SubmissionRequest)
    (timeout : Int) (st : St) (token : String)
    (hclock : ClockAdvances env)
    (hsub : (c.Submit env req st).1 = .ok token)
    (hpoll : ∀ st1, ∃ r, (c.GetResult env token st1).1 = .ok r ∧ r.Status.ID ≤ 2)
    (hctx : ∀ k, env.select k = .tick) :
    ∃ fuel0, ∀ fuel, fuel0 ≤ fuel → ∃ (st2 : St) (polls : List SubmissionResult),
      c.SubmitAndWait env fuel req timeout st =
        some (.error (.errorf "timeout waiting for result"), st2) ∧
      1 ≤ st2.clockReads ∧
      env.clock (c.Submit env req st).2.clockReads + timeout ≤ env.clock (st2.clockReads - 1) ∧
      st2.trace = st.trace ++
        (Call.Submit req (.ok token) :: polls.map (fun p => Call.GetResult token (.ok p))) ∧
      (∀ p ∈ polls, p.Status.ID ≤ 2) ∧
      st2.exchanges = st.exchanges + 1 + polls.length := by
  obtain ⟨fuel0, ⟨out, st2⟩, h0⟩ := SubmitAndWait_total env c req timeout hclock st
  refine ⟨fuel0, fun fuel hle => ?_⟩
  have h := SubmitAndWait_mono env c req timeout fuel0 st _ h0 fuel hle
  have h' := h
  rw [SubmitAndWait_eq, hsub] at h'
  obtain ⟨h1, h2, h3, polls, h4, h5, h6⟩ :=
    poll_busy env c token _ hpoll hctx fuel _ st2 out h'
  subst h1
  refine ⟨st2, polls, h, h2, h3, ?_, h5, ?_⟩
  · rw [h4]
    simp only [timeNow]
    rw [Submit_trace, hsub]
    simp
  · rw [h6]
    simp only [timeNow]
    rw [Submit_exchanges env c req st token hsub]

theorem C12_timeout_not_before_deadline_witness :
    ClockAdvances busyEnv ∧
    (judgeClient.Submit busyEnv (submissionFor judgeService pythonRequest 71) st0).1 =
      .ok "t1" ∧
    (∀ st1, ∃ r, (judgeClient.GetResult busyEnv "t1" st1).1 = .ok r ∧ r.Status.ID ≤ 2) ∧
    (∀ k, busyEnv.select k = .tick) ∧
    (∃ fuel0, ∀ fuel, fuel0 ≤ fuel → ∃ (st2 : St) (polls : List SubmissionResult),
      judgeClient.SubmitAndWait busyEnv fuel (submissionFor judgeService pythonRequest 71)
        250000000 st0 = some (.error (.errorf "timeout waiting for result"), st2) ∧
      1 ≤ st2.clockReads ∧
      busyEnv.clock
          (judgeClient.Submit busyEnv (submissionFor judgeService pythonRequest 71)
            st0).2.clockReads + 250000000 ≤ busyEnv.clock (st2.clockReads - 1) ∧
      st2.trace = st0.trace ++
        (Call.Submit (submissionFor judgeService pythonRequest 71) (.ok "t1") ::
          polls.map (fun p => Call.GetResult "t1" (.ok p))) ∧
      (∀ p ∈ polls, p.Status.ID ≤ 2) ∧
      st2.exchanges = st0.exchanges + 1 + polls.length) ∧
    judgeClient.SubmitAndWait busyEnv 10 (submissionFor judgeService pythonRequest 71)
      250000000 st0 =
      some (.error (.errorf "timeout waiting for result"),
        { clockReads := 4, exchanges := 3, selects := 2,
          trace := [.Submit (submissionFor judgeService pythonRequest 71) (.ok "t1"),
                    .GetResult "t1" (.ok queuedResult),
                    .GetResult "t1" (.ok queuedResult)] }) :=
  ⟨busyEnv_clockAdvances, by decide, busyEnv_polls, fun _ => rfl,
   C12_timeout_not_before_deadline busyEnv judgeClient
     (submissionFor judgeService pythonRequest 71) 250000000 st0 "t1"
     busyEnv_clockAdvances (by decide) busyEnv_polls (fun _ => rfl),
   by decide⟩

/-- C13: for a supported language and an available judge, when `SubmitAndWait`
fails with error `e`, `executeSimple` returns no response and the error that
wraps `e`: its text is `judge0 execution: ` followed by the text of `e`, and
unwrapping it gives `e`. The text of every error of a failed `Submit` or
`GetResult` differs from `timeout waiting for result`, and still differs after
the wrapping, so the timeout can be told from them. -/
theorem C13_judge_error_wrapped_timeout_distinct (env : Env) (s : Service) (fuel : Nat)
    (req : ExecuteRequest) (startTime : Int) (st : St) (c : Client) (languageID : Int)
    (e : GoError) (st1 : St)
    (hf : s.judge0Client.filter Client.IsAvailable = some c)
    (hL : LanguageID.lookup req.Language = some languageID)
    (hsw : c.SubmitAndWait env fuel (submissionFor s req languageID) s.timeout st =
      some (.error e, st1)) :
    s.executeSimple env fuel req startTime st =
      some (.error (.wrapf "judge0 execution: " e), st1) ∧
    (GoError.wrapf "judge0 execution: " e).Error = "judge0 execution: " ++ e.Error ∧
    (GoError.wrapf "judge0 execution: " e).Unwrap = some e ∧
    (∀ (env1 : Env) (c1 : Client) (st2 : St) (e1 : GoError),
      ((∃ sub, (c1.Submit env1 sub st2).1 = .error e1) ∨
        (∃ token, (c1.GetResult env1 token st2).1 = .error e1)) →
      e1.Error ≠ (GoError.errorf "timeout waiting for result").Error ∧
      (GoError.wrapf "judge0 execution: " e1).Error ≠
        (GoError.wrapf "judge0 execution: " (.errorf "timeout waiting for result")).Error) := by
  refine ⟨?_, rfl, rfl, ?_⟩
  · unfold Service.executeSimple executeSimple.raw
    unfold submissionFor at hsw
    simp only [hL, hf, hsw]
  · intro env1 c1 st2 e1 h
    have hhead : e1.Error.data.head? = some 'c' ∨ e1.Error.data.head? = some 'd' ∨
        e1.Error.data.head? = some 'j' := by
      rcases h with ⟨sub, h⟩ | ⟨token, h⟩
      · exact Submit_error_head env1 c1 sub st2 e1 h
      · exact GetResult_error_head env1 c1 token st2 e1 h
    have hne : e1.Error ≠ "timeout waiting for result" := by
      apply ne_of_head_ne
      have ht : ("timeout waiting for result" : String).data.head? = some 't' := rfl
      rw [ht]
      rcases hhead with h1 | h1 | h1 <;> rw [h1] <;> decide
    refine ⟨hne, ?_⟩
    intro hw
    exact hne (append_left_cancel "judge0 execution: " _ _ hw)

theorem C13_judge_error_wrapped_timeout_distinct_witness :
    quickService.judge0Client.filter Client.IsAvailable = some judgeClient ∧
    LanguageID.lookup pythonRequest.Language = some 71 ∧
    judgeClient.SubmitAndWait busyEnv 10 (submissionFor quickService pythonRequest 71)
      quickService.timeout st0 =
      some (.error (.errorf "timeout waiting for result"),
        { clockReads := 2, exchanges := 1, selects := 0,
          trace := [.Submit (submissionFor quickService pythonRequest 71) (.ok "t1")] }) ∧
    (quickService.executeSimple busyEnv 10 pythonRequest 0 st0 =
      some (.error (.wrapf "judge0 execution: " (.errorf "timeout waiting for result")),
        { clockReads := 2, exchanges := 1, selects := 0,
          trace := [.Submit (submissionFor quickService pythonRequest 71) (.ok "t1")] }) ∧
     (GoError.wrapf "judge0 execution: " (.errorf "timeout waiting for result")).Error =
       "judge0 execution: " ++ (GoError.errorf "timeout waiting for result").Error ∧
     (GoError.wrapf "judge0 execution: " (.errorf "timeout waiting for result")).Unwrap =
       some (.errorf "timeout waiting for result") ∧
     (∀ (env1 : Env) (c1 : Client) (st2 : St) (e1 : GoError),
       ((∃ sub, (c1.Submit env1 sub st2).1 = .error e1) ∨
         (∃ token, (c1.GetResult env1 token st2).1 = .error e1)) →
       e1.Error ≠ (GoError.errorf "timeout waiting for result").Error ∧
       (GoError.wrapf "judge0 execution: " e1).Error ≠
         (GoError.wrapf "judge0 execution: "
           (.errorf "timeout waiting for result")).Error)) :=
  ⟨by decide, by decide, by decide,
   C13_judge_error_wrapped_timeout_distinct busyEnv quickService 10 pythonRequest 0
     st0 judgeClient 71 (.errorf "timeout waiting for result")
     { clockReads := 2, exchanges := 1, selects := 0,
       trace := [.Submit (submissionFor quickService pythonRequest 71) (.ok "t1")] }
     (by decide) (by decide) (by decide)⟩

/-- C14: within one `SubmitAndWait` nothing is retried. If `Submit` fails, its
error is returned and the log gains that one `Submit` only. If a poll fails,
its error is returned by that very iteration. And whenever `SubmitAndWait`
returns, the log has gained exactly one `Submit`, followed by `GetResult` calls
only, among which a failed one can only be the last, its error being the one
returned. -/
theorem C14_nothing_retried (env : Env) (c : Client) (fuel : Nat) (req : SubmissionRequest)
    (timeout : Int) (st : St) :
    (∀ err, (c.Submit env req st).1 = .error err →
      c.SubmitAndWait env fuel req timeout st = some (.error err, (c.Submit env req st).2) ∧
      (c.Submit env req st).2.trace = st.trace ++ [Call.Submit req (.error err)]) ∧
    (∀ (token : String) (deadline : Int) (n : Nat) (st1 : St) (err : GoError),
      env.clock st1.clockReads < deadline → env.select st1.selects = .tick →
      (c.GetResult env token (selectNext env (timeNow env st1).2).2).1 = .error err →
      SubmitAndWait.poll env c token deadline (n + 1) st1 =
        some (.error err, (c.GetResult env token (selectNext env (timeNow env st1).2).2).2)) ∧
    (∀ out st2, c.SubmitAndWait env fuel req timeout st = some (out, st2) →
      ∃ sret gets, st2.trace = st.trace ++ Call.Submit req sret :: gets ∧
        (∀ e ∈ gets, ∃ tok ret, e = Call.GetResult tok ret) ∧
        (∀ a b tok err, gets = a ++ Call.GetResult tok (.error err) :: b →
          b = [] ∧ out = .error err)) := by
  refine ⟨?_, ?_, ?_⟩
  · intro err herr
    refine ⟨by rw [SubmitAndWait_eq, herr], by rw [Submit_trace, herr]⟩
  · intro token deadline n st1 err hnow htick hres
    rw [poll_succ, step_tick_error env c token deadline st1 err hnow htick hres]
  · intro out st2 h
    rcases SubmitAndWait_shape env c fuel req timeout st st2 out h with
      ⟨err, -, -, htr⟩ | ⟨token, earlier, last, -, htr, -, hlast⟩
    · refine ⟨.error err, [], htr, by simp, ?_⟩
      intro a b tok e hab
      cases a <;> cases hab
    · refine ⟨.ok token, _, htr, ?_, ?_⟩
      · intro e he
        rcases List.mem_append.mp he with he | he
        · obtain ⟨p, -, rfl⟩ := List.mem_map.mp he
          exact ⟨_, _, rfl⟩
        · rcases hlast with ⟨rfl, -⟩ | rfl
          · cases he
          · rw [List.mem_singleton] at he
            exact ⟨_, _, he⟩
      · intro a b tok e hab
        have hnotin : Call.GetResult tok (.error e) ∉
            earlier.map (fun p => Call.GetResult token (.ok p)) := by
          intro hmem
          obtain ⟨p, -, hp⟩ := List.mem_map.mp hmem
          cases hp
        rcases hlast with ⟨rfl, -⟩ | rfl
        · exfalso
          apply hnotin
          rw [List.append_nil] at hab
          rw [hab]
          simp
        · rcases List.eq_nil_or_concat b with rfl | ⟨b1, y, rfl⟩
          · have h2 : earlier.map (fun p => Call.GetResult token (.ok p)) = a ∧
                [Call.GetResult token out] = [Call.GetResult tok (.error e)] :=
              List.append_inj' hab rfl
            have h3 := h2.2
            simp only [List.cons.injEq, and_true] at h3
            injection h3 with h4 h5
            exact ⟨rfl, h5⟩
          · exfalso
            apply hnotin
            have hab2 : earlier.map (fun p => Call.GetResult token (.ok p)) ++
                [Call.GetResult token out] =
                (a ++ Call.GetResult tok (.error e) :: b1) ++ [y] := by
              rw [hab]; simp
            have h2 := (List.append_inj' hab2 rfl).1
            rw [h2]
            simp

theorem C14_nothing_retried_witness :
    (judgeClient.Submit flakyEnv (submissionFor judgeService pythonRequest 71) st0).1 =
      .error (.errorf "judge0 api error: 500 - oops") ∧
    judgeClient.SubmitAndWait flakyEnv 5 (submissionFor judgeService pythonRequest 71)
      10000000000 st0 =
      some (.error (.errorf "judge0 api error: 500 - oops"),
        (judgeClient.Submit flakyEnv (submissionFor judgeService pythonRequest 71) st0).2) ∧
    (judgeClient.Submit flakyEnv (submissionFor judgeService pythonRequest 71) st0).2.trace =
      st0.trace ++ [Call.Submit (submissionFor judgeService pythonRequest 71)
        (.error (.errorf "judge0 api error: 500 - oops"))] :=
  ⟨by decide,
   (C14_nothing_retried flakyEnv judgeClient 5 (submissionFor judgeService pythonRequest 71)
     10000000000 st0).1 (.errorf "judge0 api error: 500 - oops") (by decide)⟩

/-- C15: when the `select` of an iteration of the poll loop takes the
`ctx.Done()` case, that iteration returns no result and the context's error,
and the log and the number of HTTP exchanges are as before it: no further poll
is made. -/
theorem C15_cancel_returns_at_once (env : Env) (c : Client) (token : String) (deadline : Int)
    (fuel : Nat) (st : St) (err : GoError)
    (hnow : env.clock st.clockReads < deadline)
    (hdone : env.select st.selects = .done err) :
    ∃ st2, SubmitAndWait.poll env c token deadline (fuel + 1) st = some (.error err, st2) ∧
      st2.trace = st.trace ∧ st2.exchanges = st.exchanges := by
  refine ⟨(selectNext env (timeNow env st).2).2, ?_, rfl, rfl⟩
  rw [poll_succ, step_done env c token deadline st err hnow hdone]

theorem C15_cancel_returns_at_once_witness :
    cancelEnv.clock 2 < 10000000000 ∧
    cancelEnv.select 1 = .done (.errorf "context canceled") ∧
    (∃ st2, SubmitAndWait.poll cancelEnv judgeClient "t1" 10000000000 (4 + 1)
        { clockReads := 2, exchanges := 2, selects := 1,
          trace := [.Submit (submissionFor judgeService pythonRequest 71) (.ok "t1"),
                    .GetResult "t1" (.ok queuedResult)] } =
        some (.error (.errorf "context canceled"), st2) ∧
      st2.trace = [.Submit (submissionFor judgeService pythonRequest 71) (.ok "t1"),
                   .GetResult "t1" (.ok queuedResult)] ∧
      st2.exchanges = 2) ∧
    judgeClient.SubmitAndWait cancelEnv 5 (submissionFor judgeService pythonRequest 71)
      10000000000 st0 =
      some (.error (.errorf "context canceled"),
        { clockReads := 3, exchanges := 2, selects := 2,
          trace := [.Submit (submissionFor judgeService pythonRequest 71) (.ok "t1"),
                    .GetResult "t1" (.ok queuedResult)] }) :=
  ⟨by decide, by decide,
   C15_cancel_returns_at_once cancelEnv judgeClient "t1" 10000000000 4
     { clockReads := 2, exchanges := 2, selects := 1,
       trace := [.Submit (submissionFor judgeService pythonRequest 71) (.ok "t1"),
                 .GetResult "t1" (.ok queuedResult)] }
     (.errorf "context canceled") (by decide) (by decide),
   by decide⟩

/-- C16: when the request has no test cases, `Execute` is one `executeSimple`
on the request itself, whose outcome it returns as it is, and a response so
returned has no `TestResults`. When it has test cases (and the clock
advances), `Execute` returns, once the fuel suffices, a response and no error,
with empty `Output` and `Error`; the runs made are one `executeSimple` per test
case, in order (`subRuns`), and each entry of `TestResults` records the outcome
of the run of its test case. -/
theorem C16_one_run_or_one_per_case (env : Env) (s : Service) (req : ExecuteRequest) (st : St)
    (hclock : ClockAdvances env) :
    (req.TestCases = [] →
      (∀ fuel, s.Execute env fuel req st =
        s.executeSimple env fuel req (timeNow env st).1 (timeNow env st).2) ∧
      (∀ fuel resp st2, s.Execute env fuel req st = some (.ok resp, st2) →
        resp.TestResults = []) ∧
      (∃ fuel0 x, ∀ fuel, fuel0 ≤ fuel → s.Execute env fuel req st = some x)) ∧
    (1 ≤ req.TestCases.length →
      ∃ fuel0, ∀ fuel, fuel0 ≤ fuel → ∃ resp st2 outs stEnd,
        s.Execute env fuel req st = some (.ok resp, st2) ∧
        resp.Output = "" ∧ resp.Error = "" ∧
        subRuns env s fuel req req.TestCases (timeNow env st).2 = some (outs, stEnd) ∧
        outs.length = req.TestCases.length ∧
        List.Forall₂ (fun t (p : TestCase × Except GoError ExecuteResponse) =>
          recorded t p.1 p.2) resp.TestResults (req.TestCases.zip outs)) := by
  constructor
  · intro hT
    refine ⟨fun fuel => Execute_simple env s fuel req st hT, ?_, ?_⟩
    · intro fuel resp st2 h
      rw [Execute_simple env s fuel req st hT] at h
      exact executeSimple_no_results env s fuel req _ _ resp st2 h
    · obtain ⟨fuel0, x, hx⟩ := executeSimple_total env s req (timeNow env st).1 hclock
        (timeNow env st).2
      refine ⟨fuel0, x, fun fuel hle => ?_⟩
      rw [Execute_simple env s fuel req st hT]
      exact executeSimple_mono env s req _ fuel0 _ x hx fuel hle
  · intro hN
    obtain ⟨fuel0, h⟩ := Execute_tests_total env s req st hclock hN
    refine ⟨fuel0, fun fuel hle => ?_⟩
    obtain ⟨trs, ap, st1, hloop, hex⟩ := h fuel hle
    obtain ⟨outs, new, h1, h2, h3, h4⟩ :=
      loop_subRuns env s fuel req _ _ _ _ trs ap st1 hloop
    rw [List.nil_append] at h3
    subst h3
    exact ⟨_, _, outs, st1, hex, rfl, rfl, h1, h2, h4⟩

theorem C16_one_run_or_one_per_case_witness :
    ClockAdvances mixedEnv ∧ 1 ≤ gradedRequest.TestCases.length ∧
    (∃ fuel0, ∀ fuel, fuel0 ≤ fuel → ∃ resp st2 outs stEnd,
      judgeService.Execute mixedEnv fuel gradedRequest st0 = some (.ok resp, st2) ∧
      resp.Output = "" ∧ resp.Error = "" ∧
      subRuns mixedEnv judgeService fuel gradedRequest gradedRequest.TestCases
        (timeNow mixedEnv st0).2 = some (outs, stEnd) ∧
      outs.length = gradedRequest.TestCases.length ∧
      List.Forall₂ (fun t (p : TestCase × Except GoError ExecuteResponse) =>
        recorded t p.1 p.2) resp.TestResults (gradedRequest.TestCases.zip outs)) ∧
    (subRuns mixedEnv judgeService 5 gradedRequest gradedRequest.TestCases
        (timeNow mixedEnv st0).2).map (fun x => x.1) =
      some [.ok hiResponse,
            .ok { Output := "yo", Error := "", Passed := true, TestResults := [],
                  ExecutionTimeMs := 300, ExitCode := 0 }] :=
  ⟨stubEnv_clockAdvances _, by decide,
   (C16_one_run_or_one_per_case mixedEnv judgeService gradedRequest st0
     (stubEnv_clockAdvances _)).2 (by decide),
   by decide⟩

/-- C17: for a request with N >= 1 test cases, a supported language and an
available judge (and a clock that advances), `Execute` returns, once the fuel
suffices, and the submissions it logged are exactly N, in the order of the
test cases, the i-th with the request's code, the language's id and the i-th
test case's `Input` as stdin (the request's own `Stdin` is not used), whatever
the judge answered for the earlier ones. -/
theorem C17_one_submission_per_case_in_order (env : Env) (s : Service) (req : ExecuteRequest)
    (st : St) (c : Client) (languageID : Int)
    (hclock : ClockAdvances env)
    (hf : s.judge0Client.filter Client.IsAvailable = some c)
    (hL : LanguageID.lookup req.Language = some languageID)
    (hN : 1 ≤ req.TestCases.length) :
    ∃ fuel0, ∀ fuel, fuel0 ≤ fuel → ∃ resp st2 new,
      s.Execute env fuel req st = some (.ok resp, st2) ∧
      st2.trace = st.trace ++ new ∧
      new.filterMap Call.submission =
        req.TestCases.map (fun tc =>
          ({ SourceCode := req.Code, LanguageID := languageID, Stdin := tc.Input,
             CPUTimeLimit := 5, MemoryLimit := s.memoryLimit } : SubmissionRequest)) ∧
      (new.filterMap Call.submission).length = req.TestCases.length := by
  obtain ⟨fuel0, h⟩ := Execute_tests_total env s req st hclock hN
  refine ⟨fuel0, fun fuel hle => ?_⟩
  obtain ⟨trs, ap, st1, hloop, hex⟩ := h fuel hle
  obtain ⟨new, h1, h2⟩ :=
    loop_submissions env s fuel req c languageID hf hL _ _ _ _ trs ap st1 hloop
  refine ⟨_, _, new, hex, h1, h2, ?_⟩
  rw [h2, List.length_map]

theorem C17_one_submission_per_case_in_order_witness :
    ClockAdvances flakyEnv ∧
    judgeService.judge0Client.filter Client.IsAvailable = some judgeClient ∧
    LanguageID.lookup gradedRequest.Language = some 71 ∧
    1 ≤ gradedRequest.TestCases.length ∧
    (∃ fuel0, ∀ fuel, fuel0 ≤ fuel → ∃ resp st2 new,
      judgeService.Execute flakyEnv fuel gradedRequest st0 = some (.ok resp, st2) ∧
      st2.trace = st0.trace ++ new ∧
      new.filterMap Call.submission =
        gradedRequest.TestCases.map (fun tc =>
          ({ SourceCode := gradedRequest.Code, LanguageID := 71, Stdin := tc.Input,
             CPUTimeLimit := 5, MemoryLimit := judgeService.memoryLimit } :
            SubmissionRequest)) ∧
      (new.filterMap Call.submission).length = gradedRequest.TestCases.length) ∧
    (judgeService.Execute flakyEnv 5 gradedRequest st0).map
        (fun x => x.2.trace.filterMap Call.submission) =
      some [{ SourceCode := "print(input())", LanguageID := 71, Stdin := "hi",
              CPUTimeLimit := 5, MemoryLimit := 128000 },
            { SourceCode := "print(input())", LanguageID := 71, Stdin := "yo",
              CPUTimeLimit := 5, MemoryLimit := 128000 }] :=
  ⟨stubEnv_clockAdvances _, by decide, by decide, by decide,
   C17_one_submission_per_case_in_order flakyEnv judgeService gradedRequest st0 judgeClient 71
     (stubEnv_clockAdvances _) (by decide) (by decide) (by decide),
   by decide⟩

/-- C18: with a judge available and a supported language, every run of
`executeSimple` is one `SubmitAndWait` given a submission with the language's
id, `CPUTimeLimit` 5 and the service's memory limit, and given the service's
timeout; in the test loop this is so for every test case, from whatever state
and with whatever results so far, so the timeout of a case depends neither on
its position nor on the time already spent; and every submission `Execute`
logs has that language id, CPU limit and memory limit. -/
theorem C18_fixed_limits_and_full_timeout (env : Env) (s : Service) (fuel : Nat)
    (req : ExecuteRequest) (st : St) (c : Client) (languageID : Int)
    (hf : s.judge0Client.filter Client.IsAvailable = some c)
    (hL : LanguageID.lookup req.Language = some languageID) :
    (∀ (startTime : Int) (st1 : St),
      s.executeSimple env fuel req startTime st1 =
        match c.SubmitAndWait env fuel
            { SourceCode := req.Code, LanguageID := languageID, Stdin := req.Stdin,
              CPUTimeLimit := 5, MemoryLimit := s.memoryLimit } s.timeout st1 with
        | none => none
        | some (.error err, st2) => some (.error (.wrapf "judge0 execution: " err), st2)
        | some (.ok r, st2) =>
          some (.ok (normalize r (Milliseconds (timeSince env startTime st2).1)),
            (timeSince env startTime st2).2)) ∧
    (∀ (tc : TestCase) (rest : List TestCase) (acc : List TestResult) (ap : Bool) (st1 : St),
      executeWithTests.loop env s fuel req (tc :: rest) acc ap st1 =
        match c.SubmitAndWait env fuel
            { SourceCode := req.Code, LanguageID := languageID, Stdin := tc.Input,
              CPUTimeLimit := 5, MemoryLimit := s.memoryLimit } s.timeout
            (timeNow env st1).2 with
        | none => none
        | some (.error err, st2) =>
          executeWithTests.loop env s fuel req rest
            (acc ++ [errorResult tc ("judge0 execution: " ++ err.Error)
              (Milliseconds (timeSince env (timeNow env st1).1 st2).1)])
            false (timeSince env (timeNow env st1).1 st2).2
        | some (.ok r, st2) =>
          executeWithTests.loop env s fuel req rest
            (acc ++ [gradedResult tc
              (normalize r (Milliseconds (timeSince env (timeNow env st1).1 st2).1))])
            (ap && (gradedResult tc
              (normalize r (Milliseconds (timeSince env (timeNow env st1).1 st2).1))).Passed)
            (timeSince env (timeNow env st1).1 st2).2) ∧
    (∀ out st2 sub ret, s.Execute env fuel req st = some (out, st2) →
      Call.Submit sub ret ∈ st2.trace.drop st.trace.length →
      sub.LanguageID = languageID ∧ sub.CPUTimeLimit = 5 ∧
        sub.MemoryLimit = s.memoryLimit) := by
  refine ⟨?_, ?_, ?_⟩
  · intro startTime st1
    exact executeSimple_judge env s fuel req startTime st1 c languageID hf hL
  · intro tc rest acc ap st1
    rw [loop_cons, executeSimple_judge env s fuel (testRequest req tc) _ _ c languageID hf hL]
    cases hsw : c.SubmitAndWait env fuel
        { SourceCode := req.Code, LanguageID := languageID, Stdin := tc.Input,
          CPUTimeLimit := 5, MemoryLimit := s.memoryLimit } s.timeout (timeNow env st1).2 with
    | none => simp only [testRequest, hsw]
    | some y =>
      rcases y with ⟨o, st2⟩
      cases o with
      | error err => simp only [testRequest, hsw]; rfl
      | ok r => simp only [testRequest, hsw]
  · intro out st2 sub ret h hmem
    have key : ∃ new, st2.trace = st.trace ++ new ∧
        ∀ x ∈ new.filterMap Call.submission,
          x.LanguageID = languageID ∧ x.CPUTimeLimit = 5 ∧ x.MemoryLimit = s.memoryLimit := by
      by_cases hT : req.TestCases = []
      · rw [Execute_simple env s fuel req st hT] at h
        obtain ⟨new, h1, h2⟩ := executeSimple_submissions env s fuel req _ _ c languageID
          out st2 hf hL h
        refine ⟨new, h1, ?_⟩
        intro x hx
        rw [h2, List.mem_singleton] at hx
        subst hx
        exact ⟨rfl, rfl, rfl⟩
      · have hN : 1 ≤ req.TestCases.length := by
          cases hc : req.TestCases with
          | nil => exact absurd hc hT
          | cons a b => simp
        rw [Execute_tests env s fuel req st hN] at h
        cases hloop : executeWithTests.loop env s fuel req req.TestCases [] true
            (timeNow env st).2 with
        | none => rw [hloop] at h; cases h
        | some y =>
          rcases y with ⟨trs, ap, st1⟩
          rw [hloop] at h
          simp only [timeSince, timeNow] at h
          injection h with h
          injection h with h3 h4
          obtain ⟨new, h1, h2⟩ :=
            loop_submissions env s fuel req c languageID hf hL _ _ _ _ trs ap st1 hloop
          refine ⟨new, by rw [← h4]; exact h1, ?_⟩
          intro x hx
          rw [h2] at hx
          obtain ⟨tc, -, rfl⟩ := List.mem_map.mp hx
          exact ⟨rfl, rfl, rfl⟩
    obtain ⟨new, h1, h2⟩ := key
    rw [h1, List.drop_left] at hmem
    apply h2
    rw [List.mem_filterMap]
    exact ⟨_, hmem, rfl⟩

theorem C18_fixed_limits_and_full_timeout_witness :
    judgeService.judge0Client.filter Client.IsAvailable = some judgeClient ∧
    LanguageID.lookup gradedRequest.Language = some 71 ∧
    judgeService.Execute mixedEnv 5 gradedRequest st0 =
      some (.ok { Output := "", Error := "", Passed := false,
                  TestResults := [gradedResult caseHi hiResponse,
                    gradedResult caseNo
                      { Output := "yo", Error := "", Passed := true, TestResults := [],
                        ExecutionTimeMs := 300, ExitCode := 0 }],
                  ExecutionTimeMs := 900, ExitCode := 0 },
        { clockReads := 10, exchanges := 4, selects := 2,
          trace := [.Submit (submissionFor judgeService (testRequest gradedRequest caseHi) 71)
                      (.ok "t1"),
                    .GetResult "t1" (.ok (acceptedResult "hi \n")),
                    .Submit (submissionFor judgeService (testRequest gradedRequest caseNo) 71)
                      (.ok "t2"),
                    .GetResult "t2" (.ok (acceptedResult "yo"))] }) ∧
    Call.Submit (submissionFor judgeService (testRequest gradedRequest caseNo) 71) (.ok "t2") ∈
      [Call.Submit (submissionFor judgeService (testRequest gradedRequest caseHi) 71)
         (.ok "t1"),
       .GetResult "t1" (.ok (acceptedResult "hi \n")),
       .Submit (submissionFor judgeService (testRequest gradedRequest caseNo) 71) (.ok "t2"),
       .GetResult "t2" (.ok (acceptedResult "yo"))].drop st0.trace.length ∧
    ((submissionFor judgeService (testRequest gradedRequest caseNo) 71).LanguageID = 71 ∧
     (submissionFor judgeService (testRequest gradedRequest caseNo) 71).CPUTimeLimit = 5 ∧
     (submissionFor judgeService (testRequest gradedRequest caseNo) 71).MemoryLimit =
       judgeService.memoryLimit) :=
  ⟨by decide, by decide, by decide, by decide,
   (C18_fixed_limits_and_full_timeout mixedEnv judgeService 5 gradedRequest st0 judgeClient 71
     (by decide) (by decide)).2.2
     (.ok { Output := "", Error := "", Passed := false,
            TestResults := [gradedResult caseHi hiResponse,
              gradedResult caseNo
                { Output := "yo", Error := "", Passed := true, TestResults := [],
                  ExecutionTimeMs := 300, ExitCode := 0 }],
            ExecutionTimeMs := 900, ExitCode := 0 })
     { clockReads := 10, exchanges := 4, selects := 2,
       trace := [.Submit (submissionFor judgeService (testRequest gradedRequest caseHi) 71)
                   (.ok "t1"),
                 .GetResult "t1" (.ok (acceptedResult "hi \n")),
                 .Submit (submissionFor judgeService (testRequest gradedRequest caseNo) 71)
                   (.ok "t2"),
                 .GetResult "t2" (.ok (acceptedResult "yo"))] }
     (submissionFor judgeService (testRequest gradedRequest caseNo) 71) (.ok "t2")
     (by decide) (by decide)⟩

/-- C19: the `LanguageID` table has exactly the keys python, javascript, java,
go and cpp, mapped to 71, 63, 62, 60 and 54, and the handler's language check
accepts exactly the keys of the table. So for a request that passes the check
the handler calls the service, the language is in the table, and no
`executeSimple` for that language fails with the unsupported-language error;
and for a language outside the table the handler answers 400 with `Invalid
language`, and the service is not reached: the log and the number of HTTP
exchanges are unchanged. -/
theorem C19_handler_languages_are_table_keys (env : Env) (h : CodeHandler) (fuel : Nat)
    (requestID : String) (req : ExecuteRequest) (st : St) :
    (∀ (l : String) (id : Int), LanguageID.lookup l = some id ↔
      (l = "python" ∧ id = 71) ∨ (l = "javascript" ∧ id = 63) ∨ (l = "java" ∧ id = 62) ∨
        (l = "go" ∧ id = 60) ∨ (l = "cpp" ∧ id = 54)) ∧
    (∀ l : String, (validLanguages.lookup l).getD false = true ↔
      l ∈ LanguageID.map Prod.fst) ∧
    ((validLanguages.lookup req.Language).getD false = true →
      h.Execute env fuel requestID (.ok req) st =
        (match h.svc.Execute env fuel req st with
         | none => none
         | some (.error err, st1) =>
           some (InternalError env requestID "Failed to execute code" (some err) st1)
         | some (.ok resp, st1) => some (.response 200 resp, st1)) ∧
      (∃ id, LanguageID.lookup req.Language = some id) ∧
      ∀ (req1 : ExecuteRequest) (startTime : Int) (st1 : St) (e : GoError) (st2 : St),
        req1.Language = req.Language →
        h.svc.executeSimple env fuel req1 startTime st1 = some (.error e, st2) →
        e.Error ≠ "unsupported language: " ++ req1.Language) ∧
    (req.Language ∉ LanguageID.map Prod.fst →
      h.Execute env fuel requestID (.ok req) st =
        some (ValidationError env requestID "Invalid language"
          (some [("language", .text req.Language),
                 ("supported_languages",
                   .texts ["python", "javascript", "java", "go", "cpp"])]) st) ∧
      ∀ reply st2, h.Execute env fuel requestID (.ok req) st = some (reply, st2) →
        st2.trace = st.trace ∧ st2.exchanges = st.exchanges ∧
          ∃ err, reply = .apiError 400 err) := by
  refine ⟨LanguageID_lookup, ?_, ?_, ?_⟩
  · intro l
    rw [validLanguages_lookup, LanguageID_keys]
  · intro hv
    have hkeys := (validLanguages_lookup req.Language).mp hv
    have hid : ∃ id, LanguageID.lookup req.Language = some id := by
      rcases hkeys with h1 | h1 | h1 | h1 | h1
      · exact ⟨71, (LanguageID_lookup _ _).mpr (Or.inl ⟨h1, rfl⟩)⟩
      · exact ⟨63, (LanguageID_lookup _ _).mpr (Or.inr (Or.inl ⟨h1, rfl⟩))⟩
      · exact ⟨62, (LanguageID_lookup _ _).mpr (Or.inr (Or.inr (Or.inl ⟨h1, rfl⟩)))⟩
      · exact ⟨60, (LanguageID_lookup _ _).mpr (Or.inr (Or.inr (Or.inr (Or.inl ⟨h1, rfl⟩))))⟩
      · exact ⟨54, (LanguageID_lookup _ _).mpr (Or.inr (Or.inr (Or.inr (Or.inr ⟨h1, rfl⟩))))⟩
    refine ⟨?_, hid, ?_⟩
    · unfold CodeHandler.Execute
      simp only [hv, Bool.not_true, Bool.false_eq_true, if_false]
    · intro req1 startTime st1 e st2 hlang hrun
      obtain ⟨id, hL⟩ := hid
      rw [← hlang] at hL
      apply ne_of_head_ne
      rw [head_append_some "unsupported language: " req1.Language 'u' rfl]
      rcases executeSimple_error_head env h.svc fuel req1 startTime st1 id e st2 hL hrun with
        h1 | h1 <;> rw [h1] <;> decide
  · intro hout
    have hv : (validLanguages.lookup req.Language).getD false = false := by
      cases hb : (validLanguages.lookup req.Language).getD false with
      | false => rfl
      | true =>
        exact absurd ((LanguageID_keys _).mpr ((validLanguages_lookup _).mp hb)) hout
    have heq : h.Execute env fuel requestID (.ok req) st =
        some (ValidationError env requestID "Invalid language"
          (some [("language", .text req.Language),
                 ("supported_languages",
                   .texts ["python", "javascript", "java", "go", "cpp"])]) st) := by
      unfold CodeHandler.Execute
      simp only [hv, Bool.not_false, if_true]
    refine ⟨heq, ?_⟩
    intro reply st2 hr
    rw [heq] at hr
    injection hr with hr
    injection hr with h1 h2
    subst h1 h2
    exact ⟨rfl, rfl, _, rfl⟩

theorem C19_handler_languages_are_table_keys_witness :
    ("ruby" ∉ LanguageID.map Prod.fst) ∧
    (CodeHandler.mk judgeService).Execute crashEnv 5 "req-1"
        (.ok { pythonRequest with Language := "ruby" }) st0 =
      some (.apiError 400
        { Code := "VALIDATION_ERROR", Message := "Invalid language",
          Details := [("language", .text "ruby"),
                      ("supported_languages",
                        .texts ["python", "javascript", "java", "go", "cpp"])],
          Timestamp := 0, RequestID := "req-1" },
        { st0 with clockReads := 1 }) ∧
    (validLanguages.lookup pythonRequest.Language).getD false = true ∧
    (CodeHandler.mk judgeService).Execute crashEnv 5 "req-1" (.ok pythonRequest) st0 =
      some (.response 200
        { Output := "", Error := "boom", Passed := false, TestResults := [],
          ExecutionTimeMs := 400, ExitCode := 1 },
        { clockReads := 5, exchanges := 3, selects := 2, trace := crashTrace }) :=
  ⟨by decide,
   ((C19_handler_languages_are_table_keys crashEnv (CodeHandler.mk judgeService) 5 "req-1"
     { pythonRequest with Language := "ruby" } st0).2.2.2 (by decide)).1,
   by decide, by decide⟩

/-- C20: `IsAvailable` is true exactly when the client's base URL is not the
empty string; it is the same for any API key, and for any two clients with the
same base URL. It is a function of the client alone: it reads no state and
makes no HTTP exchange. -/
theorem C20_isAvailable_iff_base_url (c : Client) :
    (c.IsAvailable = true ↔ c.apiURL ≠ "") ∧
    (∀ key : String, ({ c with apiKey := key } : Client).IsAvailable = c.IsAvailable) ∧
    (∀ c2 : Client, c2.apiURL = c.apiURL → c2.IsAvailable = c.IsAvailable) := by
  refine ⟨?_, ?_, ?_⟩
  · unfold Client.IsAvailable
    simp
  · intro key; rfl
  · intro c2 h2
    unfold Client.IsAvailable
    rw [h2]

/-- C21: for a request with test cases (and a clock that advances), the
`ExecutionTimeMs` of the response of `Execute` is the whole milliseconds of the
time between its first clock reading, taken on entry, and its last, taken after
the last test case. With a clock that does not go back (and that time fitting
a `Duration`, as any time between two readings of Go's clock does) it is at
least the sum of the `ExecutionTimeMs` of the entries of `TestResults`. -/
theorem C21_total_time_is_end_to_end (env : Env) (s : Service) (req : ExecuteRequest)
    (st : St) (hclock : ClockAdvances env) (hmono : Monotone env.clock)
    (hN : 1 ≤ req.TestCases.length) :
    ∃ fuel0, ∀ fuel, fuel0 ≤ fuel → ∃ resp st2,
      s.Execute env fuel req st = some (.ok resp, st2) ∧
      st.clockReads + 1 ≤ st2.clockReads ∧
      resp.ExecutionTimeMs =
        Milliseconds (clampInt64 (env.clock (st2.clockReads - 1) - env.clock st.clockReads)) ∧
      (env.clock (st2.clockReads - 1) - env.clock st.clockReads < 2 ^ 63 →
        (resp.TestResults.map (fun t => t.ExecutionTimeMs)).sum ≤ resp.ExecutionTimeMs) := by
  obtain ⟨fuel0, h⟩ := Execute_tests_total env s req st hclock hN
  refine ⟨fuel0, fun fuel hle => ?_⟩
  obtain ⟨trs, ap, st1, hloop, hex⟩ := h fuel hle
  have hle1 : st.clockReads + 1 ≤ st1.clockReads := by
    obtain ⟨outs, new, h1, -, -, -⟩ := loop_subRuns env s fuel req _ _ _ _ trs ap st1 hloop
    clear h1
    have key : ∀ (cases : List TestCase) (acc : List TestResult) (ap : Bool) (sa : St)
        (trs : List TestResult) (ap2 : Bool) (sb : St),
        executeWithTests.loop env s fuel req cases acc ap sa = some (trs, ap2, sb) →
        sa.clockReads ≤ sb.clockReads := by
      intro cases
      induction cases with
      | nil =>
        intro acc ap sa trs ap2 sb h
        rw [loop_nil] at h
        injection h with h
        injection h with h1 h2
        injection h2 with h2 h3
        rw [h3]
      | cons tc rest ih =>
        intro acc ap sa trs ap2 sb h
        rw [loop_cons] at h
        cases hr : s.executeSimple env fuel (testRequest req tc) (timeNow env sa).1
            (timeNow env sa).2 with
        | none => rw [hr] at h; cases h
        | some y =>
          rcases y with ⟨o, sc⟩
          rw [hr] at h
          have h1 := (executeSimple_time env s fuel _ _ _ sc o hr).1
          have h1' : sa.clockReads + 1 ≤ sc.clockReads := h1
          cases o with
          | error err =>
            have h2 := ih _ _ _ _ _ _ h
            have h2' : sc.clockReads + 1 ≤ sb.clockReads := h2
            omega
          | ok result =>
            have h2 := ih _ _ _ _ _ _ h
            omega
    exact key _ _ _ _ _ _ _ hloop
  refine ⟨_, _, hex, ?_, ?_, ?_⟩
  · show st.clockReads + 1 ≤ st1.clockReads + 1
    omega
  · show Milliseconds (timeSince env (timeNow env st).1 st1).1 = _
    simp [timeSince, timeNow]
  · intro hfit
    have hfit' : env.clock st1.clockReads - env.clock st.clockReads < 2 ^ 63 := by
      simpa [timeSince, timeNow] using hfit
    obtain ⟨-, new, hnew, hsum⟩ := loop_time env s fuel req hmono st.clockReads st1.clockReads
      hfit' _ _ _ _ trs ap st1 hloop (by simp [timeNow]) (le_refl _)
    rw [List.nil_append] at hnew
    subst hnew
    have hsum' : (trs.map (fun t => t.ExecutionTimeMs)).sum * 1000000 ≤
        env.clock st1.clockReads - env.clock (st.clockReads + 1) := hsum
    have hm := hmono (show st.clockReads ≤ st.clockReads + 1 by omega)
    have hd0 : 0 ≤ env.clock st1.clockReads - env.clock st.clockReads := by
      have := hmono (show st.clockReads ≤ st1.clockReads by omega)
      omega
    show (trs.map (fun t => t.ExecutionTimeMs)).sum ≤
      Milliseconds (timeSince env (timeNow env st).1 st1).1
    simp only [timeSince, timeNow]
    rw [clampInt64_of_fits _ hd0 hfit']
    unfold Milliseconds
    rw [Int.tdiv_eq_ediv hd0 (by norm_num)]
    apply Int.le_ediv_of_mul_le (by norm_num)
    omega

theorem C21_total_time_is_end_to_end_witness :
    ClockAdvances mixedEnv ∧ Monotone mixedEnv.clock ∧ 1 ≤ gradedRequest.TestCases.length ∧
    (∃ fuel0, ∀ fuel, fuel0 ≤ fuel → ∃ resp st2,
      judgeService.Execute mixedEnv fuel gradedRequest st0 = some (.ok resp, st2) ∧
      st0.clockReads + 1 ≤ st2.clockReads ∧
      resp.ExecutionTimeMs =
        Milliseconds (clampInt64
          (mixedEnv.clock (st2.clockReads - 1) - mixedEnv.clock st0.clockReads)) ∧
      (mixedEnv.clock (st2.clockReads - 1) - mixedEnv.clock st0.clockReads < 2 ^ 63 →
        (resp.TestResults.map (fun t => t.ExecutionTimeMs)).sum ≤ resp.ExecutionTimeMs)) ∧
    (judgeService.Execute mixedEnv 5 gradedRequest st0).map
        (fun x => x.1.toOption.map
          (fun r => (r.TestResults.map (fun t => t.ExecutionTimeMs), r.ExecutionTimeMs))) =
      some (some ([300, 300], 900)) :=
  ⟨stubEnv_clockAdvances _,
   fun a b hab => by
     show (a : Int) * 100000000 ≤ (b : Int) * 100000000
     have : (a : Int) ≤ (b : Int) := by exact_mod_cast hab
     omega,
   by decide,
   C21_total_time_is_end_to_end mixedEnv judgeService gradedRequest st0
     (stubEnv_clockAdvances _)
     (fun a b hab => by
       show (a : Int) * 100000000 ≤ (b : Int) * 100000000
       have : (a : Int) ≤ (b : Int) := by exact_mod_cast hab
       omega)
     (by decide),
   by decide⟩

/-- C22 (amended): `executeSimple` is deterministic in everything but elapsed
time as long as the context is not cancelled: two calls with the same request
against the same service, neither of whose contexts is ever done, that saw the
same sequence of judge responses up to the judge-reported time and memory,
return the same `Passed`, `Output`, `Error` and `ExitCode`, or the same error,
whatever the two clocks, start times, fuels and earlier states are. -/
theorem C22_same_judge_responses_same_verdict (env1 env2 : Env) (s : Service)
    (fuel1 fuel2 : Nat) (req : ExecuteRequest) (start1 start2 : Int) (st1 st2 sa sb : St)
    (out1 out2 : Except GoError ExecuteResponse)
    (hctx1 : ∀ k, env1.select k = .tick) (hctx2 : ∀ k, env2.select k = .tick)
    (h1 : s.executeSimple env1 fuel1 req start1 st1 = some (out1, sa))
    (h2 : s.executeSimple env2 fuel2 req start2 st2 = some (out2, sb))
    (hlog : judgeResponses st1 sa = judgeResponses st2 sb) :
    sameVerdict out1 out2 :=
  executeSimple_same_log env1 env2 s fuel1 fuel2 req start1 start2 st1 st2 sa sb out1 out2
    hctx1 hctx2 h1 h2 hlog

/-- C22, witness: the same crashed run seen on a clock of 100 ms per reading
and on one of 250 ms per reading with another reported time and memory. -/
theorem C22_same_judge_responses_same_verdict_witness :
    (∀ k, crashEnv.select k = .tick) ∧ (∀ k, slowEnv.select k = .tick) ∧
    judgeService.executeSimple crashEnv 10 pythonRequest 0 st0 =
      some (.ok (crashResponse 300),
        { clockReads := 4, exchanges := 3, selects := 2, trace := crashTrace }) ∧
    judgeService.executeSimple slowEnv 20 pythonRequest 7 st0 =
      some (.ok (crashResponse 749),
        { clockReads := 4, exchanges := 3, selects := 2, trace := slowTrace }) ∧
    crashTrace ≠ slowTrace ∧
    sameVerdict (.ok (crashResponse 300)) (.ok (crashResponse 749)) :=
  ⟨fun _ => rfl, fun _ => rfl, by decide, by decide, by decide,
    C22_same_judge_responses_same_verdict crashEnv slowEnv judgeService 10 20 pythonRequest
      0 7 st0 st0
      { clockReads := 4, exchanges := 3, selects := 2, trace := crashTrace }
      { clockReads := 4, exchanges := 3, selects := 2, trace := slowTrace }
      (.ok (crashResponse 300)) (.ok (crashResponse 749))
      (fun _ => rfl) (fun _ => rfl) (by decide) (by decide) (by decide)⟩

/-- C22, counterexample to the claim as worded: the same request against the
same service and the same judge, with the same single judge response received
(the accepted submission), ends with the timeout error when the deadline has
passed and with the context's error when the context is cancelled first. -/
theorem C22_cancelled_run_differs_counterexample :
    frozenEnv.http = busyEnv.http ∧ frozenEnv.decodeToken = busyEnv.decodeToken ∧
    frozenEnv.decodeResult = busyEnv.decodeResult ∧
    ∃ (e1 e2 : GoError) (sa sb : St),
      quickService.executeSimple busyEnv 10 pythonRequest 0 st0 = some (.error e1, sa) ∧
      quickService.executeSimple frozenEnv 10 pythonRequest 0 st0 = some (.error e2, sb) ∧
      sa.trace = [.Submit (submissionFor quickService pythonRequest 71) (.ok "t1")] ∧
      sb.trace = sa.trace ∧
      e1 = .wrapf "judge0 execution: " (.errorf "timeout waiting for result") ∧
      e2 = .wrapf "judge0 execution: " (.errorf "context canceled") ∧
      e1 ≠ e2 :=
  ⟨rfl, rfl, rfl,
    .wrapf "judge0 execution: " (.errorf "timeout waiting for result"),
    .wrapf "judge0 execution: " (.errorf "context canceled"),
    { clockReads := 2, exchanges := 1, selects := 0,
      trace := [.Submit (submissionFor quickService pythonRequest 71) (.ok "t1")] },
    { clockReads := 2, exchanges := 1, selects := 1,
      trace := [.Submit (submissionFor quickService pythonRequest 71) (.ok "t1")] },
    by decide, by decide, rfl, rfl, rfl, rfl, by decide⟩

/-- C23: for every state of the in-memory repository and every title and
description, `CreateCourse` (no options) returns without error a course with
that title and description and an ID other than `uuid.Nil`; the course is then
stored under its ID, and a following `GetCourse` with that ID returns it
without error. -/
theorem C23_create_then_get (rt : Runtime) (r : InMemoryCourseRepository) (u : RunSt)
    (title description : String) :
    ∃ (created : Course) (r2 : InMemoryCourseRepository) (u2 : RunSt),
      CreateCourse rt title description [] r u = (.ok created, r2, u2) ∧
      created.Title = title ∧ created.Description = description ∧
      created.ID ≠ uuid.Nil ∧
      mapGet r2.storage created.ID = some created ∧
      GetCourse r2 created.ID = .ok created := by
  refine ⟨_, _, _, CreateCourse_plain rt title description r u, rfl, rfl,
    uuid_New_ne_Nil rt u, mapGet_mapSet_same _ _ _, ?_⟩
  simp only [GetCourse, InMemoryCourseRepository.Get, mapGet_mapSet_same]
  rw [if_neg (uuid_New_ne_Nil rt u)]

/-- C24: with a `range` that visits every entry of the map once, `ListCourses`
on a freshly constructed repository returns a non-empty list made of the seed
courses (both of them when their IDs differ), and for every repository state,
after a `CreateCourse` whose generated ID is not already stored, `ListCourses`
returns exactly one more course than before: the list is a rearrangement of
the created course and the courses listed before, so every previously listed
course is still present. -/
theorem C24_list_grows_by_one (rt : Runtime)
    (hrange : ∀ k m, (rt.rangeOrder k m).Perm m)
    (r : InMemoryCourseRepository) (ua ub uc : RunSt) (title description : String)
    (hfresh : mapGet r.storage (uuid.New rt ub).1 = none) :
    (∀ u u1 : RunSt, ∃ seeds,
      (ListCourses rt (NewInMemoryCourseRepository rt u).1 u1).1 = .ok seeds ∧
      seeds ≠ [] ∧
      seedConcurrency (uuid.New rt (uuid.New rt u).2).1 ∈ seeds ∧
      (∀ c ∈ seeds, c = seedBasics (uuid.New rt u).1 ∨
        c = seedConcurrency (uuid.New rt (uuid.New rt u).2).1) ∧
      ((uuid.New rt u).1 ≠ (uuid.New rt (uuid.New rt u).2).1 →
        seeds.Perm [seedBasics (uuid.New rt u).1,
                    seedConcurrency (uuid.New rt (uuid.New rt u).2).1])) ∧
    ∃ (before after : List Course) (created : Course) (r2 : InMemoryCourseRepository)
        (u2 : RunSt),
      (ListCourses rt r ua).1 = .ok before ∧
      CreateCourse rt title description [] r ub = (.ok created, r2, u2) ∧
      (ListCourses rt r2 uc).1 = .ok after ∧
      after.length = before.length + 1 ∧
      after.Perm (created :: before) ∧
      (∀ c ∈ before, c ∈ after) ∧
      created ∈ after := by
  constructor
  · intro u u1
    obtain ⟨l, hl, hp⟩ := List_perm rt hrange (NewInMemoryCourseRepository rt u).1 u1
    rw [New_storage] at hp
    refine ⟨l, hl, ?_, ?_, ?_, ?_⟩
    · intro h0
      rw [h0] at hp
      have := hp.length_eq
      split at this <;> simp at this
    · rw [hp.mem_iff]
      split <;> simp
    · intro c hc
      rw [hp.mem_iff] at hc
      split at hc
      · right; simpa using hc
      · simpa using hc
    · intro hne
      rw [if_neg hne] at hp
      simpa using hp
  · obtain ⟨before, hb, hpb⟩ := List_perm rt hrange r ua
    obtain ⟨created, hc⟩ : ∃ created, CreateCourse rt title description [] r ub =
        (.ok created, { storage := r.storage ++ [((uuid.New rt ub).1, created)] },
         (uuid.New rt ub).2) :=
      ⟨_, by rw [CreateCourse_plain, mapSet_of_absent _ _ _ hfresh]⟩
    obtain ⟨after, ha, hpa⟩ := List_perm rt hrange
      { storage := r.storage ++ [((uuid.New rt ub).1, created)] } uc
    have hperm : after.Perm (created :: before) := by
      refine hpa.trans ?_
      simp only [List.map_append, List.map_cons, List.map_nil]
      exact (List.perm_append_singleton _ _).trans (List.Perm.cons _ hpb.symm)
    refine ⟨before, after, created, _, _, hb, hc, ha, ?_, hperm, ?_, ?_⟩
    · simpa using hperm.length_eq
    · intro c hcb
      exact hperm.mem_iff.mpr (List.mem_cons_of_mem _ hcb)
    · exact hperm.mem_iff.mpr (List.mem_cons_self _ _)

/-- C24, witness: a course `X` created in the freshly constructed repository
of a run whose `range` visits the entries last to first. -/
theorem C24_list_grows_by_one_witness :
    (∀ k m, (stubRuntime.rangeOrder k m).Perm m) ∧
    mapGet seededRepo.storage (uuid.New stubRuntime u2).1 = none ∧
    ∃ (before after : List Course) (created : Course) (r2 : InMemoryCourseRepository)
        (u3 : RunSt),
      (ListCourses stubRuntime seededRepo u2).1 = .ok before ∧
      CreateCourse stubRuntime "X" "Y" [] seededRepo u2 = (.ok created, r2, u3) ∧
      (ListCourses stubRuntime r2 u2).1 = .ok after ∧
      after.length = before.length + 1 ∧
      after.Perm (created :: before) ∧
      (∀ c ∈ before, c ∈ after) ∧
      created ∈ after :=
  ⟨fun _ m => List.reverse_perm m, by decide,
    (C24_list_grows_by_one stubRuntime (fun _ m => List.reverse_perm m) seededRepo u2 u2 u2
      "X" "Y" (by decide)).2⟩

/-- C25: the entry the aggregator records for a run that returned a response
has `Passed` decided by the trimmed outputs alone: two responses with the same
`Output` give the same verdict, whatever their own `Passed`, `Error` and
`ExitCode`. And there is a run in which the judge reports a status other than
3, a non-zero exit code and a non-empty stderr, while the test case's entry
has `Passed` true with a non-empty `ErrorMessage` and the overall `Passed` is
true. -/
theorem C25_verdict_ignores_run_status :
    (∀ (tc : TestCase) (r1 r2 : ExecuteResponse), r1.Output = r2.Output →
      (gradedResult tc r1).Passed = (gradedResult tc r2).Passed) ∧
    (∀ (env : Env) (s : Service) (fuel : Nat) (req : ExecuteRequest) (tc : TestCase)
        (rest : List TestCase) (acc : List TestResult) (ap : Bool) (st st2 : St)
        (result : ExecuteResponse),
      s.executeSimple env fuel (testRequest req tc) (timeNow env st).1 (timeNow env st).2 =
        some (.ok result, st2) →
      executeWithTests.loop env s fuel req (tc :: rest) acc ap st =
        executeWithTests.loop env s fuel req rest
          (acc ++ [{ TestCase := tc, ActualOutput := result.Output,
                     Passed := TrimSpace result.Output == TrimSpace tc.ExpectedOutput,
                     ErrorMessage := result.Error,
                     ExecutionTimeMs := result.ExecutionTimeMs }])
          (ap && (TrimSpace result.Output == TrimSpace tc.ExpectedOutput)) st2) ∧
    (∃ (tok : String) (r : SubmissionResult) (resp : ExecuteResponse) (st2 : St)
        (t : TestResult),
      judgeService.Execute sloppyEnv 5 hiRequest st0 = some (.ok resp, st2) ∧
      Call.GetResult tok (.ok r) ∈ st2.trace ∧
      r.Status.ID ≠ 3 ∧ r.ExitCode ≠ 0 ∧ r.Stderr ≠ "" ∧
      resp.TestResults = [t] ∧ t.Passed = true ∧ t.ErrorMessage ≠ "" ∧
      resp.Passed = true) := by
  refine ⟨?_, ?_, ?_⟩
  · intro tc r1 r2 h
    simp only [gradedResult, h]
  · intro env s fuel req tc rest acc ap st st2 result hrun
    rw [loop_cons, hrun]
    rfl
  · exact ⟨"t1", crashedHi,
      { Output := "", Error := "", Passed := true,
        TestResults := [{ TestCase := caseHi, ActualOutput := "hi\n", Passed := true,
                          ErrorMessage := "boom", ExecutionTimeMs := 300 }],
        ExecutionTimeMs := 500, ExitCode := 0 },
      { clockReads := 6, exchanges := 2, selects := 1,
        trace := [.Submit (submissionFor judgeService (testRequest hiRequest caseHi) 71)
                    (.ok "t1"),
                  .GetResult "t1" (.ok crashedHi)] },
      { TestCase := caseHi, ActualOutput := "hi\n", Passed := true,
        ErrorMessage := "boom", ExecutionTimeMs := 300 },
      by decide, by decide, by decide, by decide, by decide, rfl, rfl, by decide, rfl⟩

/-- C26: with no judge available and the language `go`, `executeSimple`
returns, for every code and stdin, the response with `Output` equal to `Local
execution not fully implemented`, empty `Error`, `Passed` true and `ExitCode`
0; and with test cases every entry has that text as `ActualOutput` and passes
exactly when the `TrimSpace` of its expected output is that text. -/
theorem C26_local_result_is_fixed (env : Env) (s : Service) (fuel : Nat) (req : ExecuteRequest)
    (startTime : Int) (st : St)
    (hf : s.judge0Client.filter Client.IsAvailable = none) (hgo : req.Language = "go") :
    (∀ code stdin : String, ∃ ms st2,
      s.executeSimple env fuel { req with Code := code, Stdin := stdin } startTime st =
        some (.ok { Output := "Local execution not fully implemented", Error := "",
                    Passed := true, TestResults := [], ExecutionTimeMs := ms,
                    ExitCode := 0 }, st2)) ∧
    (∀ code stdin : String,
      (s.executeSimple env fuel { req with Code := code, Stdin := stdin } startTime st).map
          (fun x => x.1) =
        (s.executeSimple env fuel req startTime st).map (fun x => x.1)) ∧
    (1 ≤ req.TestCases.length → ∃ resp st2,
      s.Execute env fuel req st = some (.ok resp, st2) ∧
      resp.TestResults.map (fun t => (t.TestCase, t.ActualOutput, t.Passed, t.ErrorMessage)) =
        req.TestCases.map (fun tc => (tc, "Local execution not fully implemented",
          decide (TrimSpace tc.ExpectedOutput = "Local execution not fully implemented"),
          ""))) := by
  refine ⟨?_, ?_, ?_⟩
  · intro code stdin
    exact ⟨_, _, executeSimple_local env s fuel { req with Code := code, Stdin := stdin }
      startTime st hf hgo⟩
  · intro code stdin
    rw [executeSimple_local env s fuel { req with Code := code, Stdin := stdin }
      startTime st hf hgo, executeSimple_local env s fuel req startTime st hf hgo]
    rfl
  · intro hN
    obtain ⟨new, ap2, st2, h1, h2⟩ :=
      loop_local env s fuel req hf hgo req.TestCases [] true (timeNow env st).2
    rw [List.nil_append] at h1
    refine ⟨_, _, by rw [Execute_tests env s fuel req st hN, h1], ?_⟩
    exact h2

theorem C26_local_result_is_fixed_witness :
    bareService.judge0Client.filter Client.IsAvailable = none ∧ goGraded.Language = "go" ∧
    ((∀ code stdin : String, ∃ ms st2,
      bareService.executeSimple (stubEnv []) 0 { goGraded with Code := code, Stdin := stdin }
          0 st0 =
        some (.ok { Output := "Local execution not fully implemented", Error := "",
                    Passed := true, TestResults := [], ExecutionTimeMs := ms,
                    ExitCode := 0 }, st2)) ∧
     (∀ code stdin : String,
      (bareService.executeSimple (stubEnv []) 0 { goGraded with Code := code, Stdin := stdin }
          0 st0).map (fun x => x.1) =
        (bareService.executeSimple (stubEnv []) 0 goGraded 0 st0).map (fun x => x.1)) ∧
     (1 ≤ goGraded.TestCases.length → ∃ resp st2,
      bareService.Execute (stubEnv []) 0 goGraded st0 = some (.ok resp, st2) ∧
      resp.TestResults.map (fun t => (t.TestCase, t.ActualOutput, t.Passed, t.ErrorMessage)) =
        goGraded.TestCases.map (fun tc => (tc, "Local execution not fully implemented",
          decide (TrimSpace tc.ExpectedOutput = "Local execution not fully implemented"),
          "")))) ∧
    (bareService.Execute (stubEnv []) 0 goGraded st0).map
        (fun x => x.1.toOption.map (fun r => r.TestResults.map (fun t => t.Passed))) =
      some (some [true, false]) :=
  ⟨by decide, rfl,
   C26_local_result_is_fixed (stubEnv []) bareService 0 goGraded 0 st0 (by decide) rfl,
   by decide⟩

/-- C27: `Submit` returns a token only when the judge answered with status 201
and a body that decodes to that token, and `GetResult` returns a result only
when the judge answered with status 200 and a body that decodes to it; when the
judge answers with any other status code (200 on a submit, 201 or 204 on a
poll, ...) they fail with the error `judge0 api error: <code> - <body>`. -/
theorem C27_only_201_and_200_accepted (env : Env) (c : Client) (req : SubmissionRequest)
    (token : String) (st : St) :
    (∀ tok, (c.Submit env req st).1 = .ok tok →
      ∃ r body, env.http st.exchanges r = .resp 201 body ∧ env.decodeToken body = .ok tok) ∧
    (∀ (code : Int) (body : String), (∀ u, env.urlErr u = none) →
      (∀ r, env.http st.exchanges r = .resp code body) → code ≠ 201 →
      (c.Submit env req st).1 =
        .error (.errorf ("judge0 api error: " ++ toString code ++ " - " ++ body))) ∧
    (∀ res, (c.GetResult env token st).1 = .ok res →
      ∃ r body, env.http st.exchanges r = .resp 200 body ∧ env.decodeResult body = .ok res) ∧
    (∀ (code : Int) (body : String), (∀ u, env.urlErr u = none) →
      (∀ r, env.http st.exchanges r = .resp code body) → code ≠ 200 →
      (c.GetResult env token st).1 =
        .error (.errorf ("judge0 api error: " ++ toString code ++ " - " ++ body))) := by
  refine ⟨?_, ?_, ?_, ?_⟩
  · intro tok h
    unfold Client.Submit at h
    simp only [httpDo] at h
    split at h
    · cases h
    · split at h
      · cases h
      · rename_i code body st1 heq
        split at h
        · cases h
        · rename_i hcode
          split at h
          · cases h
          · rename_i tok1 hdec
            injection h with h
            subst h
            simp only [Prod.mk.injEq] at heq
            have h201 : code = 201 := by
              by_contra hne
              exact hcode hne
            subst h201
            exact ⟨_, body, heq.1, hdec⟩
  · intro code body hurl hhttp hcode
    unfold Client.Submit
    simp only [httpDo, hurl, hhttp, hcode, ne_eq, not_false_eq_true, if_true]
  · intro res h
    unfold Client.GetResult at h
    simp only [httpDo] at h
    split at h
    · cases h
    · split at h
      · cases h
      · rename_i code body st1 heq
        split at h
        · cases h
        · rename_i hcode
          split at h
          · cases h
          · rename_i res1 hdec
            injection h with h
            subst h
            simp only [Prod.mk.injEq] at heq
            have h200 : code = 200 := by
              by_contra hne
              exact hcode hne
            subst h200
            exact ⟨_, body, heq.1, hdec⟩
  · intro code body hurl hhttp hcode
    unfold Client.GetResult
    simp only [httpDo, hurl, hhttp, hcode, ne_eq, not_false_eq_true, if_true]

theorem C27_only_201_and_200_accepted_witness :
    (∀ u, (stubEnv [.resp 200 "{}"]).urlErr u = none) ∧
    (∀ r, (stubEnv [.resp 200 "{}"]).http st0.exchanges r = .resp 200 "{}") ∧
    (200 : Int) ≠ 201 ∧
    (judgeClient.Submit (stubEnv [.resp 200 "{}"]) (submissionFor judgeService pythonRequest 71)
        st0).1 =
      .error (.errorf ("judge0 api error: " ++ toString (200 : Int) ++ " - " ++ "{}")) ∧
    (judgeClient.GetResult (stubEnv [.resp 204 ""]) "t1" st0).1 =
      .error (.errorf "judge0 api error: 204 - ") ∧
    (judgeClient.GetResult (stubEnv [.resp 201 "x"]) "t1" st0).1 =
      .error (.errorf "judge0 api error: 201 - x") :=
  ⟨fun _ => rfl, fun _ => rfl, by decide,
   (C27_only_201_and_200_accepted (stubEnv [.resp 200 "{}"]) judgeClient
     (submissionFor judgeService pythonRequest 71) "t1" st0).2.1 200 "{}"
     (fun _ => rfl) (fun _ => rfl) (by decide),
   by decide, by decide⟩

/-- C28 (amended): with a clock that does not go back and a timeout of at most
zero, `SubmitAndWait` makes the `Submit` call and no `GetResult` call. When the
`Submit` succeeds it returns no result and the error `timeout waiting for
result`, whatever the judge would answer to a poll; when the `Submit` fails it
returns the error of the `Submit`. -/
theorem C28_nonpositive_timeout (env : Env) (c : Client) (fuel : Nat)
    (req : SubmissionRequest) (timeout : Int) (st : St)
    (hmono : Monotone env.clock) (htimeout : timeout ≤ 0) :
    (∀ tok, (c.Submit env req st).1 = .ok tok →
      ∃ st2, c.SubmitAndWait env (fuel + 1) req timeout st =
          some (.error (.errorf "timeout waiting for result"), st2) ∧
        st2.trace = st.trace ++ [Call.Submit req (.ok tok)] ∧
        st2.exchanges = st.exchanges + 1) ∧
    (∀ err, (c.Submit env req st).1 = .error err →
      ∃ st2, c.SubmitAndWait env (fuel + 1) req timeout st = some (.error err, st2) ∧
        st2.trace = st.trace ++ [Call.Submit req (.error err)]) := by
  constructor
  · intro tok hsub
    refine ⟨(timeNow env (timeNow env (c.Submit env req st).2).2).2, ?_, ?_, ?_⟩
    · rw [SubmitAndWait_eq, hsub]
      simp only []
      rw [poll_succ, step_timeout]
      have := hmono (Nat.le_add_right (c.Submit env req st).2.clockReads 1)
      simp only [timeNow]
      omega
    · show (c.Submit env req st).2.trace = _
      rw [Submit_trace, hsub]
    · show (c.Submit env req st).2.exchanges = _
      exact Submit_exchanges env c req st tok hsub
  · intro err herr
    exact ⟨_, by rw [SubmitAndWait_eq, herr], by rw [Submit_trace, herr]⟩

theorem C28_nonpositive_timeout_witness :
    Monotone crashEnv.clock ∧ (0 : Int) ≤ 0 ∧
    (judgeClient.Submit crashEnv (submissionFor judgeService pythonRequest 71) st0).1 =
      .ok "t1" ∧
    (∃ st2, judgeClient.SubmitAndWait crashEnv (4 + 1)
          (submissionFor judgeService pythonRequest 71) 0 st0 =
          some (.error (.errorf "timeout waiting for result"), st2) ∧
        st2.trace = st0.trace ++
          [Call.Submit (submissionFor judgeService pythonRequest 71) (.ok "t1")] ∧
        st2.exchanges = st0.exchanges + 1) :=
  ⟨fun a b hab => by
      show (a : Int) * 100000000 ≤ (b : Int) * 100000000
      have : (a : Int) ≤ (b : Int) := by exact_mod_cast hab
      omega,
   le_refl _, by decide,
   (C28_nonpositive_timeout crashEnv judgeClient 4
     (submissionFor judgeService pythonRequest 71) 0 st0
     (fun a b hab => by
        show (a : Int) * 100000000 ≤ (b : Int) * 100000000
        have : (a : Int) ≤ (b : Int) := by exact_mod_cast hab
        omega)
     (le_refl _)).1 "t1" (by decide)⟩

theorem C28_failed_submit_is_not_a_timeout_counterexample :
    (0 : Int) ≤ 0 ∧
    judgeClient.SubmitAndWait flakyEnv 5 (submissionFor judgeService pythonRequest 71) 0 st0 =
      some (.error (.errorf "judge0 api error: 500 - oops"),
        { clockReads := 0, exchanges := 1, selects := 0,
          trace := [.Submit (submissionFor judgeService pythonRequest 71)
            (.error (.errorf "judge0 api error: 500 - oops"))] }) ∧
    GoError.errorf "judge0 api error: 500 - oops" ≠ .errorf "timeout waiting for result" := by
  decide

/-- C29 (defect in the code): two requests of one key whose handlers overlap,
against a store with limit 1 and no counter yet, both within the first
minutes of the window. The first handler runs `Get` and `Increment` and opens
the window with count 1, within the limit. Before it reads the count for its
check, the second handler runs `Get` and `Increment`, which raises the same
counter to 2 in place. Both handlers then read count 2 through the pointer they
hold: both requests are answered 429 and none is handed on. Handled one after
the other, the first is handed on and the second is answered 429. -/
theorem C29_overlapping_requests_both_rejected :
    (Pool.run minuteEnv 1 timeHour (twoRequests 1) [0, 0]).requests.map
        (fun r => r.stage) = [.counted 1, .entered] ∧
    (Pool.run minuteEnv 1 timeHour (twoRequests 1) [0, 0]).store.objects 1 =
      { Count := 1, Limit := 1, ResetTime := 3660000000000 } ∧
    (Pool.run minuteEnv 1 timeHour (twoRequests 1) [0, 0, 1, 1]).requests.map
        (fun r => r.stage) = [.counted 1, .counted 1] ∧
    (Pool.run minuteEnv 1 timeHour (twoRequests 1) [0, 0, 1, 1]).store.objects 1 =
      { Count := 2, Limit := 1, ResetTime := 3660000000000 } ∧
    (Pool.run minuteEnv 1 timeHour (twoRequests 1) [0, 0, 1, 1, 0, 1]).requests.map
        (fun r => r.stage.handled.map Handled.status) = [some (some 429), some (some 429)] ∧
    (Pool.run minuteEnv 1 timeHour (twoRequests 1) [0, 0, 1, 1, 0, 1]).requests.map
        (fun r => r.stage.handled.map Handled.isNext) = [some false, some false] ∧
    (Pool.run minuteEnv 1 timeHour (twoRequests 1) [0, 0, 0, 1, 1, 1]).requests.map
        (fun r => r.stage.handled.map Handled.isNext) = [some true, some false] := by
  refine ⟨?_, ?_, ?_, ?_, ?_, ?_, ?_⟩ <;> decide

/-- C30 (defect in the code): for every repository state, runtime and filter,
`Search` with `Page` 4611686018427387904 (2^62) and `PageSize` 12 ends in a
run-time panic. The product `(page - 1) * size` wraps around to -12, which
passes the guard `start > len(items)`; `end` becomes 0 and the slice
expression `items[-12:0]` is out of range. -/
theorem C30_huge_page_panics (rt : Runtime) (r : InMemoryCourseRepository)
    (f : ListFilter) (u : RunSt) :
    wrapInt (wrapInt (4611686018427387904 - 1) * 12) = -12 ∧
    r.Search rt { f with Page := 4611686018427387904, PageSize := 12 } u = none ∧
    SearchCourses rt r { f with Page := 4611686018427387904, PageSize := 12 } u = none := by
  have hs : wrapInt (wrapInt (4611686018427387904 - 1) * 12) = -12 := by decide
  have h : r.Search rt { f with Page := 4611686018427387904, PageSize := 12 } u = none := by
    unfold InMemoryCourseRepository.Search
    simp only [show ¬ ((4611686018427387904 : Int) < 1) by decide,
      show ¬ ((12 : Int) ≤ 0 ∨ (100 : Int) < 12) by decide, if_false, hs]
    rw [if_neg (by omega)]
    simp [sliceExpr]
  exact ⟨hs, h, h⟩

end GolangLearn
